import Mathlib

/-!
# memfs (`system/core/devmgr/vfs-memory.c`)

A shallow embedding of the memory filesystem: the sparse block store of a
file (`mem_read`, `mem_write`) and the vnode / dnode graph with the directory
operations (`_mem_create`, `mem_create`, `memfs_lookup`, `mem_can_unlink`,
`memfs_unlink`, `memfs_rename`, `memfs_readdir`), the two operation tables,
and the global root with `vfs_install_remote`. The directory-entry functions
(`dn_lookup`, `dn_create`, `dn_add_child`, `dn_delete`, `dn_move_child`) and
`vn_acquire` / `vn_release` live in files
that are not part of the sources read here; they are modelled from the
specification and marked as such.

Conventions of the embedding.

* `size_t` values are natural numbers.  No arithmetic of the two loops can
  wrap for inputs below `2^64`: the in-block offset is reduced modulo
  `BLOCKSIZE` before the first subtraction, `len - xfer` is guarded by
  `xfer ≤ len`, and `bno * BLOCKSIZE + off + xfer` is only computed for
  `bno < MAXBLOCKS`.
* A pointer to bytes that is only read (`const void*`) is a function from the
  index to the byte; bytes stored through an output pointer are returned as a
  list.
* A `while` loop is a function that recurses structurally on a fuel argument;
  the entry point supplies `len` as fuel and the theorems show that this is
  always enough.
* Pointers to vnodes and dnodes are natural numbers; the heap maps a pointer
  to the object stored there, `none` for memory that is not allocated.
-/

namespace Memfs

/-! ## Constants and result types -/

def MAXBLOCKS : Nat := 64

def BLOCKSIZE : Nat := 8192

/-- The type `uint8_t`: bytes are only copied and the value zero is the only
one the code produces itself. -/
abbrev Byte := Nat

/-- Modelled from the spec: the status codes the file returns. The header
that gives their numeric values is not part of the sources; every `ERR_` code
is negative and `NO_ERROR` is zero. The spec calls the status of an exhausted
block store OutOfSpace; the code returns `ERR_NO_MEMORY` for it. -/
inductive mx_status_t where
  | NO_ERROR
  | ERR_NOT_SUPPORTED
  | ERR_NOT_FOUND
  | ERR_NO_MEMORY
  | ERR_INVALID_ARGS
  | ERR_BAD_STATE
  | ERR_NOT_DIR
  | ERR_ALREADY_EXISTS
  | ERR_ACCESS_DENIED
  deriving DecidableEq, Repr

open mx_status_t

/-- The test `r < 0` on a status. -/
def mx_status_t.isErr : mx_status_t → Bool
  | NO_ERROR => false
  | _ => true

/-- A value of type `ssize_t` as the two loops return it: a byte count
(non-negative) or a negative status. -/
inductive ssize_t where
  | count (n : Nat)
  | status (e : mx_status_t)
  deriving DecidableEq, Repr

/-- Outcome of running a loop of the embedding. `fault` is an access outside
the `block` array (undefined behaviour in C), `timeout` is fuel running out. -/
inductive Run (α : Type) where
  | done (a : α)
  | fault
  | timeout
  deriving DecidableEq, Repr

/-! ## Data model -/

/-- The two operation tables of the file. -/
inductive vnode_ops_t where
  | vn_mem_ops
  | vn_mem_ops_dir
  deriving DecidableEq, Repr

/-- Modelled from the spec: the vnode `vnode_t`, whose declaration (`vfs.h`)
is not part of the sources, with the fields the file uses: the operation
table, the reference count, the flags, the remote handle and the attached
directory entry. `pdata` always points to the enclosing `mnode_t` and is the
record itself here. -/
structure vnode_t where
  ops : Option vnode_ops_t
  refcount : Nat
  flags : Nat
  remote : Int
  dnode : Option Nat
  deriving DecidableEq, Repr

/-- One allocated block: the byte at each in-block offset `< BLOCKSIZE`. -/
abbrev Block := Nat → Byte

/-- `struct mnode`: `block i` is slot `i` of the array for `i < MAXBLOCKS`,
`none` being the `NULL` pointer. -/
structure mnode_t where
  vn : vnode_t
  datalen : Nat
  block : Nat → Option Block

/-- What `calloc(1, BLOCKSIZE)` returns on success. -/
def zero_block : Block := fun _ => 0

/-- The effect of `memcpy(blk + off, data, xfer)` on the block. -/
def memcpy_to (blk : Block) (off : Nat) (data : Nat → Byte) (xfer : Nat) : Block :=
  fun i => if off ≤ i ∧ i < off + xfer then data (i - off) else blk i

/-- The bytes `memcpy(data, blk + off, xfer)` stores at `data`. -/
def memcpy_from (blk : Block) (off xfer : Nat) : List Byte :=
  (List.range xfer).map (fun j => blk (off + j))

/-- The bytes `memset(data, 0, xfer)` stores at `data`. -/
def memset_zero (xfer : Nat) : List Byte :=
  List.replicate xfer 0

/-! ## Block store -/

/-- The `while (len > 0)` loop of `mem_read`. `data` holds the bytes stored
at the output pointer so far. Reading `block[bno]` for `bno ≥ MAXBLOCKS` is an
access outside the array and ends the run with `Run.fault`. -/
def mem_read_loop (mem : mnode_t) :
    Nat → Nat → Nat → Nat → List Byte → Nat → Run (List Byte × Nat)
  | 0, len, _, _, data, count =>
    if len > 0 then Run.timeout else Run.done (data, count)
  | fuel + 1, len, bno, off, data, count =>
    if len > 0 then
      let xfer := BLOCKSIZE - off
      let xfer := if len < xfer then len else xfer
      if bno < MAXBLOCKS then
        match mem.block bno with
        | none =>
          mem_read_loop mem fuel (len - xfer) (bno + 1) 0
            (data ++ memset_zero xfer) (count + xfer)
        | some blk =>
          mem_read_loop mem fuel (len - xfer) (bno + 1) 0
            (data ++ memcpy_from blk off xfer) (count + xfer)
      else Run.fault
    else Run.done (data, count)

/-- The function `mem_read`: the bytes stored at `_data` and the count
returned. -/
def mem_read (mem : mnode_t) (len off : Nat) : Run (List Byte × Nat) :=
  if off ≥ mem.datalen then Run.done ([], 0)
  else
    let len := if len > mem.datalen - off then mem.datalen - off else len
    let bno := off / BLOCKSIZE
    let off := off % BLOCKSIZE
    mem_read_loop mem len len bno off [] 0

/-- The value of `count ? count : ERR_NO_MEMORY`. -/
def count_or_nomem (count : Nat) : ssize_t :=
  if count ≠ 0 then ssize_t.count count else ssize_t.status ERR_NO_MEMORY

/-- The `while (len > 0)` loop of `mem_write`. `calloc_ok bno` tells whether
the `calloc` for slot `bno` succeeds, should the loop reach it (each slot is
visited at most once in a call). -/
def mem_write_loop (calloc_ok : Nat → Bool) :
    Nat → mnode_t → (Nat → Byte) → Nat → Nat → Nat → Nat → Run (mnode_t × ssize_t)
  | 0, mem, _, len, _, _, count =>
    if len > 0 then Run.timeout else Run.done (mem, ssize_t.count count)
  | fuel + 1, mem, data, len, bno, off, count =>
    if len > 0 then
      let xfer := BLOCKSIZE - off
      let xfer := if len < xfer then len else xfer
      if bno ≥ MAXBLOCKS then Run.done (mem, count_or_nomem count)
      else
        let slot : Option Block :=
          match mem.block bno with
          | none => if calloc_ok bno then some zero_block else none
          | some blk => some blk
        match slot with
        | none => Run.done (mem, count_or_nomem count)
        | some blk =>
          let blk := memcpy_to blk off data xfer
          let mem : mnode_t := { mem with block := Function.update mem.block bno (some blk) }
          let pos := bno * BLOCKSIZE + off + xfer
          let mem : mnode_t := if pos > mem.datalen then { mem with datalen := pos } else mem
          mem_write_loop calloc_ok fuel mem (fun j => data (xfer + j)) (len - xfer)
            (bno + 1) 0 (count + xfer)
    else Run.done (mem, ssize_t.count count)

/-- The function `mem_write`: the file afterwards and the value returned. -/
def mem_write (calloc_ok : Nat → Bool) (mem : mnode_t) (data : Nat → Byte) (len off : Nat) :
    Run (mnode_t × ssize_t) :=
  let bno := off / BLOCKSIZE
  let off := off % BLOCKSIZE
  mem_write_loop calloc_ok len mem data len bno off 0

/-- A file on which nothing has been written: no length, no block. The vnode
part plays no role in the block store. -/
def fresh_file (vn : vnode_t) : mnode_t :=
  { vn := vn, datalen := 0, block := fun _ => none }

/-- The byte of the file at position `i` as the block array holds it: the
byte of the block when the slot is allocated, zero for a hole. -/
def byte_at (mem : mnode_t) (i : Nat) : Byte :=
  match mem.block (i / BLOCKSIZE) with
  | none => 0
  | some blk => blk (i % BLOCKSIZE)

/-- The number of bytes a write committed, from the value it returned. -/
def committed : ssize_t → Nat
  | ssize_t.count n => n
  | ssize_t.status _ => 0

/-- What a run of the write loop that committed `c` bytes from position `P`
does to the file. -/
def WriteEffect (mem mem' : mnode_t) (data : Nat → Byte) (P c : Nat) : Prop :=
  mem'.vn = mem.vn ∧
  mem'.datalen = (if c = 0 then mem.datalen else max mem.datalen (P + c)) ∧
  (∀ i, byte_at mem' i = if P ≤ i ∧ i < P + c then data (i - P) else byte_at mem i) ∧
  (c = 0 → mem' = mem) ∧
  (0 < c → P + c ≤ MAXBLOCKS * BLOCKSIZE)

/-- The value the write loop returns after committing `c` of `len` bytes on
top of `count` earlier ones. -/
def write_result (count len c : Nat) : ssize_t :=
  if c = len then ssize_t.count (count + c) else count_or_nomem (count + c)

/-- The `len` bytes of the file from position `P` on, holes read as zero. -/
def file_bytes (mem : mnode_t) (P len : Nat) : List Byte :=
  (List.range len).map (fun j => byte_at mem (P + j))

/-- One call of `mem_write` in a sequence of writes: the outcome of the
allocations it may make, the buffer, its length and the file offset. -/
structure write_req where
  calloc_ok : Nat → Bool
  data : Nat → Byte
  len : Nat
  off : Nat

/-- What one write committed: the first `n` bytes of `data`, at the file
positions `off`, ..., `off + n - 1`. -/
structure commit where
  off : Nat
  data : Nat → Byte
  n : Nat

/-- Apply a sequence of writes, first to last, and record what each one
committed according to the value it returned. -/
def run_writes : mnode_t → List write_req → Run (mnode_t × List commit)
  | mem, [] => Run.done (mem, [])
  | mem, w :: ws =>
    match mem_write w.calloc_ok mem w.data w.len w.off with
    | Run.done (mem1, r) =>
      match run_writes mem1 ws with
      | Run.done (mem2, log) => Run.done (mem2, ⟨w.off, w.data, committed r⟩ :: log)
      | Run.fault => Run.fault
      | Run.timeout => Run.timeout
    | Run.fault => Run.fault
    | Run.timeout => Run.timeout

/-- The byte stored at position `i` by the last write of the record that
committed position `i`; `none` when no write committed it. -/
def last_committed : List commit → Nat → Option Byte
  | [], _ => none
  | c :: rest, i =>
    match last_committed rest i with
    | some b => some b
    | none => if c.off ≤ i ∧ i < c.off + c.n then some (c.data (i - c.off)) else none

/-- The bytes of the string "0123456789". -/
def digits : Nat → Byte := fun i => 48 + i

/-- The four bytes written at offset 8190 in the scenario. -/
def four : Nat → Byte := fun i => 97 + i

/-- An allocator that never fails. -/
def calloc_always : Nat → Bool := fun _ => true

/-- The vnode part of a file as `_mem_create` followed by `mem_create` leaves it. -/
def file_vn : vnode_t :=
  { ops := some vnode_ops_t.vn_mem_ops, refcount := 2, flags := 0, remote := 0, dnode := none }

/-- The two writes of the scenario. -/
def scenario_writes : List write_req :=
  [⟨calloc_always, digits, 10, 0⟩, ⟨calloc_always, four, 4, 8190⟩]

/-- The number of blocks a file of `O + L` bytes needs: `ceil((O+L)/BLOCKSIZE)`. -/
def blocks_needed (O L : Nat) : Nat := (O + L + (BLOCKSIZE - 1)) / BLOCKSIZE

/-- A file of 20000 bytes whose only allocated block is block 1. -/
def sparse_file : mnode_t :=
  { vn := file_vn, datalen := 20000, block := fun b => if b = 1 then some digits else none }

/-! ## Vnodes, directory entries and the heap -/

/-- A name as the operations receive it: the `len` bytes at `name`. -/
abbrev Name := List Char

/-- Modelled from the spec: the directory entry `dnode_t`, whose declaration
(`dnode.h`) is not part of the sources. It has a name, a strong reference to
its target vnode, a non-owning link to its parent entry and its child
entries. -/
structure dnode_t where
  name : Name
  vnode : Option Nat
  parent : Option Nat
  children : List Nat
  deriving DecidableEq, Repr

/-- The heap: the `mnode_t` found at each vnode pointer (a vnode is the first
member of its `mnode_t`, so both have the same address) and the `dnode_t` at
each dnode pointer. -/
structure fs_state where
  vnodes : Nat → Option mnode_t
  dnodes : Nat → Option dnode_t

/-- Modelled from the spec: the bit `V_FLAG_REMOTE` of `vnode_t.flags`, the
remote flag of a vnode; the header that defines it is not part of the
sources. -/
def V_FLAG_REMOTE : Nat := 2

/-- The macro `S_ISDIR` of `<sys/stat.h>`. -/
def S_ISDIR (mode : Nat) : Bool := (mode &&& 0o170000) == 0o040000

/-- Store `m` at the vnode pointer `vn`. -/
def set_vnode (s : fs_state) (vn : Nat) (m : Option mnode_t) : fs_state :=
  { s with vnodes := Function.update s.vnodes vn m }

/-- Store `d` at the dnode pointer `dn`. -/
def set_dnode (s : fs_state) (dn : Nat) (d : Option dnode_t) : fs_state :=
  { s with dnodes := Function.update s.dnodes dn d }

/-- The record with the reference count replaced. -/
def with_refcount (m : mnode_t) (n : Nat) : mnode_t :=
  { m with vn := { m.vn with refcount := n } }

/-- The function `mem_release`: every block and the `mnode_t` are freed. -/
def mem_release (s : fs_state) (vn : Nat) : Option fs_state :=
  match s.vnodes vn with
  | none => none
  | some _ => some (set_vnode s vn none)

/-- Modelled from the spec: `vn_acquire`, which is not part of the sources:
"acquires a strong reference (reference count +1)". -/
def vn_acquire (s : fs_state) (vn : Nat) : Option fs_state :=
  match s.vnodes vn with
  | none => none
  | some m => some (set_vnode s vn (some (with_refcount m (m.vn.refcount + 1))))

/-- Modelled from the spec: `vn_release`, which is not part of the sources:
"releases one reference; if the count reaches zero, the object's storage is
destroyed", the destruction being the `release` entry of the operation table
(`mem_release` in both tables). Releasing a reference that is not held
(count zero) is outside the contract and faults. -/
def vn_release (s : fs_state) (vn : Nat) : Option fs_state :=
  match s.vnodes vn with
  | none => none
  | some m =>
    if m.vn.refcount = 0 then none
    else
      let s1 := set_vnode s vn (some (with_refcount m (m.vn.refcount - 1)))
      if m.vn.refcount - 1 = 0 then
        match m.vn.ops with
        | none => none
        | some _ => mem_release s1 vn
      else some s1

/-- Modelled from the spec: the search of `dn_lookup` through a child list
for the first entry called `name`: `some none` when there is none, `none`
when an entry of the list is not allocated. -/
def dn_find (dnodes : Nat → Option dnode_t) (name : Name) : List Nat → Option (Option Nat)
  | [] => some none
  | c :: cs =>
    match dnodes c with
    | none => none
    | some d => if d.name = name then some (some c) else dn_find dnodes name cs

/-- Modelled from the spec: `dn_lookup`, which is not part of the sources:
"NotFound if no child matches `name`; else the matching entry". The status
and the entry stored at `out`. -/
def dn_lookup (s : fs_state) (parent : Nat) (name : Name) :
    Option (mx_status_t × Option Nat) :=
  match s.dnodes parent with
  | none => none
  | some p =>
    match dn_find s.dnodes name p.children with
    | none => none
    | some none => some (ERR_NOT_FOUND, none)
    | some (some dn) => some (NO_ERROR, some dn)

/-- Modelled from the spec: `dn_create`, which is not part of the sources:
"a new entry is created holding a strong reference to" the vnode. `dn_alloc`
is what the allocation of the entry returns (`none` for a failed
allocation, reported as `ERR_NO_MEMORY`). -/
def dn_create (s : fs_state) (name : Name) (vn : Nat) (dn_alloc : Option Nat) :
    Option (fs_state × mx_status_t × Option Nat) :=
  match dn_alloc with
  | none => some (s, ERR_NO_MEMORY, none)
  | some dn =>
    match vn_acquire s vn with
    | none => none
    | some s1 =>
      let d : dnode_t := { name := name, vnode := some vn, parent := none, children := [] }
      some (set_dnode s1 dn (some d), NO_ERROR, some dn)

/-- Modelled from the spec: `dn_add_child`, which is not part of the sources:
the entry becomes a child of `parent` and its parent link is set (for every
child `c` of `p`, `c.parent == p`). -/
def dn_add_child (s : fs_state) (parent child : Nat) : Option fs_state :=
  match s.dnodes child with
  | none => none
  | some c =>
    let s1 := set_dnode s child (some { c with parent := some parent })
    match s1.dnodes parent with
    | none => none
    | some p => some (set_dnode s1 parent (some { p with children := p.children ++ [child] }))

/-- Modelled from the spec: `dn_delete`, which is not part of the sources:
"the entry is detached from the tree and its strong reference to the vnode is
released (object destruction only if no other references remain)"; the entry
itself is freed. -/
def dn_delete (s : fs_state) (dn : Nat) : Option fs_state :=
  match s.dnodes dn with
  | none => none
  | some d =>
    let detached : Option fs_state :=
      match d.parent with
      | none => some s
      | some p =>
        match s.dnodes p with
        | none => none
        | some pd => some (set_dnode s p (some { pd with children := pd.children.erase dn }))
    match detached with
    | none => none
    | some s1 =>
      let released : Option fs_state :=
        match d.vnode with
        | none => some s1
        | some v => vn_release s1 v
      match released with
      | none => none
      | some s2 => some (set_dnode s2 dn none)

/-! ## Directory operations -/

/-- The function `memfs_lookup`: the status and the vnode stored at `out`. -/
def memfs_lookup (s : fs_state) (parent : Nat) (name : Name) :
    Option (fs_state × mx_status_t × Option Nat) :=
  match s.vnodes parent with
  | none => none
  | some pv =>
    match pv.vn.dnode with
    | none => some (s, ERR_NOT_FOUND, none)
    | some pdn =>
      match dn_lookup s pdn name with
      | none => none
      | some (r, out) =>
        if !r.isErr then
          match out with
          | none => none
          | some dn =>
            match s.dnodes dn with
            | none => none
            | some d =>
              match d.vnode with
              | none => none
              | some v =>
                match vn_acquire s v with
                | none => none
                | some s1 => some (s1, r, some v)
        else some (s, r, none)

/-- What `calloc(1, sizeof(mnode_t))` returns on success. -/
def zero_mnode : mnode_t :=
  { vn := { ops := none, refcount := 0, flags := 0, remote := 0, dnode := none },
    datalen := 0, block := fun _ => none }

/-- The function `_mem_create`: the status and the `mnode_t` stored at `out`.
`mem_alloc` is what the `calloc` of the `mnode_t` returns and `dn_alloc` what
the allocation inside `dn_create` returns. -/
def _mem_create (s : fs_state) (parent : Option Nat) (name : Name) (isdir : Bool)
    (mem_alloc dn_alloc : Option Nat) : Option (fs_state × mx_status_t × Option Nat) :=
  match parent with
  | none => some (s, ERR_INVALID_ARGS, none)
  | some parent =>
    match s.vnodes parent with
    | none => none
    | some pv =>
      match pv.vn.dnode with
      | none => some (s, ERR_INVALID_ARGS, none)
      | some pdn =>
        match mem_alloc with
        | none => some (s, ERR_NO_MEMORY, none)
        | some mem =>
          let m : mnode_t :=
            { zero_mnode with vn := { zero_mnode.vn with ops := some vnode_ops_t.vn_mem_ops } }
          let s1 := set_vnode s mem (some m)
          match dn_lookup s1 pdn name with
          | none => none
          | some (r, _) =>
            if r = NO_ERROR then some (set_vnode s1 mem none, ERR_ALREADY_EXISTS, none)
            else
              match dn_create s1 name mem dn_alloc with
              | none => none
              | some (s2, r, out) =>
                if r.isErr then some (set_vnode s2 mem none, r, none)
                else
                  match out with
                  | none => none
                  | some dn =>
                    match dn_add_child s2 pdn dn with
                    | none => none
                    | some s3 =>
                      if isdir then
                        match s3.vnodes mem with
                        | none => none
                        | some m3 =>
                          let m4 : mnode_t := { m3 with vn := { m3.vn with dnode := some dn } }
                          some (set_vnode s3 mem (some m4), NO_ERROR, some mem)
                      else some (s3, NO_ERROR, some mem)

/-- The function `mem_create`: the status and the vnode stored at `out`. -/
def mem_create (s : fs_state) (vn : Option Nat) (name : Name) (mode : Nat)
    (mem_alloc dn_alloc : Option Nat) : Option (fs_state × mx_status_t × Option Nat) :=
  match _mem_create s vn name (S_ISDIR mode) mem_alloc dn_alloc with
  | none => none
  | some (s1, r, mem) =>
    if !r.isErr then
      match mem with
      | none => none
      | some mem =>
        match vn_acquire s1 mem with
        | none => none
        | some s2 => some (s2, r, some mem)
    else some (s1, r, none)

/-- The function `mem_can_unlink`. -/
def mem_can_unlink (s : fs_state) (dn : Nat) : Option mx_status_t :=
  match s.dnodes dn with
  | none => none
  | some d =>
    match d.vnode with
    | none => none
    | some v =>
      match s.vnodes v with
      | none => none
      | some vn =>
        let isDirectory := vn.vn.dnode.isSome
        if isDirectory && decide (vn.vn.refcount > 1) then some ERR_BAD_STATE
        else if !d.children.isEmpty then some ERR_BAD_STATE
        else if vn.vn.flags &&& V_FLAG_REMOTE ≠ 0 then some ERR_BAD_STATE
        else some NO_ERROR

/-- The function `memfs_unlink`. -/
def memfs_unlink (s : fs_state) (vn : Nat) (name : Name) : Option (fs_state × mx_status_t) :=
  match s.vnodes vn with
  | none => none
  | some v =>
    match v.vn.dnode with
    | none => some (s, ERR_NOT_DIR)
    | some pdn =>
      match dn_lookup s pdn name with
      | none => none
      | some (r, out) =>
        if r.isErr then some (s, r)
        else
          match out with
          | none => none
          | some dn =>
            match mem_can_unlink s dn with
            | none => none
            | some r =>
              if r.isErr then some (s, r)
              else
                match dn_delete s dn with
                | none => none
                | some s1 => some (s1, NO_ERROR)

/-- The function `memfs_close`. -/
def memfs_close (s : fs_state) (vn : Nat) : Option (fs_state × mx_status_t) :=
  match vn_release s vn with
  | none => none
  | some s1 => some (s1, NO_ERROR)

/-! ## Well-formed directories and example heaps -/

/-- The tree invariant at one directory: `parent` is a directory vnode whose
entry is `pdn`; the children of `pdn` are distinct allocated entries other
than `pdn`, each linked to `pdn` as its parent and holding a reference to an
allocated vnode other than `parent`; no two children share a name or a
vnode. -/
def dir_wf (s : fs_state) (parent pdn : Nat) : Prop :=
  ∃ pv pd, s.vnodes parent = some pv ∧ pv.vn.dnode = some pdn ∧ s.dnodes pdn = some pd ∧
    pd.children.Nodup ∧ pdn ∉ pd.children ∧
    ∀ c ∈ pd.children, ∃ dc v vn,
      s.dnodes c = some dc ∧ dc.parent = some pdn ∧ dc.vnode = some v ∧ v ≠ parent ∧
      s.vnodes v = some vn ∧ 0 < vn.vn.refcount ∧ vn.vn.ops.isSome = true ∧
      ∀ c' ∈ pd.children, c' ≠ c → ∀ dc', s.dnodes c' = some dc' →
        dc'.name ≠ dc.name ∧ dc'.vnode ≠ some v

/-- The local root directory `mem_root` with its entry `mem_root_dn`, as
`memfs_get_root` leaves them, at the pointers 0 and 0. -/
def root_mnode : mnode_t :=
  { zero_mnode with
    vn := { ops := some vnode_ops_t.vn_mem_ops_dir, refcount := 2, flags := 0, remote := 0,
            dnode := some 0 } }

/-- The heap that holds the local root only. -/
def root_state : fs_state :=
  { vnodes := fun p => if p = 0 then some root_mnode else none,
    dnodes := fun p =>
      if p = 0 then some { name := ['t', 'm', 'p'], vnode := some 0, parent := none, children := [] }
      else none }

/-- A file vnode with `n` references. -/
def file_mnode (n : Nat) : mnode_t :=
  { zero_mnode with
    vn := { ops := some vnode_ops_t.vn_mem_ops, refcount := n, flags := 0, remote := 0,
            dnode := none } }

/-- A directory vnode with `n` references and the entry `dn`. -/
def dir_mnode (n dn : Nat) : mnode_t :=
  { zero_mnode with
    vn := { ops := some vnode_ops_t.vn_mem_ops, refcount := n, flags := 0, remote := 0,
            dnode := some dn } }

/-- The local root with three children: the file "a" (vnode 1, entry 1), held
open by one handle; the empty directory "d" (vnode 2, entry 2), whose handle
has been closed; the directory "e" (vnode 3, entry 3), which holds the file
"f" (vnode 4, entry 4). -/
def tree_state : fs_state :=
  { vnodes := fun p =>
      if p = 0 then some root_mnode
      else if p = 1 then some (file_mnode 2)
      else if p = 2 then some (dir_mnode 1 2)
      else if p = 3 then some (dir_mnode 1 3)
      else if p = 4 then some (file_mnode 1)
      else none,
    dnodes := fun p =>
      if p = 0 then
        some { name := ['t', 'm', 'p'], vnode := some 0, parent := none, children := [1, 2, 3] }
      else if p = 1 then some { name := ['a'], vnode := some 1, parent := some 0, children := [] }
      else if p = 2 then some { name := ['d'], vnode := some 2, parent := some 0, children := [] }
      else if p = 3 then some { name := ['e'], vnode := some 3, parent := some 0, children := [4] }
      else if p = 4 then some { name := ['f'], vnode := some 4, parent := some 3, children := [] }
      else none }

/-- Apply a function to the result of a run. -/
def Run.map {α β : Type} (f : α → β) : Run α → Run β
  | Run.done a => Run.done (f a)
  | Run.fault => Run.fault
  | Run.timeout => Run.timeout

/-- What a lookup resolves a name to: the status and the vnode stored at
`out`, the heap afterwards left aside. -/
def resolve (s : fs_state) (parent : Nat) (name : Name) : Option (mx_status_t × Option Nat) :=
  (memfs_lookup s parent name).map Prod.snd

/-! ## Invariants and traces of the block store -/

/-- The zero-tail invariant: every byte of an allocated block whose file
position (block index times `BLOCKSIZE` plus in-block offset) is at or beyond
`datalen` is zero, and no slot at or beyond `MAXBLOCKS` is allocated. -/
def zero_tail (mem : mnode_t) : Prop :=
  (∀ b blk o, mem.block b = some blk → o < BLOCKSIZE →
    mem.datalen ≤ b * BLOCKSIZE + o → blk o = 0) ∧
  (∀ b, MAXBLOCKS ≤ b → mem.block b = none)

/-- One iteration of a loop that touches the block array: the slot index it
dereferences (`block[bno]`), the in-block range `[off, off + xfer)` it copies
and the remaining length `len` at the start of the iteration. -/
structure access where
  bno : Nat
  off : Nat
  xfer : Nat
  len : Nat
  deriving DecidableEq, Repr

/-- The loop of `mem_read` once more, listing next to its result the accesses
it makes, in order; the access is listed before it is made, also when it is
out of bounds. -/
def mem_read_loop_traced (mem : mnode_t) :
    Nat → Nat → Nat → Nat → List Byte → Nat → Run (List Byte × Nat) × List access
  | 0, len, _, _, data, count =>
    (if len > 0 then Run.timeout else Run.done (data, count), [])
  | fuel + 1, len, bno, off, data, count =>
    if len > 0 then
      let xfer := BLOCKSIZE - off
      let xfer := if len < xfer then len else xfer
      let a : access := ⟨bno, off, xfer, len⟩
      if bno < MAXBLOCKS then
        match mem.block bno with
        | none =>
          let r := mem_read_loop_traced mem fuel (len - xfer) (bno + 1) 0
            (data ++ memset_zero xfer) (count + xfer)
          (r.1, a :: r.2)
        | some blk =>
          let r := mem_read_loop_traced mem fuel (len - xfer) (bno + 1) 0
            (data ++ memcpy_from blk off xfer) (count + xfer)
          (r.1, a :: r.2)
      else (Run.fault, [a])
    else (Run.done (data, count), [])

/-- The function `mem_read` with the accesses of its loop. -/
def mem_read_traced (mem : mnode_t) (len off : Nat) : Run (List Byte × Nat) × List access :=
  if off ≥ mem.datalen then (Run.done ([], 0), [])
  else
    let len := if len > mem.datalen - off then mem.datalen - off else len
    let bno := off / BLOCKSIZE
    let off := off % BLOCKSIZE
    mem_read_loop_traced mem len len bno off [] 0

/-- The loop of `mem_write` once more, listing next to its result the
accesses it makes, in order: an iteration reaches `block[bno]` only after the
test `bno >= MAXBLOCKS`. -/
def mem_write_loop_traced (calloc_ok : Nat → Bool) :
    Nat → mnode_t → (Nat → Byte) → Nat → Nat → Nat → Nat →
      Run (mnode_t × ssize_t) × List access
  | 0, mem, _, len, _, _, count =>
    (if len > 0 then Run.timeout else Run.done (mem, ssize_t.count count), [])
  | fuel + 1, mem, data, len, bno, off, count =>
    if len > 0 then
      let xfer := BLOCKSIZE - off
      let xfer := if len < xfer then len else xfer
      if bno ≥ MAXBLOCKS then (Run.done (mem, count_or_nomem count), [])
      else
        let a : access := ⟨bno, off, xfer, len⟩
        let slot : Option Block :=
          match mem.block bno with
          | none => if calloc_ok bno then some zero_block else none
          | some blk => some blk
        match slot with
        | none => (Run.done (mem, count_or_nomem count), [a])
        | some blk =>
          let blk := memcpy_to blk off data xfer
          let mem : mnode_t := { mem with block := Function.update mem.block bno (some blk) }
          let pos := bno * BLOCKSIZE + off + xfer
          let mem : mnode_t := if pos > mem.datalen then { mem with datalen := pos } else mem
          let r := mem_write_loop_traced calloc_ok fuel mem (fun j => data (xfer + j))
            (len - xfer) (bno + 1) 0 (count + xfer)
          (r.1, a :: r.2)
    else (Run.done (mem, ssize_t.count count), [])

/-- The function `mem_write` with the accesses of its loop. -/
def mem_write_traced (calloc_ok : Nat → Bool) (mem : mnode_t) (data : Nat → Byte)
    (len off : Nat) : Run (mnode_t × ssize_t) × List access :=
  let bno := off / BLOCKSIZE
  let off := off % BLOCKSIZE
  mem_write_loop_traced calloc_ok len mem data len bno off 0

/-- An access stays inside the block array and inside its block, and the
iteration that makes it consumes part of the remaining length. -/
def access_ok (a : access) : Prop :=
  a.bno < MAXBLOCKS ∧ a.off + a.xfer ≤ BLOCKSIZE ∧ 0 < a.xfer ∧ a.xfer ≤ a.len

/-! ## Rename -/

/-- The test `(len == 1) && (name[0] == '.')` of `memfs_rename`. -/
def is_dot (name : Name) : Bool :=
  name.length == 1 && name[0]? == some '.'

/-- The test `(len == 2) && (name[0] == '.') && (name[1] == '.')` of
`memfs_rename`. -/
def is_dotdot (name : Name) : Bool :=
  name.length == 2 && name[0]? == some '.' && name[1]? == some '.'

/-- Modelled from the spec: `dn_move_child`, which is not part of the
sources: "Relocate the source entry under `newDir` with `newName`". The entry
leaves the child list of its parent, takes the new name and becomes a child
of `parent`. -/
def dn_move_child (s : fs_state) (parent child : Nat) (name : Name) : Option fs_state :=
  match s.dnodes child with
  | none => none
  | some c =>
    let detached : Option fs_state :=
      match c.parent with
      | none => some s
      | some op =>
        match s.dnodes op with
        | none => none
        | some od => some (set_dnode s op (some { od with children := od.children.erase child }))
    match detached with
    | none => none
    | some s1 =>
      match s1.dnodes child with
      | none => none
      | some c1 =>
        let c2 : dnode_t := { c1 with name := name, parent := some parent }
        let s2 := set_dnode s1 child (some c2)
        match s2.dnodes parent with
        | none => none
        | some p => some (set_dnode s2 parent (some { p with children := p.children ++ [child] }))

/-- The end of `memfs_rename`: "Relocate olddn to newdir" and return
`NO_ERROR`. -/
def rename_relocate (s : fs_state) (ndn olddn : Nat) (newname : Name) :
    Option (fs_state × mx_status_t) :=
  match dn_move_child s ndn olddn newname with
  | none => none
  | some s1 => some (s1, NO_ERROR)

/-- The part of `memfs_rename` that runs when the destination exists:
"Validate and unlink it", then relocate. -/
def rename_onto (s : fs_state) (ndn olddn newdn : Nat) (newname : Name) :
    Option (fs_state × mx_status_t) :=
  match s.dnodes olddn with
  | none => none
  | some od =>
    match s.dnodes newdn with
    | none => none
    | some nd =>
      if od.vnode = nd.vnode then some (s, ERR_INVALID_ARGS)
      else
        match od.vnode with
        | none => none
        | some vo =>
          match s.vnodes vo with
          | none => none
          | some mo =>
            match nd.vnode with
            | none => none
            | some vd =>
              match s.vnodes vd with
              | none => none
              | some md =>
                let srcIsFile := mo.vn.dnode.isNone
                let dstIsFile := md.vn.dnode.isNone
                if srcIsFile ≠ dstIsFile then some (s, ERR_INVALID_ARGS)
                else
                  match mem_can_unlink s newdn with
                  | none => none
                  | some r =>
                    if r.isErr then some (s, r)
                    else
                      match dn_delete s newdn with
                      | none => none
                      | some s1 => rename_relocate s1 ndn olddn newname

/-- The function `memfs_rename`. -/
def memfs_rename (s : fs_state) (olddir newdir : Nat) (oldname newname : Name) :
    Option (fs_state × mx_status_t) :=
  match s.vnodes olddir with
  | none => none
  | some ov =>
    match ov.vn.dnode with
    | none => some (s, ERR_BAD_STATE)
    | some odn =>
      match s.vnodes newdir with
      | none => none
      | some nv =>
        match nv.vn.dnode with
        | none => some (s, ERR_BAD_STATE)
        | some ndn =>
          if is_dot oldname then some (s, ERR_BAD_STATE)
          else if is_dotdot oldname then some (s, ERR_BAD_STATE)
          else if is_dot newname then some (s, ERR_BAD_STATE)
          else if is_dotdot newname then some (s, ERR_BAD_STATE)
          else if odn ≠ ndn then some (s, ERR_NOT_SUPPORTED)
          else
            match dn_lookup s odn oldname with
            | none => none
            | some (r, out) =>
              if r.isErr then some (s, r)
              else
                match out with
                | none => none
                | some olddn =>
                  match dn_lookup s ndn newname with
                  | none => none
                  | some (r, out) =>
                    if r = NO_ERROR then
                      match out with
                      | none => none
                      | some newdn => rename_onto s ndn olddn newdn newname
                    else if r ≠ ERR_NOT_FOUND then some (s, r)
                    else rename_relocate s ndn olddn newname

/-- The function `memfs_rename_none`. -/
def memfs_rename_none (s : fs_state) (_olddir _newdir : Nat) (_oldname _newname : Name) :
    Option (fs_state × mx_status_t) :=
  some (s, ERR_NOT_SUPPORTED)

/-- A name that is exactly "." or "..". -/
def reserved (name : Name) : Prop :=
  name = ['.'] ∨ name = ['.', '.']

/-! ## The tree invariant and sequences of directory operations -/

/-- The invariant at one directory entry `p` with record `x` in the entry
heap `D`: its children are distinct entries other than `p`, each allocated
and linked to `p` as its parent, and no two of them have the same name. -/
def dir_inv (D : Nat → Option dnode_t) (p : Nat) (x : dnode_t) : Prop :=
  x.children.Nodup ∧ p ∉ x.children ∧
  (∀ c ∈ x.children, ∃ dc, D c = some dc ∧ dc.parent = some p) ∧
  (∀ c1 ∈ x.children, ∀ c2 ∈ x.children, c1 ≠ c2 →
    ∀ d1 d2, D c1 = some d1 → D c2 = some d2 → d1.name ≠ d2.name)

/-- The tree invariant: every allocated entry satisfies `dir_inv`; in
particular no directory has two children with the same name. -/
def tree_inv (s : fs_state) : Prop :=
  ∀ p x, s.dnodes p = some x → dir_inv s.dnodes p x

/-- No directory has two children with the same name. -/
def names_unique (s : fs_state) : Prop :=
  ∀ p x, s.dnodes p = some x →
    ∀ c1 ∈ x.children, ∀ c2 ∈ x.children, c1 ≠ c2 →
      ∀ d1 d2, s.dnodes c1 = some d1 → s.dnodes c2 = some d2 → d1.name ≠ d2.name

/-- A call of one of the three operations that change the tree. A create
carries what its two allocations return. -/
inductive fs_op where
  | create (parent : Option Nat) (name : Name) (mode : Nat) (mem_alloc dn_alloc : Option Nat)
  | unlink (vn : Nat) (name : Name)
  | rename (olddir newdir : Nat) (oldname newname : Name)

/-- An allocation returns `NULL` or memory that is not allocated. -/
def fresh_alloc (s : fs_state) (mem_alloc dn_alloc : Option Nat) : Bool :=
  (match mem_alloc with
    | none => true
    | some p => (s.vnodes p).isNone) &&
  (match dn_alloc with
    | none => true
    | some d => (s.dnodes d).isNone)

/-- The heap after one call, whatever status it returns; `none` when the call
faults or an allocation of a create returns memory that is in use. -/
def apply_op (s : fs_state) : fs_op → Option fs_state
  | fs_op.create parent name mode mem_alloc dn_alloc =>
    if fresh_alloc s mem_alloc dn_alloc then
      (mem_create s parent name mode mem_alloc dn_alloc).map (fun x => x.1)
    else none
  | fs_op.unlink vn name => (memfs_unlink s vn name).map (fun x => x.1)
  | fs_op.rename olddir newdir oldname newname =>
    (memfs_rename s olddir newdir oldname newname).map (fun x => x.1)

/-- The heap after a sequence of calls, first to last. -/
def run_ops : fs_state → List fs_op → Option fs_state
  | s, [] => some s
  | s, op :: ops =>
    match apply_op s op with
    | none => none
    | some s1 => run_ops s1 ops

/-- A sequence of calls on the tree: "e" is renamed onto "d", a file "e" is
created, a second create of "e" collides, "a" is unlinked and a rename of the
absent name "q" fails. -/
def example_ops : List fs_op :=
  [fs_op.rename 0 0 ['e'] ['d'],
   fs_op.create (some 0) ['e'] 0 (some 7) (some 7),
   fs_op.create (some 0) ['e'] 0 (some 8) (some 8),
   fs_op.unlink 0 ['a'],
   fs_op.rename 0 0 ['q'] ['r']]

/-! ## Operation tables, readdir and the global root -/

/-- The function `memfs_read_none`. -/
def memfs_read_none (_mem : mnode_t) (_len _off : Nat) : Run (List Byte × ssize_t) :=
  Run.done ([], ssize_t.status ERR_NOT_SUPPORTED)

/-- The function `memfs_write_none`. -/
def memfs_write_none (mem : mnode_t) (_data : Nat → Byte) (_len _off : Nat) :
    Run (mnode_t × ssize_t) :=
  Run.done (mem, ssize_t.status ERR_NOT_SUPPORTED)

/-- The entry `.read` of an operation table: `mem_read` in `vn_mem_ops`,
`memfs_read_none` in `vn_mem_ops_dir`. The bytes stored and the value
returned. -/
def ops_read (t : vnode_ops_t) (mem : mnode_t) (len off : Nat) : Run (List Byte × ssize_t) :=
  match t with
  | vnode_ops_t.vn_mem_ops => Run.map (fun x => (x.1, ssize_t.count x.2)) (mem_read mem len off)
  | vnode_ops_t.vn_mem_ops_dir => memfs_read_none mem len off

/-- The entry `.write` of an operation table: `mem_write` in `vn_mem_ops`,
`memfs_write_none` in `vn_mem_ops_dir`. -/
def ops_write (t : vnode_ops_t) (calloc_ok : Nat → Bool) (mem : mnode_t) (data : Nat → Byte)
    (len off : Nat) : Run (mnode_t × ssize_t) :=
  match t with
  | vnode_ops_t.vn_mem_ops => mem_write calloc_ok mem data len off
  | vnode_ops_t.vn_mem_ops_dir => memfs_write_none mem data len off

/-- The function `memfs_readdir`. The function `dn_readdir` is not part of
the sources and is a parameter: what it does on the heap for the entry it is
given (cookie and buffer included) and the value it returns. -/
def memfs_readdir (dn_readdir : fs_state → Nat → Option (fs_state × ssize_t)) (s : fs_state)
    (parent : Nat) : Option (fs_state × ssize_t) :=
  match s.vnodes parent with
  | none => none
  | some pv =>
    match pv.vn.dnode with
    | none => some (s, ssize_t.status ERR_NOT_FOUND)
    | some pdn => dn_readdir s pdn

/-- The heap together with the two static pointers `vn_data` and `vn_socket`
and the handles passed to `mx_handle_close` so far, in order. -/
structure vfs_state where
  fs : fs_state
  vn_data : Option Nat
  vn_socket : Option Nat
  closed : List Int

/-- The address of the static `mem_root` and of its entry `mem_root_dn`. -/
def MEM_ROOT : Nat := 0

/-- The address of the static `vfs_root` and of its entry `vfs_root_dn`. -/
def VFS_ROOT : Nat := 1

/-- The function `memfs_get_root`. -/
def memfs_get_root (s : fs_state) : Option (fs_state × Nat) :=
  match s.dnodes MEM_ROOT with
  | none => none
  | some d => some (set_dnode s MEM_ROOT (some { d with vnode := some MEM_ROOT }), MEM_ROOT)

/-- The argument `root->dnode` of an `dn_add_child(&vfs_root_dn, root->dnode)`
call, and the call. -/
def add_root_child (s : fs_state) (root : Nat) : Option fs_state :=
  match s.vnodes root with
  | none => none
  | some rv =>
    match rv.vn.dnode with
    | none => none
    | some rdn => dn_add_child s VFS_ROOT rdn

/-- The function `vfs_create_global_root`. `devfs_root` and `bootfs_root` are
what `devfs_get_root()` and `bootfs_get_root()` return (both functions belong
to other file systems); the four last arguments are what the allocations of
the two `_mem_create` calls return. The status of these calls is ignored and
`vn_data`, `vn_socket` are stored by a successful call only. -/
def vfs_create_global_root (v : vfs_state) (devfs_root bootfs_root : Nat)
    (data_mem data_dn socket_mem socket_dn : Option Nat) : Option (vfs_state × Nat) :=
  match v.fs.dnodes VFS_ROOT with
  | none => none
  | some rd =>
    if rd.vnode = none then
      let s1 := set_dnode v.fs VFS_ROOT (some { rd with vnode := some VFS_ROOT })
      match add_root_child s1 devfs_root with
      | none => none
      | some s2 =>
        match add_root_child s2 bootfs_root with
        | none => none
        | some s3 =>
          match memfs_get_root s3 with
          | none => none
          | some (s4, mem_root) =>
            match add_root_child s4 mem_root with
            | none => none
            | some s5 =>
              match _mem_create s5 (some VFS_ROOT) ['d', 'a', 't', 'a'] true data_mem data_dn with
              | none => none
              | some (s6, r6, out6) =>
                let vn_data := if r6 = NO_ERROR then out6 else v.vn_data
                match _mem_create s6 (some devfs_root) ['s', 'o', 'c', 'k', 'e', 't'] true
                    socket_mem socket_dn with
                | none => none
                | some (s7, r7, out7) =>
                  let vn_socket := if r7 = NO_ERROR then out7 else v.vn_socket
                  some ({ v with fs := s7, vn_data := vn_data, vn_socket := vn_socket }, VFS_ROOT)
    else some (v, VFS_ROOT)

/-- The function `vfs_install_remote` (the lock is left out: calls do not
overlap here). -/
def vfs_install_remote (v : vfs_state) (vn : Nat) (h : Int) :
    Option (vfs_state × mx_status_t) :=
  if some vn ≠ v.vn_data ∧ some vn ≠ v.vn_socket then some (v, ERR_ACCESS_DENIED)
  else
    match v.fs.vnodes vn with
    | none => none
    | some m =>
      let closed : Option (List Int) :=
        if m.vn.remote > 0 then
          match v.vn_data with
          | none => none
          | some d =>
            match v.fs.vnodes d with
            | none => none
            | some md => some (v.closed ++ [md.vn.remote])
        else some v.closed
      match closed with
      | none => none
      | some closed =>
        let m1 : mnode_t := { m with vn := { m.vn with remote := h } }
        let m2 : mnode_t := { m1 with vn := { m1.vn with flags := m1.vn.flags ||| V_FLAG_REMOTE } }
        some ({ v with fs := set_vnode v.fs vn (some m2), closed := closed }, NO_ERROR)

/-- A directory vnode of another file system, with its entry `dn`; its
operation table is not one of the two tables of this file. -/
def foreign_root (dn : Nat) : mnode_t :=
  { zero_mnode with
    vn := { ops := none, refcount := 1, flags := 0, remote := 0, dnode := some dn } }

/-- The static `vfs_root`. -/
def vfs_root_mnode : mnode_t :=
  { zero_mnode with
    vn := { ops := some vnode_ops_t.vn_mem_ops_dir, refcount := 1, flags := 0, remote := 0,
            dnode := some VFS_ROOT } }

/-- The heap before the global root is wired: the statics `mem_root` (0) and
`vfs_root` (1) with their entries as initialised, and the roots of the device
file system (2) and of the boot file system (3). -/
def boot_state : vfs_state :=
  { fs :=
      { vnodes := fun p =>
          if p = 0 then some root_mnode
          else if p = 1 then some vfs_root_mnode
          else if p = 2 then some (foreign_root 2)
          else if p = 3 then some (foreign_root 3)
          else none,
        dnodes := fun p =>
          if p = 0 then some { name := ['t', 'm', 'p'], vnode := none, parent := none, children := [] }
          else if p = 1 then
            some { name := ['<', 'r', 'o', 'o', 't', '>'], vnode := none, parent := some 1, children := [] }
          else if p = 2 then some { name := ['d', 'e', 'v'], vnode := some 2, parent := none, children := [] }
          else if p = 3 then some { name := ['b', 'o', 'o', 't'], vnode := some 3, parent := none, children := [] }
          else none },
    vn_data := none, vn_socket := none, closed := [] }

/-! # Theorems -/

/-! ## The write loop -/

theorem byte_at_update (mem : mnode_t) (bno off xfer : Nat) (blk : Block) (data : Nat → Byte)
    (hoff : off + xfer ≤ BLOCKSIZE)
    (hblk : ∀ j, blk j = match mem.block bno with | none => 0 | some b => b j) (i : Nat) :
    byte_at { mem with block :=
        Function.update mem.block bno (some (memcpy_to blk off data xfer)) } i =
      if bno * BLOCKSIZE + off ≤ i ∧ i < bno * BLOCKSIZE + off + xfer
      then data (i - (bno * BLOCKSIZE + off)) else byte_at mem i := by
  unfold byte_at
  simp only [BLOCKSIZE] at *
  by_cases hb : i / 8192 = bno
  · subst hb
    simp only [Function.update_same, memcpy_to]
    have e1 : (i % 8192 - off) = i - (i / 8192 * 8192 + off) := by omega
    have e2 : (off ≤ i % 8192 ∧ i % 8192 < off + xfer) ↔
        (i / 8192 * 8192 + off ≤ i ∧ i < i / 8192 * 8192 + off + xfer) := by omega
    rw [e1]
    by_cases hc : off ≤ i % 8192 ∧ i % 8192 < off + xfer
    · rw [if_pos hc, if_pos (e2.mp hc)]
    · rw [if_neg hc, if_neg (fun h => hc (e2.mpr h)), hblk]
  · have hne : ¬ (bno * 8192 + off ≤ i ∧ i < bno * 8192 + off + xfer) := by omega
    rw [if_neg hne, Function.update_noteq hb]

theorem WriteEffect_zero (mem : mnode_t) (data : Nat → Byte) (P : Nat) :
    WriteEffect mem mem data P 0 := by
  refine ⟨rfl, by simp, ?_, fun _ => rfl, fun h => absurd h (by omega)⟩
  intro i
  rw [if_neg (by omega)]

theorem byte_at_datalen (mem : mnode_t) (n i : Nat) :
    byte_at { mem with datalen := n } i = byte_at mem i := rfl

theorem mem_write_loop_spec (calloc_ok : Nat → Bool) :
    ∀ (fuel : Nat) (mem : mnode_t) (data : Nat → Byte) (len bno off count : Nat),
      off < BLOCKSIZE → len ≤ fuel →
      ∃ mem' c,
        mem_write_loop calloc_ok fuel mem data len bno off count =
          Run.done (mem', write_result count len c) ∧
        c ≤ len ∧
        WriteEffect mem mem' data (bno * BLOCKSIZE + off) c ∧
        ((∀ b, calloc_ok b = true) →
          c = min len (MAXBLOCKS * BLOCKSIZE - (bno * BLOCKSIZE + off))) := by
  intro fuel
  induction fuel with
  | zero =>
    intro mem data len bno off count hoff hlen
    have h0 : len = 0 := by omega
    subst h0
    refine ⟨mem, 0, ?_, le_refl _, ?_, ?_⟩
    · simp [mem_write_loop, write_result]
    · exact WriteEffect_zero _ _ _
    · intro _; simp
  | succ fuel ih =>
    intro mem data len bno off count hoff hlen
    by_cases hl : len > 0
    · obtain ⟨xfer, hx⟩ : ∃ x, x = (if len < BLOCKSIZE - off then len else BLOCKSIZE - off) :=
        ⟨_, rfl⟩
      have hx1 : 0 < xfer ∧ xfer ≤ len ∧ off + xfer ≤ BLOCKSIZE ∧
          (xfer < len → off + xfer = BLOCKSIZE) := by
        rw [hx]; split <;> omega
      simp only [mem_write_loop, hl, ↓reduceIte, ← hx]
      by_cases hb : bno ≥ MAXBLOCKS
      · refine ⟨mem, 0, ?_, Nat.zero_le _, WriteEffect_zero _ _ _, ?_⟩
        · rw [if_pos hb, write_result, if_neg (by omega)]; rfl
        · intro _
          simp only [MAXBLOCKS, BLOCKSIZE] at *
          omega
      · rw [if_neg hb]
        have key : ∀ blk : Block,
            (∀ j, blk j = match mem.block bno with | none => 0 | some b => b j) →
            ∃ mem' c,
              mem_write_loop calloc_ok fuel
                (if bno * BLOCKSIZE + off + xfer > mem.datalen then
                  { vn := mem.vn, datalen := bno * BLOCKSIZE + off + xfer,
                    block := Function.update mem.block bno
                      (some (memcpy_to blk off data xfer)) }
                 else
                  { vn := mem.vn, datalen := mem.datalen,
                    block := Function.update mem.block bno
                      (some (memcpy_to blk off data xfer)) })
                (fun j => data (xfer + j)) (len - xfer) (bno + 1) 0 (count + xfer) =
                Run.done (mem', write_result count len c) ∧
              c ≤ len ∧
              WriteEffect mem mem' data (bno * BLOCKSIZE + off) c ∧
              ((∀ b, calloc_ok b = true) →
                c = min len (MAXBLOCKS * BLOCKSIZE - (bno * BLOCKSIZE + off))) := by
          intro blk hblk
          obtain ⟨mem1, hm1⟩ : ∃ m : mnode_t, m =
              (if bno * BLOCKSIZE + off + xfer > mem.datalen then
                  { vn := mem.vn, datalen := bno * BLOCKSIZE + off + xfer,
                    block := Function.update mem.block bno
                      (some (memcpy_to blk off data xfer)) }
                 else
                  { vn := mem.vn, datalen := mem.datalen,
                    block := Function.update mem.block bno
                      (some (memcpy_to blk off data xfer)) }) := ⟨_, rfl⟩
          have h1vn : mem1.vn = mem.vn := by rw [hm1]; split <;> rfl
          have h1len : mem1.datalen = max mem.datalen (bno * BLOCKSIZE + off + xfer) := by
            rw [hm1]; split
            · simp only []; omega
            · simp only []; omega
          have h1b : ∀ i, byte_at mem1 i =
              if bno * BLOCKSIZE + off ≤ i ∧ i < bno * BLOCKSIZE + off + xfer
              then data (i - (bno * BLOCKSIZE + off)) else byte_at mem i := by
            intro i
            rw [hm1]; split
            · exact byte_at_update mem bno off xfer blk data hx1.2.2.1 hblk i
            · exact byte_at_update mem bno off xfer blk data hx1.2.2.1 hblk i
          rw [← hm1]
          obtain ⟨mem', c', hrun, hc', ⟨e1, e2, e3, _, e5⟩, hall⟩ :=
            ih mem1 (fun j => data (xfer + j)) (len - xfer) (bno + 1) 0 (count + xfer)
              (by simp [BLOCKSIZE]) (by omega)
          have hfull : 0 < c' → off + xfer = BLOCKSIZE := fun h => hx1.2.2.2 (by omega)
          refine ⟨mem', xfer + c', ?_, by omega, ⟨?_, ?_, ?_, ?_, ?_⟩, ?_⟩
          · rw [hrun]
            unfold write_result
            by_cases hcl : c' = len - xfer
            · rw [if_pos hcl, if_pos (by omega), Nat.add_assoc]
            · rw [if_neg hcl, if_neg (by omega), Nat.add_assoc]
          · rw [e1, h1vn]
          · rw [e2, h1len, if_neg (show ¬ xfer + c' = 0 by omega)]
            by_cases hc0 : c' = 0
            · rw [if_pos hc0, hc0]; rfl
            · have hf := hfull (by omega)
              rw [if_neg hc0]
              simp only [BLOCKSIZE] at *
              omega
          · intro i
            rw [e3, h1b]
            simp only [BLOCKSIZE] at *
            by_cases hi : (bno + 1) * 8192 + 0 ≤ i ∧ i < (bno + 1) * 8192 + 0 + c'
            · have hf := hfull (by omega)
              rw [if_pos hi, if_pos (by omega)]
              congr 1
              omega
            · rw [if_neg hi]
              by_cases hi2 : bno * 8192 + off ≤ i ∧ i < bno * 8192 + off + xfer
              · rw [if_pos hi2, if_pos (by omega)]
              · rw [if_neg hi2, if_neg]
                intro hi3
                by_cases hc0 : c' = 0
                · omega
                · have hf := hfull (by omega)
                  omega
          · intro h; omega
          · intro _
            simp only [BLOCKSIZE, MAXBLOCKS] at *
            by_cases hc0 : c' = 0
            · omega
            · have hf := hfull (by omega)
              have := e5 (by omega)
              omega
          · intro hok
            have := hall hok
            simp only [BLOCKSIZE, MAXBLOCKS] at *
            by_cases hc0 : c' = 0
            · omega
            · have hf := hfull (by omega)
              omega
        cases hm : mem.block bno with
        | none =>
          cases hc : calloc_ok bno with
          | false =>
            refine ⟨mem, 0, ?_, Nat.zero_le _, WriteEffect_zero _ _ _, ?_⟩
            · simp only [Bool.false_eq_true, ↓reduceIte]
              rw [write_result, if_neg (by omega)]; rfl
            · intro hall
              rw [hall bno] at hc
              exact absurd hc (by simp)
          | true =>
            simp only [↓reduceIte]
            exact key zero_block (fun j => by rw [hm]; rfl)
        | some b =>
          simp only []
          exact key b (fun j => by rw [hm])
    · have h0 : len = 0 := by omega
      subst h0
      refine ⟨mem, 0, ?_, le_refl _, ?_, ?_⟩
      · simp [mem_write_loop, write_result]
      · exact WriteEffect_zero _ _ _
      · intro _; simp

theorem mem_write_spec (calloc_ok : Nat → Bool) (mem : mnode_t) (data : Nat → Byte)
    (len off : Nat) :
    ∃ mem' c,
      mem_write calloc_ok mem data len off = Run.done (mem', write_result 0 len c) ∧
      c ≤ len ∧
      WriteEffect mem mem' data off c ∧
      ((∀ b, calloc_ok b = true) → c = min len (MAXBLOCKS * BLOCKSIZE - off)) := by
  have hP : off / BLOCKSIZE * BLOCKSIZE + off % BLOCKSIZE = off := by
    simp only [BLOCKSIZE]; omega
  have h := mem_write_loop_spec calloc_ok len mem data len (off / BLOCKSIZE) (off % BLOCKSIZE) 0
    (Nat.mod_lt _ (by simp [BLOCKSIZE])) (le_refl _)
  rw [hP] at h
  exact h

/-! ## The read loop -/

theorem file_bytes_length (mem : mnode_t) (P len : Nat) :
    (file_bytes mem P len).length = len := by
  simp [file_bytes]

theorem file_bytes_get (mem : mnode_t) (P len j : Nat) (hj : j < len) :
    (file_bytes mem P len)[j]? = some (byte_at mem (P + j)) := by
  simp [file_bytes, List.getElem?_range hj]

theorem file_bytes_add (mem : mnode_t) (P a b : Nat) :
    file_bytes mem P (a + b) = file_bytes mem P a ++ file_bytes mem (P + a) b := by
  unfold file_bytes
  rw [List.range_add, List.map_append, List.map_map]
  congr 1
  apply List.map_congr_left
  intro j _
  simp [Nat.add_assoc]

theorem mem_read_loop_spec (mem : mnode_t) :
    ∀ (fuel len bno off : Nat) (data : List Byte) (count : Nat),
      off < BLOCKSIZE → len ≤ fuel →
      bno * BLOCKSIZE + off + len ≤ MAXBLOCKS * BLOCKSIZE →
      mem_read_loop mem fuel len bno off data count =
        Run.done (data ++ file_bytes mem (bno * BLOCKSIZE + off) len, count + len) := by
  intro fuel
  induction fuel with
  | zero =>
    intro len bno off data count _ hlen _
    have h0 : len = 0 := by omega
    subst h0
    simp [mem_read_loop, file_bytes]
  | succ fuel ih =>
    intro len bno off data count hoff hlen hcap
    by_cases hl : len > 0
    · obtain ⟨xfer, hx⟩ : ∃ x, x = (if len < BLOCKSIZE - off then len else BLOCKSIZE - off) :=
        ⟨_, rfl⟩
      have hx1 : 0 < xfer ∧ xfer ≤ len ∧ off + xfer ≤ BLOCKSIZE ∧
          (xfer < len → off + xfer = BLOCKSIZE) := by
        rw [hx]; split <;> omega
      have hb : bno < MAXBLOCKS := by
        simp only [BLOCKSIZE, MAXBLOCKS] at *
        omega
      have hsplit : file_bytes mem (bno * BLOCKSIZE + off) len =
          file_bytes mem (bno * BLOCKSIZE + off) xfer ++
            file_bytes mem ((bno + 1) * BLOCKSIZE + 0) (len - xfer) := by
        by_cases hlt : xfer < len
        · have hf := hx1.2.2.2 hlt
          have e : (bno + 1) * BLOCKSIZE + 0 = bno * BLOCKSIZE + off + xfer := by
            simp only [BLOCKSIZE] at *; omega
          rw [e, ← file_bytes_add]
          congr 1; omega
        · have e : len - xfer = 0 := by omega
          have e2 : xfer = len := by omega
          rw [e, e2]
          simp [file_bytes]
      have hrec := ih (len - xfer) (bno + 1) 0
      simp only [mem_read_loop, hl, ↓reduceIte, ← hx, hb]
      have hcap2 : (bno + 1) * BLOCKSIZE + 0 + (len - xfer) ≤ MAXBLOCKS * BLOCKSIZE := by
        by_cases hlt : xfer < len
        · have hf := hx1.2.2.2 hlt
          simp only [BLOCKSIZE, MAXBLOCKS] at *; omega
        · simp only [BLOCKSIZE, MAXBLOCKS] at *; omega
      have hchunk : ∀ j, j < xfer →
          (bno * BLOCKSIZE + off + j) / BLOCKSIZE = bno ∧
          (bno * BLOCKSIZE + off + j) % BLOCKSIZE = off + j := by
        intro j hj
        simp only [BLOCKSIZE] at *
        omega
      cases hm : mem.block bno with
      | none =>
        simp only []
        rw [hrec _ _ (by simp [BLOCKSIZE]) (by omega) hcap2, hsplit, List.append_assoc]
        have e : memset_zero xfer = file_bytes mem (bno * BLOCKSIZE + off) xfer := by
          unfold memset_zero file_bytes
          apply List.ext_getElem
          · simp
          · intro j h1 h2
            simp only [List.length_replicate] at h1
            simp only [List.getElem_replicate, List.getElem_map, List.getElem_range, byte_at]
            rw [(hchunk j h1).1, hm]
        rw [e]
        congr 2; omega
      | some blk =>
        simp only []
        rw [hrec _ _ (by simp [BLOCKSIZE]) (by omega) hcap2, hsplit, List.append_assoc]
        have e : memcpy_from blk off xfer = file_bytes mem (bno * BLOCKSIZE + off) xfer := by
          unfold memcpy_from file_bytes
          apply List.map_congr_left
          intro j hj
          have h1 : j < xfer := List.mem_range.mp hj
          simp only [byte_at]
          rw [(hchunk j h1).1, (hchunk j h1).2, hm]
        rw [e]
        congr 2; omega
    · have h0 : len = 0 := by omega
      subst h0
      simp [mem_read_loop, file_bytes]

theorem mem_read_window (mem : mnode_t) (len off : Nat)
    (hcap : off < mem.datalen → off + min len (mem.datalen - off) ≤ MAXBLOCKS * BLOCKSIZE) :
    mem_read mem len off =
      Run.done (file_bytes mem off (min len (mem.datalen - off)), min len (mem.datalen - off)) := by
  unfold mem_read
  by_cases h : off ≥ mem.datalen
  · rw [if_pos h]
    have e : min len (mem.datalen - off) = 0 := by omega
    rw [e]; rfl
  · rw [if_neg h]
    have hP : off / BLOCKSIZE * BLOCKSIZE + off % BLOCKSIZE = off := by
      simp only [BLOCKSIZE]; omega
    have e : (if len > mem.datalen - off then mem.datalen - off else len) =
        min len (mem.datalen - off) := by split <;> omega
    simp only [e]
    rw [mem_read_loop_spec mem _ _ _ _ _ _ (Nat.mod_lt _ (by simp [BLOCKSIZE])) (le_refl _)
      (by rw [hP]; exact hcap (by omega)), hP]
    simp

theorem mem_read_spec (mem : mnode_t) (len off : Nat)
    (hcap : mem.datalen ≤ MAXBLOCKS * BLOCKSIZE) :
    mem_read mem len off =
      Run.done (file_bytes mem off (min len (mem.datalen - off)), min len (mem.datalen - off)) :=
  mem_read_window mem len off (fun _ => by omega)

/-! ## Sequences of writes -/

theorem committed_write_result (len c : Nat) (h : c ≤ len) :
    committed (write_result 0 len c) = c := by
  unfold write_result count_or_nomem
  by_cases h1 : c = len
  · simp [h1, committed]
  · by_cases h2 : c = 0
    · subst h2
      rw [if_neg h1, if_neg (by simp)]
      rfl
    · rw [if_neg h1, if_pos (by omega)]
      simp [committed]

theorem run_writes_spec : ∀ (ws : List write_req) (mem : mnode_t),
    ∃ mem' log,
      run_writes mem ws = Run.done (mem', log) ∧
      (∀ i, byte_at mem' i = (last_committed log i).getD (byte_at mem i)) ∧
      (mem.datalen ≤ MAXBLOCKS * BLOCKSIZE → mem'.datalen ≤ MAXBLOCKS * BLOCKSIZE) := by
  intro ws
  induction ws with
  | nil =>
    intro mem
    exact ⟨mem, [], rfl, fun i => rfl, fun h => h⟩
  | cons w ws ih =>
    intro mem
    obtain ⟨mem1, c, hw, hc, ⟨_, e2, e3, _, e5⟩, _⟩ :=
      mem_write_spec w.calloc_ok mem w.data w.len w.off
    obtain ⟨mem2, log, hr, hb, hcap⟩ := ih mem1
    refine ⟨mem2, ⟨w.off, w.data, c⟩ :: log, ?_, ?_, ?_⟩
    · simp only [run_writes, hw, hr, committed_write_result _ _ hc]
    · intro i
      rw [hb i, e3 i]
      simp only [last_committed]
      cases last_committed log i with
      | some b => rfl
      | none =>
        simp only [Option.getD_none]
        split <;> rfl
    · intro h
      apply hcap
      rw [e2]
      split
      · exact h
      · have := e5 (by omega)
        omega

/-- C1. Write/read round trip on the block store: after any sequence of
writes to a fresh file (whatever the allocator does), the file length stays
within the capacity and every read returns, at each position it covers, the
byte of the last write that committed that position, and zero where no write
committed; in particular the read of `[0, datalen)` does. -/
theorem write_read_round_trip (vn : vnode_t) (ws : List write_req) :
    ∃ mem log,
      run_writes (fresh_file vn) ws = Run.done (mem, log) ∧
      (∃ bytes, mem_read mem mem.datalen 0 = Run.done (bytes, mem.datalen) ∧
        bytes.length = mem.datalen ∧
        ∀ i, i < mem.datalen → bytes[i]? = some ((last_committed log i).getD 0)) ∧
      (∀ len off, ∃ bytes, mem_read mem len off =
          Run.done (bytes, min len (mem.datalen - off)) ∧
        bytes.length = min len (mem.datalen - off) ∧
        ∀ j, j < min len (mem.datalen - off) →
          bytes[j]? = some ((last_committed log (off + j)).getD 0)) := by
  obtain ⟨mem, log, hrun, hb, hcap⟩ := run_writes_spec ws (fresh_file vn)
  have hcap' : mem.datalen ≤ MAXBLOCKS * BLOCKSIZE := hcap (Nat.zero_le _)
  have hb' : ∀ i, byte_at mem i = (last_committed log i).getD 0 := fun i => hb i
  have hwin : ∀ len off, ∃ bytes, mem_read mem len off =
          Run.done (bytes, min len (mem.datalen - off)) ∧
        bytes.length = min len (mem.datalen - off) ∧
        ∀ j, j < min len (mem.datalen - off) →
          bytes[j]? = some ((last_committed log (off + j)).getD 0) := by
    intro len off
    refine ⟨_, mem_read_spec mem len off hcap', file_bytes_length _ _ _, ?_⟩
    intro j hj
    rw [file_bytes_get _ _ _ _ hj, hb']
  refine ⟨mem, log, hrun, ?_, hwin⟩
  obtain ⟨bytes, h1, h2, h3⟩ := hwin mem.datalen 0
  have e : min mem.datalen (mem.datalen - 0) = mem.datalen := by omega
  rw [e] at h1 h2 h3
  refine ⟨bytes, h1, h2, ?_⟩
  intro i hi
  have := h3 i hi
  rwa [Nat.zero_add] at this

/-- C1, the scenario: "0123456789" written at offset 0 and four bytes at
offset 8190 of a fresh file; the read of `[0, 8194)` gives the ten bytes,
zeros at 10..8189 and the four bytes. -/
theorem write_read_round_trip_witness :
    ∃ mem log bytes,
      run_writes (fresh_file file_vn) scenario_writes = Run.done (mem, log) ∧
      mem.datalen = 8194 ∧
      mem_read mem 8194 0 = Run.done (bytes, 8194) ∧
      (∀ i, i < 10 → bytes[i]? = some (digits i)) ∧
      (∀ i, 10 ≤ i → i < 8190 → bytes[i]? = some 0) ∧
      (∀ i, i < 4 → bytes[8190 + i]? = some (four i)) := by
  obtain ⟨mem, log, hrun, ⟨bytes, h1, _, h3⟩, _⟩ :=
    write_read_round_trip file_vn scenario_writes
  have hconc : ∃ m, run_writes (fresh_file file_vn) scenario_writes =
      Run.done (m, [⟨0, digits, 10⟩, ⟨8190, four, 4⟩]) ∧ m.datalen = 8194 := ⟨_, rfl, rfl⟩
  obtain ⟨m, hm, hd⟩ := hconc
  rw [hm] at hrun
  injection hrun with hrun
  injection hrun with e1 e2
  subst e1 e2
  rw [hd] at h1 h3
  refine ⟨m, _, bytes, hm, hd, h1, ?_, ?_, ?_⟩
  · intro i hi
    rw [h3 i (by omega)]
    simp only [last_committed]
    rw [if_neg (by omega), if_pos (by omega)]
    rfl
  · intro i h10 hi
    rw [h3 i (by omega)]
    simp only [last_committed]
    rw [if_neg (by omega), if_neg (by omega)]
    rfl
  · intro i hi
    rw [h3 (8190 + i) (by omega)]
    simp only [last_committed]
    rw [if_pos (by omega)]
    simp

/-- C2 as stated fails: a write of length 0 at offset 600000 needs more than
`MAXBLOCKS` blocks by the formula, yet it returns the count 0 and no error;
and a write of 2 bytes at offset 524287 returns the count 1, not an error. -/
theorem write_out_of_space_counterexample :
    ¬ ((∃ m, mem_write calloc_always (fresh_file file_vn) digits 0 600000 =
          Run.done (m, ssize_t.status ERR_NO_MEMORY)) ↔
        blocks_needed 600000 0 > MAXBLOCKS) ∧
    ¬ ((∃ m, mem_write calloc_always (fresh_file file_vn) digits 2 524287 =
          Run.done (m, ssize_t.status ERR_NO_MEMORY)) ↔
        blocks_needed 524287 2 > MAXBLOCKS) := by
  have h1 : mem_write calloc_always (fresh_file file_vn) digits 0 600000 =
      Run.done (fresh_file file_vn, ssize_t.count 0) := rfl
  have h2 : ∃ m, mem_write calloc_always (fresh_file file_vn) digits 2 524287 =
      Run.done (m, ssize_t.count 1) := ⟨_, rfl⟩
  constructor
  · intro h
    obtain ⟨m, hm⟩ := h.mpr (by decide)
    rw [h1] at hm
    injection hm with hm
    injection hm with _ hm
    exact absurd hm (by simp)
  · intro h
    obtain ⟨m, hm⟩ := h.mpr (by decide)
    obtain ⟨m2, hm2⟩ := h2
    rw [hm2] at hm
    injection hm with hm
    injection hm with _ hm
    exact absurd hm (by simp)

/-- C2, amended: when no allocation fails, `mem_write` returns a value for
every file, offset `O` and length `L`; the value is the error status
`ERR_NO_MEMORY` exactly when `L > 0` and `O ≥ MAXBLOCKS * BLOCKSIZE`, no other
error status is ever returned, and the value differs from the full count `L`
exactly when `L > 0` and `ceil((O+L)/BLOCKSIZE) > MAXBLOCKS`. -/
theorem write_out_of_space_iff (calloc_ok : Nat → Bool) (mem : mnode_t) (data : Nat → Byte)
    (L O : Nat) (hok : ∀ b, calloc_ok b = true) :
    ∃ mem' r,
      mem_write calloc_ok mem data L O = Run.done (mem', r) ∧
      (r = ssize_t.status ERR_NO_MEMORY ↔ (0 < L ∧ MAXBLOCKS * BLOCKSIZE ≤ O)) ∧
      (∀ e, r = ssize_t.status e → e = ERR_NO_MEMORY) ∧
      (r ≠ ssize_t.count L ↔ (0 < L ∧ blocks_needed O L > MAXBLOCKS)) := by
  obtain ⟨mem', c, hw, hc, _, hall⟩ := mem_write_spec calloc_ok mem data L O
  have hc2 := hall hok
  refine ⟨mem', _, hw, ?_, ?_, ?_⟩
  · unfold write_result count_or_nomem
    simp only [MAXBLOCKS, BLOCKSIZE] at *
    by_cases h1 : c = L
    · rw [if_pos h1]
      constructor
      · intro h; exact absurd h (by simp)
      · intro h; omega
    · rw [if_neg h1]
      by_cases h2 : c = 0
      · simp only [h2, Nat.add_zero, ne_eq, not_true_eq_false, ↓reduceIte, true_iff]
        omega
      · rw [if_pos (by omega)]
        constructor
        · intro h; exact absurd h (by simp)
        · intro h; omega
  · intro e he
    unfold write_result count_or_nomem at he
    split at he
    · exact absurd he (by simp)
    · split at he
      · exact absurd he (by simp)
      · injection he with he; exact he.symm
  · unfold write_result count_or_nomem blocks_needed
    simp only [MAXBLOCKS, BLOCKSIZE] at *
    by_cases h1 : c = L
    · rw [if_pos h1, h1]
      simp only [Nat.zero_add, ne_eq, not_true_eq_false, false_iff]
      omega
    · rw [if_neg h1]
      have hr : (0 < L ∧ (O + L + (8192 - 1)) / 8192 > 64) := by omega
      simp only [hr, and_self, iff_true]
      split
      · intro h
        injection h with h
        omega
      · intro h; exact absurd h (by simp)

/-- C2, amended, at a write of 2 bytes at offset 524287 of a fresh file. -/
theorem write_out_of_space_iff_witness :
    ∃ mem' r,
      mem_write calloc_always (fresh_file file_vn) digits 2 524287 = Run.done (mem', r) ∧
      (r = ssize_t.status ERR_NO_MEMORY ↔ (0 < 2 ∧ MAXBLOCKS * BLOCKSIZE ≤ 524287)) ∧
      (∀ e, r = ssize_t.status e → e = ERR_NO_MEMORY) ∧
      (r ≠ ssize_t.count 2 ↔ (0 < 2 ∧ blocks_needed 524287 2 > MAXBLOCKS)) :=
  write_out_of_space_iff calloc_always (fresh_file file_vn) digits 2 524287 (fun _ => rfl)

/-- C3. Partial-write reporting: when no allocation fails, a write of `L > 0`
bytes at offset `O` with `O + L > MAXBLOCKS * BLOCKSIZE` returns the count
`MAXBLOCKS * BLOCKSIZE - O` when `O` is below the capacity, and a read of that
many bytes at `O` afterwards returns exactly the first bytes of the written
data; when `O` is at or beyond the capacity it returns the error status and
the file is unchanged. -/
theorem partial_write_reporting (calloc_ok : Nat → Bool) (mem : mnode_t) (data : Nat → Byte)
    (L O : Nat) (hok : ∀ b, calloc_ok b = true) (hL : 0 < L)
    (hover : O + L > MAXBLOCKS * BLOCKSIZE) :
    ∃ mem' r,
      mem_write calloc_ok mem data L O = Run.done (mem', r) ∧
      (O < MAXBLOCKS * BLOCKSIZE →
        r = ssize_t.count (MAXBLOCKS * BLOCKSIZE - O) ∧
        ∃ bytes, mem_read mem' (MAXBLOCKS * BLOCKSIZE - O) O =
            Run.done (bytes, MAXBLOCKS * BLOCKSIZE - O) ∧
          bytes.length = MAXBLOCKS * BLOCKSIZE - O ∧
          ∀ j, j < MAXBLOCKS * BLOCKSIZE - O → bytes[j]? = some (data j)) ∧
      (MAXBLOCKS * BLOCKSIZE ≤ O → r = ssize_t.status ERR_NO_MEMORY ∧ mem' = mem) := by
  obtain ⟨mem', c, hw, hc, ⟨_, e2, e3, e4, _⟩, hall⟩ := mem_write_spec calloc_ok mem data L O
  have hc2 := hall hok
  refine ⟨mem', _, hw, ?_, ?_⟩
  · intro hO
    have hcv : c = MAXBLOCKS * BLOCKSIZE - O := by omega
    have hne : c ≠ L := by omega
    have hpos : c ≠ 0 := by omega
    refine ⟨?_, ?_⟩
    · unfold write_result count_or_nomem
      rw [if_neg hne, if_pos (by omega), Nat.zero_add, hcv]
    · rw [if_neg hpos] at e2
      have hmin : min (MAXBLOCKS * BLOCKSIZE - O) (mem'.datalen - O) =
          MAXBLOCKS * BLOCKSIZE - O := by omega
      have hr := mem_read_window mem' (MAXBLOCKS * BLOCKSIZE - O) O (fun _ => by omega)
      rw [hmin] at hr
      refine ⟨_, hr, file_bytes_length _ _ _, ?_⟩
      intro j hj
      rw [file_bytes_get _ _ _ _ hj, e3, if_pos (by omega)]
      congr 2
      omega
  · intro hO
    have hcv : c = 0 := by omega
    refine ⟨?_, e4 hcv⟩
    unfold write_result count_or_nomem
    rw [if_neg (by omega), hcv]
    rfl

/-- C3 at a write of 2 bytes at offset 524287 of a fresh file. -/
theorem partial_write_reporting_witness :
    ∃ mem' r,
      mem_write calloc_always (fresh_file file_vn) digits 2 524287 = Run.done (mem', r) ∧
      (524287 < MAXBLOCKS * BLOCKSIZE →
        r = ssize_t.count (MAXBLOCKS * BLOCKSIZE - 524287) ∧
        ∃ bytes, mem_read mem' (MAXBLOCKS * BLOCKSIZE - 524287) 524287 =
            Run.done (bytes, MAXBLOCKS * BLOCKSIZE - 524287) ∧
          bytes.length = MAXBLOCKS * BLOCKSIZE - 524287 ∧
          ∀ j, j < MAXBLOCKS * BLOCKSIZE - 524287 → bytes[j]? = some (digits j)) ∧
      (MAXBLOCKS * BLOCKSIZE ≤ 524287 →
        r = ssize_t.status ERR_NO_MEMORY ∧ mem' = fresh_file file_vn) :=
  partial_write_reporting calloc_always (fresh_file file_vn) digits 2 524287 (fun _ => rfl)
    (by decide) (by decide)

/-- C4. Read clamping: on a file whose length is within the capacity, `mem_read`
returns (without fault or error) exactly `min(len, datalen - off)` bytes when
`off < datalen` and no byte when `off ≥ datalen`; the count it returns is the
number of bytes stored; a byte that comes from an absent block is zero and a
byte that comes from an allocated block is the byte of that block. -/
theorem read_clamping (mem : mnode_t) (len off : Nat)
    (hcap : mem.datalen ≤ MAXBLOCKS * BLOCKSIZE) :
    ∃ bytes,
      mem_read mem len off = Run.done (bytes, bytes.length) ∧
      (off < mem.datalen → bytes.length = min len (mem.datalen - off)) ∧
      (mem.datalen ≤ off → bytes.length = 0) ∧
      (∀ j, j < bytes.length → mem.block ((off + j) / BLOCKSIZE) = none →
        bytes[j]? = some 0) ∧
      (∀ j blk, j < bytes.length → mem.block ((off + j) / BLOCKSIZE) = some blk →
        bytes[j]? = some (blk ((off + j) % BLOCKSIZE))) := by
  have hr := mem_read_spec mem len off hcap
  have hlen := file_bytes_length mem off (min len (mem.datalen - off))
  refine ⟨file_bytes mem off (min len (mem.datalen - off)), ?_, ?_, ?_, ?_, ?_⟩
  · rw [hr, hlen]
  · intro _; exact hlen
  · intro h; rw [hlen]; omega
  · intro j hj hnone
    rw [hlen] at hj
    rw [file_bytes_get _ _ _ _ hj]
    simp only [byte_at, hnone]
  · intro j blk hj hsome
    rw [hlen] at hj
    rw [file_bytes_get _ _ _ _ hj]
    simp only [byte_at, hsome]

/-- C4 at a read of 100 bytes at offset 19950 of a 20000-byte file with a
single allocated block. -/
theorem read_clamping_witness :
    sparse_file.datalen ≤ MAXBLOCKS * BLOCKSIZE ∧
    ∃ bytes,
      mem_read sparse_file 100 19950 = Run.done (bytes, bytes.length) ∧
      (19950 < sparse_file.datalen → bytes.length = min 100 (sparse_file.datalen - 19950)) ∧
      (sparse_file.datalen ≤ 19950 → bytes.length = 0) ∧
      (∀ j, j < bytes.length → sparse_file.block ((19950 + j) / BLOCKSIZE) = none →
        bytes[j]? = some 0) ∧
      (∀ j blk, j < bytes.length → sparse_file.block ((19950 + j) / BLOCKSIZE) = some blk →
        bytes[j]? = some (blk ((19950 + j) % BLOCKSIZE))) :=
  ⟨by decide, read_clamping sparse_file 100 19950 (by decide)⟩

/-- C5. Length update on write: a write that commits `c > 0` bytes at offset
`O` sets the length to `max(old length, O + c)`; a write that commits nothing
leaves the length (and the whole file) unchanged; the length never decreases. -/
theorem write_length_update (calloc_ok : Nat → Bool) (mem : mnode_t) (data : Nat → Byte)
    (L O : Nat) :
    ∃ mem' r,
      mem_write calloc_ok mem data L O = Run.done (mem', r) ∧
      (0 < committed r → mem'.datalen = max mem.datalen (O + committed r)) ∧
      (committed r = 0 → mem'.datalen = mem.datalen ∧ mem' = mem) ∧
      (L = 0 → committed r = 0) ∧
      (∀ e, r = ssize_t.status e → committed r = 0) ∧
      mem.datalen ≤ mem'.datalen := by
  obtain ⟨mem', c, hw, hc, ⟨_, e2, _, e4, _⟩, _⟩ := mem_write_spec calloc_ok mem data L O
  refine ⟨mem', _, hw, ?_, ?_, ?_, ?_, ?_⟩
  · rw [committed_write_result _ _ hc]
    intro h
    rw [e2, if_neg (by omega)]
  · rw [committed_write_result _ _ hc]
    intro h
    rw [e4 h]
    exact ⟨rfl, rfl⟩
  · rw [committed_write_result _ _ hc]
    intro h; omega
  · intro e he
    rw [he]
    rfl
  · rw [e2]
    split
    · exact le_refl _
    · exact le_max_left _ _

/-- C5, the scenario: after writing 10 bytes at offset 0 and 4 bytes at offset
8190 to a fresh file the length is 8194. -/
theorem write_length_update_witness :
    ∃ m1 m2,
      mem_write calloc_always (fresh_file file_vn) digits 10 0 =
        Run.done (m1, ssize_t.count 10) ∧
      mem_write calloc_always m1 four 4 8190 = Run.done (m2, ssize_t.count 4) ∧
      m1.datalen = max (fresh_file file_vn).datalen (0 + 10) ∧
      m2.datalen = max m1.datalen (8190 + 4) ∧
      m2.datalen = 8194 := by
  have hconc : ∃ m1 m2,
      mem_write calloc_always (fresh_file file_vn) digits 10 0 =
        Run.done (m1, ssize_t.count 10) ∧
      mem_write calloc_always m1 four 4 8190 = Run.done (m2, ssize_t.count 4) :=
    ⟨_, _, rfl, rfl⟩
  obtain ⟨m1, m2, h1, h2⟩ := hconc
  obtain ⟨a1, r1, k1, p1, _⟩ := write_length_update calloc_always (fresh_file file_vn) digits 10 0
  obtain ⟨a2, r2, k2, p2, _⟩ := write_length_update calloc_always m1 four 4 8190
  rw [h1] at k1
  rw [h2] at k2
  injection k1 with k1
  injection k1 with k1a k1b
  injection k2 with k2
  injection k2 with k2a k2b
  subst k1a k1b k2a k2b
  have q1 := p1 (by decide)
  have q2 := p2 (by decide)
  refine ⟨m1, m2, h1, h2, q1, q2, ?_⟩
  rw [q2, q1]
  rfl

/-! ## The heap -/

theorem set_vnode_cancel (s : fs_state) (p : Nat) (m : mnode_t) (h : s.vnodes p = none) :
    set_vnode (set_vnode s p (some m)) p none = s := by
  cases s with
  | mk vnodes dnodes =>
    simp only [set_vnode, Function.update_idem]
    congr 1
    funext q
    by_cases hq : q = p
    · subst hq; simp [h.symm]
    · simp [Function.update_noteq hq]

@[simp] theorem set_vnode_vnodes_same (s : fs_state) (p : Nat) (m : Option mnode_t) :
    (set_vnode s p m).vnodes p = m := by
  simp [set_vnode]

theorem set_vnode_vnodes_ne (s : fs_state) (p q : Nat) (m : Option mnode_t) (h : q ≠ p) :
    (set_vnode s p m).vnodes q = s.vnodes q := by
  simp [set_vnode, Function.update_noteq h]

@[simp] theorem set_vnode_dnodes (s : fs_state) (p : Nat) (m : Option mnode_t) :
    (set_vnode s p m).dnodes = s.dnodes := rfl

@[simp] theorem set_dnode_dnodes_same (s : fs_state) (p : Nat) (d : Option dnode_t) :
    (set_dnode s p d).dnodes p = d := by
  simp [set_dnode]

theorem set_dnode_dnodes_ne (s : fs_state) (p q : Nat) (d : Option dnode_t) (h : q ≠ p) :
    (set_dnode s p d).dnodes q = s.dnodes q := by
  simp [set_dnode, Function.update_noteq h]

@[simp] theorem set_dnode_vnodes (s : fs_state) (p : Nat) (d : Option dnode_t) :
    (set_dnode s p d).vnodes = s.vnodes := rfl

theorem vn_acquire_eq (s : fs_state) (vn : Nat) (m : mnode_t) (h : s.vnodes vn = some m) :
    vn_acquire s vn = some (set_vnode s vn (some (with_refcount m (m.vn.refcount + 1)))) := by
  simp only [vn_acquire, h]

theorem dn_lookup_eq (s : fs_state) (pdn : Nat) (pd : dnode_t) (name : Name)
    (h : s.dnodes pdn = some pd) :
    dn_lookup s pdn name =
      match dn_find s.dnodes name pd.children with
      | none => none
      | some none => some (ERR_NOT_FOUND, none)
      | some (some dn) => some (NO_ERROR, some dn) := by
  simp only [dn_lookup, h]

theorem dn_find_congr (ds ds' : Nat → Option dnode_t) (name : Name) :
    ∀ cs : List Nat,
      (∀ c ∈ cs, (ds' c).map dnode_t.name = (ds c).map dnode_t.name) →
      dn_find ds' name cs = dn_find ds name cs := by
  intro cs
  induction cs with
  | nil => intro _; rfl
  | cons c cs ih =>
    intro h
    have hc := h c (List.mem_cons_self _ _)
    have ih' := ih (fun x hx => h x (List.mem_cons_of_mem _ hx))
    simp only [dn_find]
    cases h1 : ds c with
    | none =>
      rw [h1] at hc
      cases h2 : ds' c with
      | none => rfl
      | some d' => rw [h2] at hc; simp at hc
    | some d =>
      rw [h1] at hc
      cases h2 : ds' c with
      | none => rw [h2] at hc; simp at hc
      | some d' =>
        rw [h2] at hc
        simp only [Option.map_some', Option.some.injEq] at hc
        simp only [hc, ih']

theorem dn_find_none_iff (ds : Nat → Option dnode_t) (name : Name) :
    ∀ cs : List Nat,
      dn_find ds name cs = some none ↔ ∀ c ∈ cs, ∃ d, ds c = some d ∧ d.name ≠ name := by
  intro cs
  induction cs with
  | nil => simp [dn_find]
  | cons c cs ih =>
    simp only [dn_find, List.mem_cons, forall_eq_or_imp]
    cases h1 : ds c with
    | none => simp
    | some d =>
      by_cases hn : d.name = name
      · simp [hn]
      · simp [hn, ih]

theorem dn_find_some (ds : Nat → Option dnode_t) (name : Name) :
    ∀ (cs : List Nat) (dn : Nat),
      dn_find ds name cs = some (some dn) →
      dn ∈ cs ∧ ∃ d, ds dn = some d ∧ d.name = name := by
  intro cs
  induction cs with
  | nil => intro dn h; simp [dn_find] at h
  | cons c cs ih =>
    intro dn h
    simp only [dn_find] at h
    cases h1 : ds c with
    | none => rw [h1] at h; simp at h
    | some d =>
      rw [h1] at h
      by_cases hn : d.name = name
      · simp only [hn, ↓reduceIte, Option.some.injEq] at h
        subst h
        exact ⟨List.mem_cons_self _ _, d, h1, hn⟩
      · simp only [hn, ↓reduceIte] at h
        obtain ⟨hm, hd⟩ := ih dn h
        exact ⟨List.mem_cons_of_mem _ hm, hd⟩

theorem dn_find_append (ds : Nat → Option dnode_t) (name : Name) :
    ∀ (cs cs' : List Nat), dn_find ds name cs = some none →
      dn_find ds name (cs ++ cs') = dn_find ds name cs' := by
  intro cs
  induction cs with
  | nil => intro cs' _; rfl
  | cons c cs ih =>
    intro cs' h
    simp only [dn_find, List.cons_append] at h ⊢
    cases h1 : ds c with
    | none => rw [h1] at h; simp at h
    | some d =>
      rw [h1] at h
      by_cases hn : d.name = name
      · simp [hn] at h
      · simp only [hn, ↓reduceIte] at h ⊢
        exact ih cs' h

/-! ## The can-unlink gate -/

/-- C8. Can-unlink gate: for an entry with an allocated target vnode,
`mem_can_unlink` returns `ERR_BAD_STATE` exactly when the target is a
directory (its `dnode` is set) with reference count above 1, or the entry has
a child, or the target has the remote flag; otherwise it returns `NO_ERROR`.
A file target without child and remote flag passes whatever its reference
count. -/
theorem can_unlink_gate (s : fs_state) (dn v : Nat) (d : dnode_t) (vn : mnode_t)
    (hd : s.dnodes dn = some d) (hv : d.vnode = some v) (hvn : s.vnodes v = some vn) :
    (mem_can_unlink s dn = some ERR_BAD_STATE ↔
      ((vn.vn.dnode.isSome = true ∧ vn.vn.refcount > 1) ∨ d.children ≠ [] ∨
        vn.vn.flags &&& V_FLAG_REMOTE ≠ 0)) ∧
    (mem_can_unlink s dn = some NO_ERROR ↔
      ¬ ((vn.vn.dnode.isSome = true ∧ vn.vn.refcount > 1) ∨ d.children ≠ [] ∨
        vn.vn.flags &&& V_FLAG_REMOTE ≠ 0)) ∧
    (vn.vn.dnode = none → d.children = [] → vn.vn.flags &&& V_FLAG_REMOTE = 0 →
      mem_can_unlink s dn = some NO_ERROR) := by
  have hval : mem_can_unlink s dn =
      if vn.vn.dnode.isSome && decide (vn.vn.refcount > 1) then some ERR_BAD_STATE
      else if !d.children.isEmpty then some ERR_BAD_STATE
      else if vn.vn.flags &&& V_FLAG_REMOTE ≠ 0 then some ERR_BAD_STATE
      else some NO_ERROR := by
    simp only [mem_can_unlink, hd, hv, hvn]
  have hemp : d.children.isEmpty = true ↔ d.children = [] := List.isEmpty_iff
  rw [hval]
  by_cases h1 : vn.vn.dnode.isSome = true ∧ vn.vn.refcount > 1
  · have e : (vn.vn.dnode.isSome && decide (vn.vn.refcount > 1)) = true := by
      simp [h1.1, h1.2]
    rw [if_pos e]
    refine ⟨by simp [h1], by simp [h1], ?_⟩
    intro hfile
    rw [hfile] at h1
    simp at h1
  · have e : ¬ (vn.vn.dnode.isSome && decide (vn.vn.refcount > 1)) = true := by
      simpa using h1
    rw [if_neg e]
    by_cases h2 : d.children = []
    · have e2 : ¬ (!d.children.isEmpty) = true := by simp [hemp.mpr h2]
      rw [if_neg e2]
      by_cases h3 : vn.vn.flags &&& V_FLAG_REMOTE ≠ 0
      · rw [if_pos h3]
        refine ⟨by simp [h3], by simp [h3], ?_⟩
        intro _ _ h; exact absurd h h3
      · rw [if_neg h3]
        refine ⟨by simp [h1, h2, h3], by simp [h1, h2, h3], ?_⟩
        intro _ _ _; rfl
    · have e2 : (!d.children.isEmpty) = true := by
        cases hc : d.children with
        | nil => exact absurd hc h2
        | cons a l => rfl
      rw [if_pos e2]
      refine ⟨by simp [h2], by simp [h2], ?_⟩
      intro _ h; exact absurd h h2

/-- C8 at the entry of the open file "a" (reference count 2) of the tree. -/
theorem can_unlink_gate_witness :
    (mem_can_unlink tree_state 1 = some ERR_BAD_STATE ↔
      (((file_mnode 2).vn.dnode.isSome = true ∧ (file_mnode 2).vn.refcount > 1) ∨
        ([] : List Nat) ≠ [] ∨ (file_mnode 2).vn.flags &&& V_FLAG_REMOTE ≠ 0)) ∧
    (mem_can_unlink tree_state 1 = some NO_ERROR ↔
      ¬ (((file_mnode 2).vn.dnode.isSome = true ∧ (file_mnode 2).vn.refcount > 1) ∨
        ([] : List Nat) ≠ [] ∨ (file_mnode 2).vn.flags &&& V_FLAG_REMOTE ≠ 0)) ∧
    ((file_mnode 2).vn.dnode = none → ([] : List Nat) = [] →
      (file_mnode 2).vn.flags &&& V_FLAG_REMOTE = 0 →
      mem_can_unlink tree_state 1 = some NO_ERROR) :=
  can_unlink_gate tree_state 1 1
    { name := ['a'], vnode := some 1, parent := some 0, children := [] } (file_mnode 2)
    rfl rfl rfl

/-! ## Create and lookup -/

theorem dn_lookup_set_vnode (s : fs_state) (p : Nat) (m : Option mnode_t) (pdn : Nat)
    (name : Name) : dn_lookup (set_vnode s p m) pdn name = dn_lookup s pdn name := rfl

/-- C7. Create collision: on a directory that already has a child called
`name`, `mem_create` (its allocation succeeding) returns `ERR_ALREADY_EXISTS`,
stores no vnode at `out` and leaves the heap exactly as it was; on a parent
that is not a directory it returns `ERR_INVALID_ARGS`, again with the heap
unchanged. -/
theorem create_collision (s : fs_state) (parent : Nat) (pv : mnode_t) (name : Name)
    (mode : Nat) (hpv : s.vnodes parent = some pv) :
    (∀ pdn dn p dn_alloc, pv.vn.dnode = some pdn →
      dn_lookup s pdn name = some (NO_ERROR, some dn) → s.vnodes p = none →
      mem_create s (some parent) name mode (some p) dn_alloc =
        some (s, ERR_ALREADY_EXISTS, none)) ∧
    (pv.vn.dnode = none → ∀ mem_alloc dn_alloc,
      mem_create s (some parent) name mode mem_alloc dn_alloc =
        some (s, ERR_INVALID_ARGS, none)) := by
  constructor
  · intro pdn dn p dn_alloc hdir hfound hp
    simp only [mem_create, _mem_create, hpv, hdir, dn_lookup_set_vnode, hfound, ↓reduceIte,
      set_vnode_cancel s p _ hp, mx_status_t.isErr]
    rfl
  · intro hfile mem_alloc dn_alloc
    simp only [mem_create, _mem_create, hpv, hfile, mx_status_t.isErr]
    rfl

/-- C7 on the tree: creating "a" again in the root, and creating a name under
the file "a". -/
theorem create_collision_witness :
    mem_create tree_state (some 0) ['a'] 0 (some 7) (some 7) =
      some (tree_state, ERR_ALREADY_EXISTS, none) ∧
    mem_create tree_state (some 1) ['b'] 0 (some 7) (some 7) =
      some (tree_state, ERR_INVALID_ARGS, none) :=
  ⟨(create_collision tree_state 0 root_mnode ['a'] 0 rfl).1 0 1 7 (some 7) rfl rfl rfl,
   (create_collision tree_state 1 (file_mnode 2) ['b'] 0 rfl).2 rfl (some 7) (some 7)⟩

theorem dn_lookup_not_found (s : fs_state) (pdn : Nat) (name : Name)
    (h : dn_lookup s pdn name = some (ERR_NOT_FOUND, none)) :
    ∃ pd, s.dnodes pdn = some pd ∧ dn_find s.dnodes name pd.children = some none := by
  cases hpd : s.dnodes pdn with
  | none => simp [dn_lookup, hpd] at h
  | some pd =>
    rw [dn_lookup_eq s pdn pd name hpd] at h
    refine ⟨pd, rfl, ?_⟩
    cases hf : dn_find s.dnodes name pd.children with
    | none => rw [hf] at h; simp at h
    | some r =>
      cases r with
      | none => rfl
      | some dn => rw [hf] at h; simp at h

theorem dn_lookup_found (s : fs_state) (pdn : Nat) (name : Name) (dn : Nat)
    (h : dn_lookup s pdn name = some (NO_ERROR, some dn)) :
    ∃ pd, s.dnodes pdn = some pd ∧ dn_find s.dnodes name pd.children = some (some dn) := by
  cases hpd : s.dnodes pdn with
  | none => simp [dn_lookup, hpd] at h
  | some pd =>
    rw [dn_lookup_eq s pdn pd name hpd] at h
    refine ⟨pd, rfl, ?_⟩
    cases hf : dn_find s.dnodes name pd.children with
    | none => rw [hf] at h; simp at h
    | some r =>
      cases r with
      | none => rw [hf] at h; simp at h
      | some dn' =>
        rw [hf] at h
        simp only [Option.some.injEq, Prod.mk.injEq, true_and] at h
        rw [h]

/-- The heap after a successful `_mem_create`. -/
theorem mem_create_inner_spec (s : fs_state) (parent pdn p d : Nat) (pv : mnode_t) (pd : dnode_t)
    (name : Name) (isdir : Bool) (hpv : s.vnodes parent = some pv)
    (hdir : pv.vn.dnode = some pdn) (hpd : s.dnodes pdn = some pd)
    (hfind : dn_find s.dnodes name pd.children = some none) (hd : s.dnodes d = none) :
    ∃ s1,
      _mem_create s (some parent) name isdir (some p) (some d) = some (s1, NO_ERROR, some p) ∧
      s1.vnodes p = some
        { vn := { ops := some vnode_ops_t.vn_mem_ops, refcount := 1, flags := 0, remote := 0,
                  dnode := if isdir then some d else none },
          datalen := 0, block := fun _ => none } ∧
      (∀ q, q ≠ p → s1.vnodes q = s.vnodes q) ∧
      s1.dnodes d = some { name := name, vnode := some p, parent := some pdn, children := [] } ∧
      s1.dnodes pdn = some { pd with children := pd.children ++ [d] } ∧
      (∀ q, q ≠ d → q ≠ pdn → s1.dnodes q = s.dnodes q) := by
  have hne1 : pdn ≠ d := by
    intro h; rw [h, hd] at hpd; simp at hpd
  have hlook : dn_lookup s pdn name = some (ERR_NOT_FOUND, none) := by
    rw [dn_lookup_eq s pdn pd name hpd, hfind]
  unfold _mem_create
  simp only [hpv, hdir, dn_lookup_set_vnode, hlook]
  rw [if_neg (by decide)]
  unfold dn_create
  simp only [vn_acquire_eq _ p _ (set_vnode_vnodes_same _ _ _), mx_status_t.isErr]
  unfold dn_add_child
  simp only [set_dnode_dnodes_same, set_dnode_dnodes_ne _ _ _ _ hne1, set_vnode_dnodes, hpd,
    set_dnode_vnodes, set_vnode_vnodes_same]
  cases isdir with
  | false =>
    refine ⟨_, rfl, ?_, ?_, ?_, ?_, ?_⟩
    · simp [with_refcount, zero_mnode]
    · intro q hq
      simp [set_vnode_vnodes_ne _ _ _ _ hq]
    · simp [set_dnode_dnodes_ne _ _ _ _ hne1.symm]
    · simp
    · intro q h1 h2
      simp [set_dnode_dnodes_ne _ _ _ _ h1, set_dnode_dnodes_ne _ _ _ _ h2]
  | true =>
    refine ⟨_, rfl, ?_, ?_, ?_, ?_, ?_⟩
    · simp [with_refcount, zero_mnode]
    · intro q hq
      simp [set_vnode_vnodes_ne _ _ _ _ hq]
    · simp [set_dnode_dnodes_ne _ _ _ _ hne1.symm]
    · simp
    · intro q h1 h2
      simp [set_dnode_dnodes_ne _ _ _ _ h1, set_dnode_dnodes_ne _ _ _ _ h2]

/-- C6. Create then lookup: in a directory that has no child called `name`,
`mem_create` (its allocations succeeding) returns `NO_ERROR` and the new vnode;
`memfs_lookup` of the same name right after returns `NO_ERROR` and that very
vnode; the vnode is a directory (its `dnode` is set) exactly when the mode
asked for one, its length is 0 and it has no block; it holds two references,
the one of its entry and the one of the caller. -/
theorem create_then_lookup (s : fs_state) (parent pdn p d : Nat) (pv : mnode_t) (name : Name)
    (mode : Nat) (hpv : s.vnodes parent = some pv) (hdir : pv.vn.dnode = some pdn)
    (habsent : dn_lookup s pdn name = some (ERR_NOT_FOUND, none))
    (hp : s.vnodes p = none) (hd : s.dnodes d = none) :
    ∃ s1 s2 m,
      mem_create s (some parent) name mode (some p) (some d) = some (s1, NO_ERROR, some p) ∧
      memfs_lookup s1 parent name = some (s2, NO_ERROR, some p) ∧
      s1.vnodes p = some m ∧ m.vn.dnode.isSome = S_ISDIR mode ∧ m.datalen = 0 ∧
      (∀ b, m.block b = none) ∧ m.vn.refcount = 2 := by
  obtain ⟨pd, hpd, hfind⟩ := dn_lookup_not_found s pdn name habsent
  have hne1 : pdn ≠ d := by
    intro h; rw [h, hd] at hpd; simp at hpd
  have hne2 : parent ≠ p := by
    intro h; rw [h, hp] at hpv; simp at hpv
  obtain ⟨s1, hc, hvp, hvq, hdd, hdp, hdq⟩ :=
    mem_create_inner_spec s parent pdn p d pv pd name (S_ISDIR mode) hpv hdir hpd hfind hd
  have hold : dn_find s1.dnodes name pd.children = some none := by
    rw [dn_find_congr s.dnodes s1.dnodes name pd.children, hfind]
    intro c hc'
    obtain ⟨dc, hdc, _⟩ := (dn_find_none_iff s.dnodes name pd.children).mp hfind c hc'
    have hcd : c ≠ d := by
      intro h; rw [h, hd] at hdc; simp at hdc
    by_cases hcp : c = pdn
    · rw [hcp, hdp, hpd]; rfl
    · rw [hdq c hcd hcp]
  have hnew : dn_find s1.dnodes name (pd.children ++ [d]) = some (some d) := by
    rw [dn_find_append _ _ _ _ hold]
    simp [dn_find, hdd]
  obtain ⟨m1, hm1⟩ : ∃ m1 : mnode_t, s1.vnodes p = some m1 ∧
      m1.vn.dnode = (if S_ISDIR mode then some d else none) ∧ m1.datalen = 0 ∧
      (∀ b, m1.block b = none) ∧ m1.vn.refcount = 1 := ⟨_, hvp, rfl, rfl, fun _ => rfl, rfl⟩
  obtain ⟨hv1, hv2, hv3, hv4, hv5⟩ := hm1
  have hlook : dn_lookup (set_vnode s1 p (some (with_refcount m1 (m1.vn.refcount + 1)))) pdn
      name = some (NO_ERROR, some d) := by
    rw [dn_lookup_set_vnode, dn_lookup_eq s1 pdn _ name hdp]
    simp only [hnew]
  have hlk : memfs_lookup (set_vnode s1 p (some (with_refcount m1 (m1.vn.refcount + 1))))
      parent name =
      some (set_vnode (set_vnode s1 p (some (with_refcount m1 (m1.vn.refcount + 1)))) p
        (some (with_refcount (with_refcount m1 (m1.vn.refcount + 1))
          ((with_refcount m1 (m1.vn.refcount + 1)).vn.refcount + 1))), NO_ERROR, some p) := by
    unfold memfs_lookup
    simp only [set_vnode_vnodes_ne _ _ _ _ hne2, hvq parent hne2, hpv, hdir, hlook,
      mx_status_t.isErr, set_vnode_dnodes, hdd]
    simp only [vn_acquire_eq _ p _ (set_vnode_vnodes_same _ _ _)]
    rfl
  have hcr : mem_create s (some parent) name mode (some p) (some d) =
      some (set_vnode s1 p (some (with_refcount m1 (m1.vn.refcount + 1))), NO_ERROR, some p) := by
    simp only [mem_create, hc, mx_status_t.isErr, vn_acquire_eq s1 p _ hv1]
    rfl
  have hk : (with_refcount m1 (m1.vn.refcount + 1)).vn.dnode.isSome = S_ISDIR mode := by
    show m1.vn.dnode.isSome = S_ISDIR mode
    rw [hv2]
    cases S_ISDIR mode <;> rfl
  have hrc : (with_refcount m1 (m1.vn.refcount + 1)).vn.refcount = 2 := by
    show m1.vn.refcount + 1 = 2
    rw [hv5]
  exact ⟨_, _, _, hcr, hlk, set_vnode_vnodes_same _ _ _, hk, hv3, hv4, hrc⟩

/-- C6 at the creation of the directory "x" in the local root. -/
theorem create_then_lookup_witness :
    ∃ s1 s2 m,
      mem_create root_state (some 0) ['x'] 0o040000 (some 1) (some 1) =
        some (s1, NO_ERROR, some 1) ∧
      memfs_lookup s1 0 ['x'] = some (s2, NO_ERROR, some 1) ∧
      s1.vnodes 1 = some m ∧ m.vn.dnode.isSome = S_ISDIR 0o040000 ∧ m.datalen = 0 ∧
      (∀ b, m.block b = none) ∧ m.vn.refcount = 2 :=
  create_then_lookup root_state 0 0 1 1 root_mnode ['x'] 0o040000 rfl rfl rfl rfl rfl

/-! ## Unlink -/

theorem dn_delete_spec (s : fs_state) (dn pdn v : Nat) (d pd : dnode_t) (vn : mnode_t)
    (hd : s.dnodes dn = some d) (hpar : d.parent = some pdn) (hpd : s.dnodes pdn = some pd)
    (hne : dn ≠ pdn) (hv : d.vnode = some v) (hvn : s.vnodes v = some vn)
    (href : 0 < vn.vn.refcount) (hops : vn.vn.refcount = 1 → vn.vn.ops.isSome = true) :
    ∃ s', dn_delete s dn = some s' ∧
      s'.dnodes dn = none ∧
      s'.dnodes pdn = some { pd with children := pd.children.erase dn } ∧
      (∀ q, q ≠ dn → q ≠ pdn → s'.dnodes q = s.dnodes q) ∧
      s'.vnodes v = (if vn.vn.refcount = 1 then none
        else some (with_refcount vn (vn.vn.refcount - 1))) ∧
      (∀ q, q ≠ v → s'.vnodes q = s.vnodes q) := by
  unfold dn_delete
  simp only [hd, hpar, hpd, hv]
  unfold vn_release
  simp only [set_dnode_vnodes, hvn, if_neg (Nat.pos_iff_ne_zero.mp href)]
  by_cases h1 : vn.vn.refcount = 1
  · have h0 : vn.vn.refcount - 1 = 0 := by omega
    obtain ⟨o, ho⟩ := Option.isSome_iff_exists.mp (hops h1)
    rw [if_pos h0]
    simp only [ho]
    unfold mem_release
    simp only [set_vnode_vnodes_same]
    refine ⟨_, rfl, by simp, ?_, ?_, ?_, ?_⟩
    · simp [set_dnode_dnodes_ne _ _ _ _ hne.symm]
    · intro q h2 h3
      simp [set_dnode_dnodes_ne _ _ _ _ h2, set_dnode_dnodes_ne _ _ _ _ h3]
    · simp [h1, set_vnode]
    · intro q hq
      simp [set_vnode, Function.update_noteq hq]
  · have h0 : ¬ vn.vn.refcount - 1 = 0 := by omega
    rw [if_neg h0]
    refine ⟨_, rfl, by simp, ?_, ?_, ?_, ?_⟩
    · simp [set_dnode_dnodes_ne _ _ _ _ hne.symm]
    · intro q h2 h3
      simp [set_dnode_dnodes_ne _ _ _ _ h2, set_dnode_dnodes_ne _ _ _ _ h3]
    · simp [h1]
    · intro q hq
      simp [set_vnode_vnodes_ne _ _ _ _ hq]

theorem dn_find_erase (ds ds' : Nat → Option dnode_t) (n : Name) (dn : Nat) (d : dnode_t)
    (hd : ds dn = some d) (hn : d.name ≠ n) :
    ∀ cs : List Nat, cs.Nodup → (∀ c ∈ cs, c ≠ dn → ds' c = ds c) →
      dn_find ds' n (cs.erase dn) = dn_find ds n cs := by
  intro cs
  induction cs with
  | nil => intro _ _; rfl
  | cons c cs ih =>
    intro hnd hag
    have hnd' := List.nodup_cons.mp hnd
    by_cases hc : c = dn
    · subst hc
      rw [List.erase_cons_head]
      simp only [dn_find, hd, hn, ↓reduceIte]
      apply dn_find_congr
      intro x hx
      have hxc : x ≠ c := fun h => hnd'.1 (h ▸ hx)
      rw [hag x (List.mem_cons_of_mem _ hx) hxc]
    · rw [List.erase_cons_tail (by simpa using hc)]
      simp only [dn_find, hag c (List.mem_cons_self _ _) hc]
      rw [ih hnd'.2 (fun x hx hxd => hag x (List.mem_cons_of_mem _ hx) hxd)]

theorem resolve_eq (s : fs_state) (parent pdn : Nat) (pv : mnode_t) (pd : dnode_t) (name : Name)
    (hpv : s.vnodes parent = some pv) (hdir : pv.vn.dnode = some pdn)
    (hpd : s.dnodes pdn = some pd) :
    resolve s parent name =
      match dn_find s.dnodes name pd.children with
      | none => none
      | some none => some (ERR_NOT_FOUND, none)
      | some (some c) =>
        match s.dnodes c with
        | none => none
        | some dc =>
          match dc.vnode with
          | none => none
          | some w =>
            match s.vnodes w with
            | none => none
            | some _ => some (NO_ERROR, some w) := by
  unfold resolve memfs_lookup
  simp only [hpv, hdir, dn_lookup_eq s pdn pd name hpd]
  cases dn_find s.dnodes name pd.children with
  | none => rfl
  | some r =>
    cases r with
    | none => rfl
    | some c =>
      simp only [mx_status_t.isErr]
      cases s.dnodes c with
      | none => rfl
      | some dc =>
        simp only []
        cases dc.vnode with
        | none => rfl
        | some w =>
          simp only [vn_acquire]
          cases s.vnodes w with
          | none => rfl
          | some m => rfl

/-- C9. Unlink removes the name: in a well-formed directory, when the entry
called `name` exists and passes the can-unlink gate, `memfs_unlink` returns
`NO_ERROR`; afterwards `memfs_lookup` of `name` returns `ERR_NOT_FOUND` and
every other name resolves to the same status and vnode as before. When the
entry has a child, `memfs_unlink` returns `ERR_BAD_STATE`, and when no entry
is called `name` it returns `ERR_NOT_FOUND`, the heap unchanged in both
cases. -/
theorem unlink_removes_name (s : fs_state) (parent pdn : Nat) (name : Name)
    (hwf : dir_wf s parent pdn) :
    (∀ dn, dn_lookup s pdn name = some (NO_ERROR, some dn) →
      mem_can_unlink s dn = some NO_ERROR →
      ∃ s', memfs_unlink s parent name = some (s', NO_ERROR) ∧
        memfs_lookup s' parent name = some (s', ERR_NOT_FOUND, none) ∧
        ∀ other, other ≠ name → resolve s' parent other = resolve s parent other) ∧
    (∀ dn d, dn_lookup s pdn name = some (NO_ERROR, some dn) → s.dnodes dn = some d →
      d.children ≠ [] → memfs_unlink s parent name = some (s, ERR_BAD_STATE)) ∧
    (dn_lookup s pdn name = some (ERR_NOT_FOUND, none) →
      memfs_unlink s parent name = some (s, ERR_NOT_FOUND)) := by
  obtain ⟨pv, pd, hpv, hdir, hpd, hnodup, hnotin, hall⟩ := hwf
  refine ⟨?_, ?_, ?_⟩
  · intro dn hfound hgate
    obtain ⟨pd', hpd', hfind⟩ := dn_lookup_found s pdn name dn hfound
    rw [hpd] at hpd'
    injection hpd' with hpd'
    subst hpd'
    obtain ⟨hmem, d0, hd0, hname0⟩ := dn_find_some _ _ _ _ hfind
    obtain ⟨d, v, vn, hd, hpar, hv, hvp, hvn, href, hops, huniq⟩ := hall dn hmem
    rw [hd0] at hd
    injection hd with hd
    subst hd
    have hne : dn ≠ pdn := fun h => hnotin (h ▸ hmem)
    obtain ⟨s', hdel, e1, e2, e3, e4, e5⟩ :=
      dn_delete_spec s dn pdn v d0 pd vn hd0 hpar hpd hne hv hvn href (fun _ => hops)
    have hpv' : s'.vnodes parent = some pv := by rw [e5 parent hvp.symm, hpv]
    have hagree : ∀ c ∈ pd.children, c ≠ dn → s'.dnodes c = s.dnodes c := by
      intro c hc hcd
      exact e3 c hcd (fun h => hnotin (h ▸ hc))
    refine ⟨s', ?_, ?_, ?_⟩
    · unfold memfs_unlink
      simp only [hpv, hdir, hfound, hgate, mx_status_t.isErr, hdel]
      rfl
    · have hnone : dn_find s'.dnodes name (pd.children.erase dn) = some none := by
        rw [dn_find_none_iff]
        intro c hc
        have hc' := (List.Nodup.mem_erase_iff hnodup).mp hc
        obtain ⟨dc, w, vw, hdc, _⟩ := hall c hc'.2
        refine ⟨dc, by rw [hagree c hc'.2 hc'.1, hdc], ?_⟩
        have := (huniq c hc'.2 hc'.1 dc hdc).1
        rw [hname0] at this
        exact this
      unfold memfs_lookup
      simp only [hpv', hdir, dn_lookup_eq s' pdn _ name e2, hnone, mx_status_t.isErr]
      rfl
    · intro other hother
      rw [resolve_eq s' parent pdn pv _ other hpv' hdir e2,
        resolve_eq s parent pdn pv pd other hpv hdir hpd]
      have hfe : dn_find s'.dnodes other (pd.children.erase dn) =
          dn_find s.dnodes other pd.children :=
        dn_find_erase s.dnodes s'.dnodes other dn d0 hd0
          (by rw [hname0]; exact fun h => hother h.symm) pd.children hnodup hagree
      simp only [hfe]
      cases hf : dn_find s.dnodes other pd.children with
      | none => rfl
      | some r =>
        cases r with
        | none => rfl
        | some c =>
          obtain ⟨hcm, dc0, hdc0, hcn⟩ := dn_find_some _ _ _ _ hf
          have hcd : c ≠ dn := by
            intro h
            rw [h, hd0] at hdc0
            injection hdc0 with hdc0
            rw [← hdc0, hname0] at hcn
            exact hother hcn.symm
          obtain ⟨dc, w, vw, hdc, _, hw, _, hvw, _⟩ := hall c hcm
          have hwv : w ≠ v := by
            intro h
            have := (huniq c hcm hcd dc hdc).2
            rw [hw, h] at this
            exact this rfl
          simp only [hagree c hcm hcd, hdc, hw, e5 w hwv, hvw]
  · intro dn d hfound hd hkids
    obtain ⟨pd', hpd', hfind⟩ := dn_lookup_found s pdn name dn hfound
    rw [hpd] at hpd'
    injection hpd' with hpd'
    subst hpd'
    obtain ⟨hmem, _⟩ := dn_find_some _ _ _ _ hfind
    obtain ⟨d1, v, vn, hd1, _, hv, _, hvn, _⟩ := hall dn hmem
    rw [hd] at hd1
    injection hd1 with hd1
    subst hd1
    have hgate : mem_can_unlink s dn = some ERR_BAD_STATE := by
      unfold mem_can_unlink
      simp only [hd, hv, hvn]
      have e2 : (!d.children.isEmpty) = true := by
        cases hc : d.children with
        | nil => exact absurd hc hkids
        | cons a l => rfl
      by_cases hA : (vn.vn.dnode.isSome && decide (vn.vn.refcount > 1)) = true
      · rw [if_pos hA]
      · rw [if_neg hA, if_pos e2]
    unfold memfs_unlink
    simp only [hpv, hdir, hfound, hgate, mx_status_t.isErr]
    rfl
  · intro habsent
    unfold memfs_unlink
    simp only [hpv, hdir, habsent, mx_status_t.isErr]
    rfl

theorem tree_state_wf : dir_wf tree_state 0 0 := by
  refine ⟨root_mnode, _, rfl, rfl, rfl, by decide, by decide, ?_⟩
  intro c hc
  simp only [List.mem_cons, List.mem_singleton, List.not_mem_nil, or_false] at hc
  rcases hc with h | h | h
  · subst h
    refine ⟨_, _, _, rfl, rfl, rfl, by decide, rfl, by decide, rfl, ?_⟩
    intro c' hc' hne dc' hdc'
    simp only [List.mem_cons, List.mem_singleton, List.not_mem_nil, or_false] at hc'
    rcases hc' with h | h | h
    · exact absurd h hne
    · subst h
      injection hdc' with hdc'
      subst hdc'
      exact ⟨by decide, by decide⟩
    · subst h
      injection hdc' with hdc'
      subst hdc'
      exact ⟨by decide, by decide⟩
  · subst h
    refine ⟨_, _, _, rfl, rfl, rfl, by decide, rfl, by decide, rfl, ?_⟩
    intro c' hc' hne dc' hdc'
    simp only [List.mem_cons, List.mem_singleton, List.not_mem_nil, or_false] at hc'
    rcases hc' with h | h | h
    · subst h
      injection hdc' with hdc'
      subst hdc'
      exact ⟨by decide, by decide⟩
    · exact absurd h hne
    · subst h
      injection hdc' with hdc'
      subst hdc'
      exact ⟨by decide, by decide⟩
  · subst h
    refine ⟨_, _, _, rfl, rfl, rfl, by decide, rfl, by decide, rfl, ?_⟩
    intro c' hc' hne dc' hdc'
    simp only [List.mem_cons, List.mem_singleton, List.not_mem_nil, or_false] at hc'
    rcases hc' with h | h | h
    · subst h
      injection hdc' with hdc'
      subst hdc'
      exact ⟨by decide, by decide⟩
    · subst h
      injection hdc' with hdc'
      subst hdc'
      exact ⟨by decide, by decide⟩
    · exact absurd h hne

/-- C9 on the tree: the empty directory "d", whose handle has been closed, is
unlinked; the directory "e", which has a child, is refused; the name "z" is
absent. -/
theorem unlink_removes_name_witness :
    dir_wf tree_state 0 0 ∧
    (∃ s', memfs_unlink tree_state 0 ['d'] = some (s', NO_ERROR) ∧
      memfs_lookup s' 0 ['d'] = some (s', ERR_NOT_FOUND, none) ∧
      ∀ other, other ≠ ['d'] → resolve s' 0 other = resolve tree_state 0 other) ∧
    memfs_unlink tree_state 0 ['e'] = some (tree_state, ERR_BAD_STATE) ∧
    memfs_unlink tree_state 0 ['z'] = some (tree_state, ERR_NOT_FOUND) :=
  ⟨tree_state_wf,
   (unlink_removes_name tree_state 0 0 ['d'] tree_state_wf).1 2 rfl rfl,
   (unlink_removes_name tree_state 0 0 ['e'] tree_state_wf).2.1 3
     { name := ['e'], vnode := some 3, parent := some 0, children := [4] } rfl rfl (by decide),
   (unlink_removes_name tree_state 0 0 ['z'] tree_state_wf).2.2 rfl⟩

/-! ## Unlink while open -/

theorem mem_read_loop_refcount (m : mnode_t) (k : Nat) :
    ∀ (fuel len bno off : Nat) (data : List Byte) (count : Nat),
      mem_read_loop (with_refcount m k) fuel len bno off data count =
        mem_read_loop m fuel len bno off data count := by
  intro fuel
  induction fuel with
  | zero => intro len bno off data count; rfl
  | succ fuel ih =>
    intro len bno off data count
    simp only [mem_read_loop, ih]
    rfl

theorem mem_read_refcount (m : mnode_t) (k len off : Nat) :
    mem_read (with_refcount m k) len off = mem_read m len off := by
  unfold mem_read
  simp only [mem_read_loop_refcount]
  rfl

theorem mem_write_loop_refcount (calloc_ok : Nat → Bool) (k : Nat) :
    ∀ (fuel : Nat) (m : mnode_t) (data : Nat → Byte) (len bno off count : Nat),
      mem_write_loop calloc_ok fuel (with_refcount m k) data len bno off count =
        Run.map (fun x => (with_refcount x.1 k, x.2))
          (mem_write_loop calloc_ok fuel m data len bno off count) := by
  intro fuel
  induction fuel with
  | zero =>
    intro m data len bno off count
    simp only [mem_write_loop]
    split <;> rfl
  | succ fuel ih =>
    intro m data len bno off count
    simp only [mem_write_loop]
    by_cases hl : len > 0
    · simp only [hl, ↓reduceIte]
      by_cases hb : bno ≥ MAXBLOCKS
      · simp only [hb, ↓reduceIte]
        rfl
      · simp only [hb, ↓reduceIte]
        have hblock : (with_refcount m k).block = m.block := rfl
        have hlen : (with_refcount m k).datalen = m.datalen := rfl
        have e : ∀ (dl : Nat) (bl : Nat → Option Block),
            ({ vn := (with_refcount m k).vn, datalen := dl, block := bl } : mnode_t) =
              with_refcount { vn := m.vn, datalen := dl, block := bl } k := fun _ _ => rfl
        rw [hblock]
        cases hs : (match m.block bno with
          | none => if calloc_ok bno = true then some zero_block else none
          | some blk => some blk) with
        | none => rfl
        | some blk =>
          simp only []
          by_cases hp : bno * BLOCKSIZE + off +
              (if len < BLOCKSIZE - off then len else BLOCKSIZE - off) > m.datalen
          · simp only [hlen, hp, ↓reduceIte]
            rw [e]
            exact ih _ _ _ _ _ _
          · simp only [hlen, hp, ↓reduceIte]
            rw [e]
            exact ih _ _ _ _ _ _
    · simp only [hl, ↓reduceIte]
      rfl

theorem mem_write_refcount (calloc_ok : Nat → Bool) (k : Nat) (m : mnode_t) (data : Nat → Byte)
    (len off : Nat) :
    mem_write calloc_ok (with_refcount m k) data len off =
      Run.map (fun x => (with_refcount x.1 k, x.2)) (mem_write calloc_ok m data len off) :=
  mem_write_loop_refcount calloc_ok k _ m data len _ _ 0

/-- C10. Unlink while open: when the entry called `name` targets a file
vnode `f` (no child, no remote flag) with reference count `n ≥ 2`,
`memfs_unlink` returns `NO_ERROR` and leaves `f` allocated with reference
count `n - 1 ≥ 1` and every other field, the length and the blocks included,
as before; `mem_read` on `f` returns what it returned before, and `mem_write`
on `f` returns the same value and produces the same file, but for the
reference count. -/
theorem unlink_while_open (s : fs_state) (parent pdn dn f : Nat) (pv m : mnode_t)
    (pd d : dnode_t) (name : Name)
    (hpv : s.vnodes parent = some pv) (hdir : pv.vn.dnode = some pdn)
    (hpd : s.dnodes pdn = some pd)
    (hfound : dn_lookup s pdn name = some (NO_ERROR, some dn))
    (hd : s.dnodes dn = some d) (hpar : d.parent = some pdn) (hne : dn ≠ pdn)
    (hkids : d.children = []) (hv : d.vnode = some f) (hf : s.vnodes f = some m)
    (hfile : m.vn.dnode = none) (href : 2 ≤ m.vn.refcount)
    (hremote : m.vn.flags &&& V_FLAG_REMOTE = 0) :
    ∃ s' m',
      memfs_unlink s parent name = some (s', NO_ERROR) ∧
      s'.vnodes f = some m' ∧
      m' = with_refcount m (m.vn.refcount - 1) ∧
      m'.vn.refcount = m.vn.refcount - 1 ∧ 1 ≤ m'.vn.refcount ∧
      m'.datalen = m.datalen ∧ m'.block = m.block ∧
      (∀ len off, mem_read m' len off = mem_read m len off) ∧
      (∀ calloc_ok data len off,
        mem_write calloc_ok m' data len off =
          Run.map (fun x => (with_refcount x.1 m'.vn.refcount, x.2))
            (mem_write calloc_ok m data len off)) := by
  have hgate : mem_can_unlink s dn = some NO_ERROR := by
    unfold mem_can_unlink
    simp only [hd, hv, hf, hfile, hkids, hremote]
    rfl
  obtain ⟨s', hdel, _, _, _, e4, _⟩ :=
    dn_delete_spec s dn pdn f d pd m hd hpar hpd hne hv hf (by omega) (fun h => by omega)
  rw [if_neg (by omega)] at e4
  refine ⟨s', with_refcount m (m.vn.refcount - 1), ?_, e4, rfl, rfl, ?_, rfl, rfl, ?_, ?_⟩
  · unfold memfs_unlink
    simp only [hpv, hdir, hfound, hgate, mx_status_t.isErr, hdel]
    rfl
  · show 1 ≤ m.vn.refcount - 1
    omega
  · intro len off
    exact mem_read_refcount m _ len off
  · intro calloc_ok data len off
    exact mem_write_refcount calloc_ok _ m data len off

/-- C10 on the tree: the file "a", held open by one handle (reference count
2), is unlinked. -/
theorem unlink_while_open_witness :
    ∃ s' m',
      memfs_unlink tree_state 0 ['a'] = some (s', NO_ERROR) ∧
      s'.vnodes 1 = some m' ∧
      m' = with_refcount (file_mnode 2) ((file_mnode 2).vn.refcount - 1) ∧
      m'.vn.refcount = (file_mnode 2).vn.refcount - 1 ∧ 1 ≤ m'.vn.refcount ∧
      m'.datalen = (file_mnode 2).datalen ∧ m'.block = (file_mnode 2).block ∧
      (∀ len off, mem_read m' len off = mem_read (file_mnode 2) len off) ∧
      (∀ calloc_ok data len off,
        mem_write calloc_ok m' data len off =
          Run.map (fun x => (with_refcount x.1 m'.vn.refcount, x.2))
            (mem_write calloc_ok (file_mnode 2) data len off)) :=
  unlink_while_open tree_state 0 0 1 1 root_mnode (file_mnode 2)
    { name := ['t', 'm', 'p'], vnode := some 0, parent := none, children := [1, 2, 3] }
    { name := ['a'], vnode := some 1, parent := some 0, children := [] } ['a']
    rfl rfl rfl rfl rfl rfl (by decide) rfl rfl rfl rfl (by decide) rfl

/-! ## A directory from creation to removal -/

/-- The life of a directory: created in the local root, its handle closed,
then unlinked; while the handle is open the unlink is refused. -/
theorem create_close_unlink_scenario :
    ∃ s1 s2 s3,
      mem_create root_state (some 0) ['x'] 0o040000 (some 1) (some 1) =
        some (s1, NO_ERROR, some 1) ∧
      memfs_unlink s1 0 ['x'] = some (s1, ERR_BAD_STATE) ∧
      memfs_close s1 1 = some (s2, NO_ERROR) ∧
      memfs_unlink s2 0 ['x'] = some (s3, NO_ERROR) ∧
      memfs_lookup s3 0 ['x'] = some (s3, ERR_NOT_FOUND, none) ∧
      s3.vnodes 1 = none ∧ s3.dnodes 1 = none :=
  ⟨_, _, _, rfl, rfl, rfl, rfl, rfl, rfl, rfl⟩

/-! ## Invariants of the block store -/

theorem mem_write_loop_high_blocks (calloc_ok : Nat → Bool) :
    ∀ (fuel : Nat) (mem : mnode_t) (data : Nat → Byte) (len bno off count : Nat)
      (mem' : mnode_t) (r : ssize_t),
      mem_write_loop calloc_ok fuel mem data len bno off count = Run.done (mem', r) →
      ∀ b, MAXBLOCKS ≤ b → mem'.block b = mem.block b := by
  intro fuel
  induction fuel with
  | zero =>
    intro mem data len bno off count mem' r h b _
    simp only [mem_write_loop] at h
    split at h
    · exact absurd h (by simp)
    · injection h with h
      injection h with h1 _
      rw [← h1]
  | succ fuel ih =>
    intro mem data len bno off count mem' r h b hb
    simp only [mem_write_loop] at h
    by_cases hl : len > 0
    · simp only [hl, ↓reduceIte] at h
      by_cases hbn : bno ≥ MAXBLOCKS
      · simp only [hbn, ↓reduceIte] at h
        injection h with h
        injection h with h1 _
        rw [← h1]
      · simp only [hbn, ↓reduceIte] at h
        cases hs : (match mem.block bno with
          | none => if calloc_ok bno = true then some zero_block else none
          | some blk => some blk) with
        | none =>
          rw [hs] at h
          injection h with h
          injection h with h1 _
          rw [← h1]
        | some blk =>
          rw [hs] at h
          simp only [] at h
          have hne : b ≠ bno := by omega
          generalize (if len < BLOCKSIZE - off then len else BLOCKSIZE - off) = xfer at h
          rw [ih _ _ _ _ _ _ _ _ h b hb]
          split <;> exact Function.update_noteq hne _ _
    · simp only [hl, ↓reduceIte] at h
      injection h with h
      injection h with h1 _
      rw [← h1]

theorem mem_write_high_blocks (calloc_ok : Nat → Bool) (mem : mnode_t) (data : Nat → Byte)
    (len off : Nat) (mem' : mnode_t) (r : ssize_t)
    (h : mem_write calloc_ok mem data len off = Run.done (mem', r)) :
    ∀ b, MAXBLOCKS ≤ b → mem'.block b = mem.block b :=
  mem_write_loop_high_blocks calloc_ok _ _ _ _ _ _ _ _ _ h

/-- The two facts that make up the zero-tail invariant, the first one stated
on file positions. -/
theorem run_writes_zero_tail : ∀ (ws : List write_req) (mem : mnode_t),
    (∀ i, mem.datalen ≤ i → byte_at mem i = 0) →
    (∀ b, MAXBLOCKS ≤ b → mem.block b = none) →
    ∃ mem' log,
      run_writes mem ws = Run.done (mem', log) ∧
      (∀ i, mem'.datalen ≤ i → byte_at mem' i = 0) ∧
      (∀ b, MAXBLOCKS ≤ b → mem'.block b = none) := by
  intro ws
  induction ws with
  | nil =>
    intro mem h1 h2
    exact ⟨mem, [], rfl, h1, h2⟩
  | cons w ws ih =>
    intro mem h1 h2
    obtain ⟨mem1, c, hw, hc, ⟨_, e2, e3, e4, _⟩, _⟩ :=
      mem_write_spec w.calloc_ok mem w.data w.len w.off
    have hh := mem_write_high_blocks _ _ _ _ _ _ _ hw
    have k1 : ∀ i, mem1.datalen ≤ i → byte_at mem1 i = 0 := by
      intro i hi
      by_cases hc0 : c = 0
      · rw [e4 hc0] at hi ⊢
        exact h1 i hi
      · rw [e2, if_neg hc0] at hi
        rw [e3 i, if_neg (by omega)]
        exact h1 i (by omega)
    have k2 : ∀ b, MAXBLOCKS ≤ b → mem1.block b = none := by
      intro b hb
      rw [hh b hb]
      exact h2 b hb
    obtain ⟨mem2, log, hr, q1, q2⟩ := ih mem1 k1 k2
    refine ⟨mem2, ⟨w.off, w.data, c⟩ :: log, ?_, q1, q2⟩
    simp only [run_writes, hw, hr, committed_write_result _ _ hc]

/-- C16. Capacity invariant: after any sequence of writes to a fresh file,
whatever the offsets, lengths and allocation outcomes, the length is at most
`MAXBLOCKS * BLOCKSIZE = 524288`; and a single write keeps any file within
that capacity. -/
theorem capacity_invariant (vn : vnode_t) (ws : List write_req) :
    (∃ mem log, run_writes (fresh_file vn) ws = Run.done (mem, log) ∧
      mem.datalen ≤ MAXBLOCKS * BLOCKSIZE) ∧
    MAXBLOCKS * BLOCKSIZE = 524288 ∧
    (∀ calloc_ok mem data L O, mem.datalen ≤ MAXBLOCKS * BLOCKSIZE →
      ∃ mem' r, mem_write calloc_ok mem data L O = Run.done (mem', r) ∧
        mem'.datalen ≤ MAXBLOCKS * BLOCKSIZE) := by
  refine ⟨?_, by decide, ?_⟩
  · obtain ⟨mem, log, hrun, _, hcap⟩ := run_writes_spec ws (fresh_file vn)
    exact ⟨mem, log, hrun, hcap (Nat.zero_le _)⟩
  · intro calloc_ok mem data L O hcap
    obtain ⟨mem', c, hw, _, ⟨_, e2, _, _, e5⟩, _⟩ := mem_write_spec calloc_ok mem data L O
    refine ⟨mem', _, hw, ?_⟩
    rw [e2]
    split
    · exact hcap
    · have := e5 (by omega)
      omega

/-- C18. Zero-tail invariant: after any sequence of writes to a fresh file,
every byte of an allocated block whose file position is at or beyond the
length is zero, and no slot at or beyond `MAXBLOCKS` is allocated; hence every
position at or beyond the length holds zero, which is what a later write that
extends the length exposes. -/
theorem zero_tail_invariant (vn : vnode_t) (ws : List write_req) :
    ∃ mem log, run_writes (fresh_file vn) ws = Run.done (mem, log) ∧
      zero_tail mem ∧ (∀ i, mem.datalen ≤ i → byte_at mem i = 0) := by
  obtain ⟨mem, log, hrun, h1, h2⟩ :=
    run_writes_zero_tail ws (fresh_file vn) (fun _ _ => rfl) (fun _ _ => rfl)
  refine ⟨mem, log, hrun, ⟨?_, h2⟩, h1⟩
  intro b blk o hb ho hpos
  have hdiv : (b * BLOCKSIZE + o) / BLOCKSIZE = b := by
    simp only [BLOCKSIZE] at *; omega
  have hmod : (b * BLOCKSIZE + o) % BLOCKSIZE = o := by
    simp only [BLOCKSIZE] at *; omega
  have := h1 (b * BLOCKSIZE + o) hpos
  simp only [byte_at, hdiv, hb, hmod] at this
  exact this

/-! ## Accesses of the two loops -/

theorem mem_read_loop_traced_fst (mem : mnode_t) :
    ∀ (fuel len bno off : Nat) (data : List Byte) (count : Nat),
      (mem_read_loop_traced mem fuel len bno off data count).1 =
        mem_read_loop mem fuel len bno off data count := by
  intro fuel
  induction fuel with
  | zero => intro len bno off data count; rfl
  | succ fuel ih =>
    intro len bno off data count
    simp only [mem_read_loop_traced, mem_read_loop]
    by_cases hl : len > 0
    · simp only [hl, ↓reduceIte]
      by_cases hb : bno < MAXBLOCKS
      · simp only [hb, ↓reduceIte]
        cases mem.block bno with
        | none => exact ih _ _ _ _ _
        | some blk => exact ih _ _ _ _ _
      · simp only [hb, ↓reduceIte]
    · simp only [hl, ↓reduceIte]

theorem mem_read_loop_traced_ok (mem : mnode_t) :
    ∀ (fuel len bno off : Nat) (data : List Byte) (count : Nat),
      off < BLOCKSIZE → bno * BLOCKSIZE + off + len ≤ MAXBLOCKS * BLOCKSIZE →
      ∀ a ∈ (mem_read_loop_traced mem fuel len bno off data count).2, access_ok a := by
  intro fuel
  induction fuel with
  | zero =>
    intro len bno off data count _ _ a ha
    simp [mem_read_loop_traced] at ha
  | succ fuel ih =>
    intro len bno off data count hoff hcap a ha
    simp only [mem_read_loop_traced] at ha
    by_cases hl : len > 0
    · obtain ⟨xfer, hx⟩ : ∃ x, x = (if len < BLOCKSIZE - off then len else BLOCKSIZE - off) :=
        ⟨_, rfl⟩
      have hx1 : 0 < xfer ∧ xfer ≤ len ∧ off + xfer ≤ BLOCKSIZE ∧
          (xfer < len → off + xfer = BLOCKSIZE) := by
        rw [hx]; split <;> omega
      have hb : bno < MAXBLOCKS := by
        simp only [BLOCKSIZE, MAXBLOCKS] at *
        omega
      have hcap2 : (bno + 1) * BLOCKSIZE + 0 + (len - xfer) ≤ MAXBLOCKS * BLOCKSIZE := by
        by_cases hlt : xfer < len
        · have hf := hx1.2.2.2 hlt
          simp only [BLOCKSIZE, MAXBLOCKS] at *; omega
        · simp only [BLOCKSIZE, MAXBLOCKS] at *; omega
      simp only [hl, ↓reduceIte, ← hx, hb] at ha
      have hhead : access_ok ⟨bno, off, xfer, len⟩ := ⟨hb, hx1.2.2.1, hx1.1, hx1.2.1⟩
      cases hm : mem.block bno with
      | none =>
        rw [hm] at ha
        simp only [List.mem_cons] at ha
        rcases ha with ha | ha
        · rw [ha]; exact hhead
        · exact ih _ _ _ _ _ (by simp [BLOCKSIZE]) hcap2 a ha
      | some blk =>
        rw [hm] at ha
        simp only [List.mem_cons] at ha
        rcases ha with ha | ha
        · rw [ha]; exact hhead
        · exact ih _ _ _ _ _ (by simp [BLOCKSIZE]) hcap2 a ha
    · simp [hl] at ha

theorem mem_write_loop_traced_fst (calloc_ok : Nat → Bool) :
    ∀ (fuel : Nat) (mem : mnode_t) (data : Nat → Byte) (len bno off count : Nat),
      (mem_write_loop_traced calloc_ok fuel mem data len bno off count).1 =
        mem_write_loop calloc_ok fuel mem data len bno off count := by
  intro fuel
  induction fuel with
  | zero => intro mem data len bno off count; rfl
  | succ fuel ih =>
    intro mem data len bno off count
    simp only [mem_write_loop_traced, mem_write_loop]
    by_cases hl : len > 0
    · simp only [hl, ↓reduceIte]
      by_cases hb : bno ≥ MAXBLOCKS
      · simp only [hb, ↓reduceIte]
      · simp only [hb, ↓reduceIte]
        cases (match mem.block bno with
          | none => if calloc_ok bno = true then some zero_block else none
          | some blk => some blk) with
        | none => rfl
        | some blk => exact ih _ _ _ _ _ _
    · simp only [hl, ↓reduceIte]

theorem mem_write_loop_traced_ok (calloc_ok : Nat → Bool) :
    ∀ (fuel : Nat) (mem : mnode_t) (data : Nat → Byte) (len bno off count : Nat),
      off < BLOCKSIZE →
      ∀ a ∈ (mem_write_loop_traced calloc_ok fuel mem data len bno off count).2,
        access_ok a := by
  intro fuel
  induction fuel with
  | zero =>
    intro mem data len bno off count _ a ha
    simp [mem_write_loop_traced] at ha
  | succ fuel ih =>
    intro mem data len bno off count hoff a ha
    simp only [mem_write_loop_traced] at ha
    by_cases hl : len > 0
    · obtain ⟨xfer, hx⟩ : ∃ x, x = (if len < BLOCKSIZE - off then len else BLOCKSIZE - off) :=
        ⟨_, rfl⟩
      have hx1 : 0 < xfer ∧ xfer ≤ len ∧ off + xfer ≤ BLOCKSIZE := by
        rw [hx]; split <;> omega
      simp only [hl, ↓reduceIte, ← hx] at ha
      by_cases hb : bno ≥ MAXBLOCKS
      · simp [hb] at ha
      · simp only [hb, ↓reduceIte] at ha
        have hhead : access_ok ⟨bno, off, xfer, len⟩ :=
          ⟨Nat.lt_of_not_ge hb, hx1.2.2, hx1.1, hx1.2.1⟩
        cases hs : (match mem.block bno with
          | none => if calloc_ok bno = true then some zero_block else none
          | some blk => some blk) with
        | none =>
          rw [hs] at ha
          simp only [List.mem_singleton] at ha
          rw [ha]; exact hhead
        | some blk =>
          rw [hs] at ha
          simp only [List.mem_cons] at ha
          rcases ha with ha | ha
          · rw [ha]; exact hhead
          · exact ih _ _ _ _ _ _ (by simp [BLOCKSIZE]) a ha
    · simp [hl] at ha

/-- C19. Block-index safety: on a file whose length is within the capacity,
every access of the loop of `mem_read` dereferences a slot below `MAXBLOCKS`
and copies a range inside `[0, BLOCKSIZE)`; so does every access of the loop
of `mem_write`, on any file; each iteration consumes at least one byte of the
remaining length, and both functions return (with the length as fuel). The
traced loops compute the same results as `mem_read` and `mem_write`. -/
theorem block_index_safety (mem : mnode_t) (len off : Nat)
    (hcap : mem.datalen ≤ MAXBLOCKS * BLOCKSIZE) :
    ((mem_read_traced mem len off).1 = mem_read mem len off ∧
      (∃ res, mem_read mem len off = Run.done res) ∧
      ∀ a ∈ (mem_read_traced mem len off).2, access_ok a) ∧
    (∀ calloc_ok data,
      (mem_write_traced calloc_ok mem data len off).1 = mem_write calloc_ok mem data len off ∧
      (∃ res, mem_write calloc_ok mem data len off = Run.done res) ∧
      ∀ a ∈ (mem_write_traced calloc_ok mem data len off).2, access_ok a) := by
  have hmod : off % BLOCKSIZE < BLOCKSIZE := Nat.mod_lt _ (by simp [BLOCKSIZE])
  have hP : off / BLOCKSIZE * BLOCKSIZE + off % BLOCKSIZE = off := by
    simp only [BLOCKSIZE]; omega
  refine ⟨⟨?_, ⟨_, mem_read_spec mem len off hcap⟩, ?_⟩, ?_⟩
  · unfold mem_read_traced mem_read
    split
    · rfl
    · exact mem_read_loop_traced_fst mem _ _ _ _ _ _
  · unfold mem_read_traced
    split
    · intro a ha
      simp at ha
    · rename_i h
      apply mem_read_loop_traced_ok mem _ _ _ _ _ _ hmod
      rw [hP]
      split <;> omega
  · intro calloc_ok data
    obtain ⟨mem', c, hw, _⟩ := mem_write_spec calloc_ok mem data len off
    exact ⟨mem_write_loop_traced_fst calloc_ok _ _ _ _ _ _ _, ⟨_, hw⟩,
      mem_write_loop_traced_ok calloc_ok _ _ _ _ _ _ _ hmod⟩

/-- C19 at a read and a write of 100 bytes at offset 19950 of the sparse
file. -/
theorem block_index_safety_witness :
    sparse_file.datalen ≤ MAXBLOCKS * BLOCKSIZE ∧
    ((mem_read_traced sparse_file 100 19950).1 = mem_read sparse_file 100 19950 ∧
      (∃ res, mem_read sparse_file 100 19950 = Run.done res) ∧
      ∀ a ∈ (mem_read_traced sparse_file 100 19950).2, access_ok a) ∧
    (∀ calloc_ok data,
      (mem_write_traced calloc_ok sparse_file data 100 19950).1 =
        mem_write calloc_ok sparse_file data 100 19950 ∧
      (∃ res, mem_write calloc_ok sparse_file data 100 19950 = Run.done res) ∧
      ∀ a ∈ (mem_write_traced calloc_ok sparse_file data 100 19950).2, access_ok a) :=
  ⟨by decide, block_index_safety sparse_file 100 19950 (by decide)⟩

/-! ## Failure atomicity -/

theorem rename_relocate_status (s : fs_state) (ndn olddn : Nat) (newname : Name)
    (s' : fs_state) (r : mx_status_t)
    (h : rename_relocate s ndn olddn newname = some (s', r)) : r = NO_ERROR := by
  unfold rename_relocate at h
  split at h
  · exact absurd h (by simp)
  · injection h with h
    injection h with _ h
    exact h.symm

theorem result_state_eq {s s' : fs_state} {r r' : mx_status_t}
    (h : some (s, r) = some (s', r')) : s' = s := by
  injection h with h
  injection h with h _
  exact h.symm

theorem rename_onto_atomic (s : fs_state) (ndn olddn newdn : Nat) (newname : Name)
    (s' : fs_state) (r : mx_status_t)
    (h : rename_onto s ndn olddn newdn newname = some (s', r)) (hr : r ≠ NO_ERROR) :
    s' = s := by
  simp only [rename_onto] at h
  repeat' split at h
  all_goals first
    | exact result_state_eq h
    | exact absurd (rename_relocate_status _ _ _ _ _ _ h) hr
    | cases h

/-- C20. Failure atomicity: whenever `memfs_unlink` or `memfs_rename` returns
an error status, the heap after the call (every directory entry with its
children and name, every vnode with its reference count, flags and blocks) is
the heap before the call. -/
theorem failure_atomicity (s s' : fs_state) (r : mx_status_t) (hr : r ≠ NO_ERROR) :
    (∀ vn name, memfs_unlink s vn name = some (s', r) → s' = s) ∧
    (∀ olddir newdir oldname newname,
      memfs_rename s olddir newdir oldname newname = some (s', r) → s' = s) := by
  constructor
  · intro vn name h
    simp only [memfs_unlink] at h
    repeat' split at h
    all_goals first
      | exact result_state_eq h
      | (cases h; exact absurd rfl hr)
      | cases h
  · intro olddir newdir oldname newname h
    simp only [memfs_rename] at h
    repeat' split at h
    all_goals first
      | exact result_state_eq h
      | exact rename_onto_atomic _ _ _ _ _ _ _ h hr
      | exact absurd (rename_relocate_status _ _ _ _ _ _ h) hr
      | cases h

/-- C20 on the tree: the rename of the directory "d" onto the directory "e",
which has a child, is refused by the can-unlink gate and changes nothing; so
does the refused unlink of "e". -/
theorem failure_atomicity_witness :
    ERR_BAD_STATE ≠ NO_ERROR ∧
    memfs_unlink tree_state 0 ['e'] = some (tree_state, ERR_BAD_STATE) ∧
    memfs_rename tree_state 0 0 ['d'] ['e'] = some (tree_state, ERR_BAD_STATE) ∧
    ((∀ vn name, memfs_unlink tree_state vn name = some (tree_state, ERR_BAD_STATE) →
        tree_state = tree_state) ∧
      (∀ olddir newdir oldname newname,
        memfs_rename tree_state olddir newdir oldname newname =
          some (tree_state, ERR_BAD_STATE) → tree_state = tree_state)) :=
  ⟨by decide, rfl, rfl, failure_atomicity tree_state tree_state ERR_BAD_STATE (by decide)⟩

/-! ## Rename: the helpers -/

theorem is_dot_iff (name : Name) : is_dot name = true ↔ name = ['.'] := by
  unfold is_dot
  match name with
  | [] => simp
  | [c] => simp
  | _ :: _ :: _ => simp

theorem is_dotdot_iff (name : Name) : is_dotdot name = true ↔ name = ['.', '.'] := by
  unfold is_dotdot
  match name with
  | [] => simp
  | [_] => simp
  | [c, d] => simp
  | _ :: _ :: _ :: _ => simp

theorem not_reserved_iff (name : Name) :
    ¬ reserved name ↔ (is_dot name = false ∧ is_dotdot name = false) := by
  unfold reserved
  rw [← is_dot_iff, ← is_dotdot_iff]
  cases is_dot name <;> cases is_dotdot name <;> simp

theorem dn_find_append_ne (ds : Nat → Option dnode_t) (n : Name) (c : Nat) (dc : dnode_t)
    (hc : ds c = some dc) (hn : dc.name ≠ n) :
    ∀ cs : List Nat, dn_find ds n (cs ++ [c]) = dn_find ds n cs := by
  intro cs
  induction cs with
  | nil => simp [dn_find, hc, hn]
  | cons a cs ih =>
    simp only [List.cons_append, dn_find]
    have e : cs.append [c] = cs ++ [c] := rfl
    rw [e, ih]

theorem dn_move_child_spec (s : fs_state) (pdn child : Nat) (c pd : dnode_t) (name : Name)
    (hc : s.dnodes child = some c) (hpar : c.parent = some pdn)
    (hpd : s.dnodes pdn = some pd) (hne : child ≠ pdn) :
    ∃ s', dn_move_child s pdn child name = some s' ∧
      s'.vnodes = s.vnodes ∧
      s'.dnodes child = some { c with name := name, parent := some pdn } ∧
      s'.dnodes pdn = some { pd with children := pd.children.erase child ++ [child] } ∧
      (∀ q, q ≠ child → q ≠ pdn → s'.dnodes q = s.dnodes q) := by
  unfold dn_move_child
  simp only [hc, hpar, hpd, set_dnode_dnodes_ne _ _ _ _ hne, set_dnode_dnodes_ne _ _ _ _ hne.symm,
    set_dnode_dnodes_same]
  refine ⟨_, rfl, rfl, ?_, by simp, ?_⟩
  · simp [set_dnode_dnodes_ne _ _ _ _ hne]
  · intro q h1 h2
    simp [set_dnode_dnodes_ne _ _ _ _ h1, set_dnode_dnodes_ne _ _ _ _ h2]


theorem resolve_transfer (s s' : fs_state) (parent pdn : Nat) (pv : mnode_t) (pd pd' : dnode_t)
    (name : Name) (hpv : s.vnodes parent = some pv) (hpv' : s'.vnodes parent = some pv)
    (hdir : pv.vn.dnode = some pdn)
    (hpd : s.dnodes pdn = some pd) (hpd' : s'.dnodes pdn = some pd')
    (hfind : dn_find s'.dnodes name pd'.children = dn_find s.dnodes name pd.children)
    (hent : ∀ c, dn_find s.dnodes name pd.children = some (some c) →
      ∃ dc dc' w m m', s.dnodes c = some dc ∧ s'.dnodes c = some dc' ∧ dc.vnode = some w ∧
        dc'.vnode = some w ∧ s.vnodes w = some m ∧ s'.vnodes w = some m') :
    resolve s' parent name = resolve s parent name := by
  rw [resolve_eq s' parent pdn pv pd' name hpv' hdir hpd',
    resolve_eq s parent pdn pv pd name hpv hdir hpd, hfind]
  cases hf : dn_find s.dnodes name pd.children with
  | none => rfl
  | some r =>
    cases r with
    | none => rfl
    | some c =>
      obtain ⟨dc, dc', w, m, m', h1, h2, h3, h4, h5, h6⟩ := hent c hf
      simp only [h1, h2, h3, h4, h5, h6]

theorem delete_child_spec (s : fs_state) (parent pdn dn : Nat) (pv : mnode_t) (pd d : dnode_t)
    (hpv : s.vnodes parent = some pv) (hdir : pv.vn.dnode = some pdn)
    (hpd : s.dnodes pdn = some pd) (hnodup : pd.children.Nodup) (hnotin : pdn ∉ pd.children)
    (hall : ∀ c ∈ pd.children, ∃ dc v vn,
      s.dnodes c = some dc ∧ dc.parent = some pdn ∧ dc.vnode = some v ∧ v ≠ parent ∧
      s.vnodes v = some vn ∧ 0 < vn.vn.refcount ∧ vn.vn.ops.isSome = true ∧
      ∀ c' ∈ pd.children, c' ≠ c → ∀ dc', s.dnodes c' = some dc' →
        dc'.name ≠ dc.name ∧ dc'.vnode ≠ some v)
    (hmem : dn ∈ pd.children) (hd : s.dnodes dn = some d) :
    ∃ s1, dn_delete s dn = some s1 ∧ dir_wf s1 parent pdn ∧
      s1.vnodes parent = some pv ∧
      s1.dnodes pdn = some { pd with children := pd.children.erase dn } ∧
      (∀ c ∈ pd.children, c ≠ dn → s1.dnodes c = s.dnodes c) ∧
      (∀ q, some q ≠ d.vnode → s1.vnodes q = s.vnodes q) ∧
      (∀ z, z ≠ d.name →
        dn_find s1.dnodes z (pd.children.erase dn) = dn_find s.dnodes z pd.children) ∧
      dn_find s1.dnodes d.name (pd.children.erase dn) = some none ∧
      (∀ z, z ≠ d.name → resolve s1 parent z = resolve s parent z) := by
  obtain ⟨d0, v, vn, hd0, hpar, hv, hvp, hvn, href, hops, huniq⟩ := hall dn hmem
  rw [hd] at hd0
  injection hd0 with hd0
  subst hd0
  have hne : dn ≠ pdn := fun h => hnotin (h ▸ hmem)
  obtain ⟨s1, hdel, e1, e2, e3, e4, e5⟩ :=
    dn_delete_spec s dn pdn v d pd vn hd hpar hpd hne hv hvn href (fun _ => hops)
  have hpv1 : s1.vnodes parent = some pv := by rw [e5 parent hvp.symm, hpv]
  have hagree : ∀ c ∈ pd.children, c ≠ dn → s1.dnodes c = s.dnodes c := by
    intro c hc hcd
    exact e3 c hcd (fun h => hnotin (h ▸ hc))
  have hvframe : ∀ q, some q ≠ d.vnode → s1.vnodes q = s.vnodes q := by
    intro q hq
    apply e5
    intro h
    rw [hv, h] at hq
    exact hq rfl
  have hfz : ∀ z, z ≠ d.name →
      dn_find s1.dnodes z (pd.children.erase dn) = dn_find s.dnodes z pd.children :=
    fun z hz => dn_find_erase s.dnodes s1.dnodes z dn d hd (fun h => hz h.symm)
      pd.children hnodup hagree
  have hnone : dn_find s1.dnodes d.name (pd.children.erase dn) = some none := by
    rw [dn_find_none_iff]
    intro c hc
    have hc' := (List.Nodup.mem_erase_iff hnodup).mp hc
    obtain ⟨dc, w, vw, hdc, _⟩ := hall c hc'.2
    exact ⟨dc, by rw [hagree c hc'.2 hc'.1, hdc], (huniq c hc'.2 hc'.1 dc hdc).1⟩
  have hother : ∀ c ∈ pd.children, c ≠ dn → ∀ dc w, s.dnodes c = some dc →
      dc.vnode = some w → w ≠ v := by
    intro c hc hcd dc w hdc hw h
    have := (huniq c hc hcd dc hdc).2
    rw [hw, h] at this
    exact this rfl
  refine ⟨s1, hdel, ?_, hpv1, e2, hagree, hvframe, hfz, hnone, ?_⟩
  · refine ⟨pv, _, hpv1, hdir, e2, hnodup.erase dn, fun h => hnotin (List.mem_of_mem_erase h), ?_⟩
    intro c hc
    have hc' := (List.Nodup.mem_erase_iff hnodup).mp hc
    obtain ⟨dc, w, vw, hdc, hp, hw, hwp, hvw, hr, ho, hu⟩ := hall c hc'.2
    have hwv := hother c hc'.2 hc'.1 dc w hdc hw
    refine ⟨dc, w, vw, by rw [hagree c hc'.2 hc'.1, hdc], hp, hw, hwp,
      by rw [e5 w hwv, hvw], hr, ho, ?_⟩
    intro c2 hc2 hne2 dc2 hdc2
    have hc2' := (List.Nodup.mem_erase_iff hnodup).mp hc2
    rw [hagree c2 hc2'.2 hc2'.1] at hdc2
    exact hu c2 hc2'.2 hne2 dc2 hdc2
  · intro z hz
    apply resolve_transfer s s1 parent pdn pv pd _ z hpv hpv1 hdir hpd e2 (hfz z hz)
    intro c hf
    obtain ⟨hcm, dc0, hdc0, hcn⟩ := dn_find_some _ _ _ _ hf
    have hcd : c ≠ dn := by
      intro h
      rw [h, hd] at hdc0
      injection hdc0 with hdc0
      rw [← hdc0] at hcn
      exact hz hcn.symm
    obtain ⟨dc, w, vw, hdc, _, hw, _, hvw, _⟩ := hall c hcm
    have hwv := hother c hcm hcd dc w hdc hw
    exact ⟨dc, dc, w, vw, vw, hdc, by rw [hagree c hcm hcd, hdc], hw, hw, hvw,
      by rw [e5 w hwv, hvw]⟩

theorem move_child_lookup (s : fs_state) (parent pdn olddn : Nat) (pv : mnode_t) (pd : dnode_t)
    (x y : Name)
    (hpv : s.vnodes parent = some pv) (hdir : pv.vn.dnode = some pdn)
    (hpd : s.dnodes pdn = some pd) (hnodup : pd.children.Nodup) (hnotin : pdn ∉ pd.children)
    (hall : ∀ c ∈ pd.children, ∃ dc v vn,
      s.dnodes c = some dc ∧ dc.parent = some pdn ∧ dc.vnode = some v ∧ v ≠ parent ∧
      s.vnodes v = some vn ∧ 0 < vn.vn.refcount ∧ vn.vn.ops.isSome = true ∧
      ∀ c' ∈ pd.children, c' ≠ c → ∀ dc', s.dnodes c' = some dc' →
        dc'.name ≠ dc.name ∧ dc'.vnode ≠ some v)
    (hfx : dn_find s.dnodes x pd.children = some (some olddn))
    (hfy : dn_find s.dnodes y pd.children = some none) :
    ∃ s', dn_move_child s pdn olddn y = some s' ∧
      s'.vnodes = s.vnodes ∧
      s'.dnodes pdn = some { pd with children := pd.children.erase olddn ++ [olddn] } ∧
      resolve s' parent y = resolve s parent x ∧
      resolve s' parent x = some (ERR_NOT_FOUND, none) ∧
      (∀ z, z ≠ x → z ≠ y → resolve s' parent z = resolve s parent z) := by
  obtain ⟨hmem, od, hod, hname⟩ := dn_find_some _ _ _ _ hfx
  obtain ⟨od0, vx, mx, hod0, hpar, hvx, hvxp, hmx, _, _, huniq⟩ := hall olddn hmem
  rw [hod] at hod0
  injection hod0 with hod0
  subst hod0
  have hne : olddn ≠ pdn := fun h => hnotin (h ▸ hmem)
  have hxy : x ≠ y := by
    intro h
    rw [h, hfy] at hfx
    simp at hfx
  obtain ⟨s', hmv, ev, ec, ep, eq⟩ := dn_move_child_spec s pdn olddn od pd y hod hpar hpd hne
  have hpv' : s'.vnodes parent = some pv := by rw [ev, hpv]
  have hagree : ∀ c ∈ pd.children, c ≠ olddn → s'.dnodes c = s.dnodes c := by
    intro c hc hcd
    exact eq c hcd (fun h => hnotin (h ▸ hc))
  have herase : ∀ n, n ≠ x →
      dn_find s'.dnodes n (pd.children.erase olddn) = dn_find s.dnodes n pd.children :=
    fun n hn => dn_find_erase s.dnodes s'.dnodes n olddn od hod
      (by rw [hname]; exact fun h => hn h.symm) pd.children hnodup hagree
  have hfy' : dn_find s'.dnodes y (pd.children.erase olddn ++ [olddn]) =
      some (some olddn) := by
    rw [dn_find_append _ _ _ _ (by rw [herase y hxy.symm, hfy])]
    simp [dn_find, ec]
  have hfx' : dn_find s'.dnodes x (pd.children.erase olddn ++ [olddn]) = some none := by
    rw [dn_find_append_ne s'.dnodes x olddn _ ec (fun h => hxy h.symm), dn_find_none_iff]
    intro c hc
    have hc' := (List.Nodup.mem_erase_iff hnodup).mp hc
    obtain ⟨dc, w, vw, hdc, _⟩ := hall c hc'.2
    refine ⟨dc, by rw [hagree c hc'.2 hc'.1, hdc], ?_⟩
    have := (huniq c hc'.2 hc'.1 dc hdc).1
    rw [hname] at this
    exact this
  refine ⟨s', hmv, ev, ep, ?_, ?_, ?_⟩
  · rw [resolve_eq s' parent pdn pv _ y hpv' hdir ep,
      resolve_eq s parent pdn pv pd x hpv hdir hpd]
    simp only [hfy', hfx, ec, hod, hvx, ev, hmx]
  · rw [resolve_eq s' parent pdn pv _ x hpv' hdir ep]
    simp only [hfx']
  · intro z hzx hzy
    have hfz : dn_find s'.dnodes z (pd.children.erase olddn ++ [olddn]) =
        dn_find s.dnodes z pd.children := by
      rw [dn_find_append_ne s'.dnodes z olddn _ ec (fun h => hzy h.symm), herase z hzx]
    apply resolve_transfer s s' parent pdn pv pd _ z hpv hpv' hdir hpd ep hfz
    intro c hf
    obtain ⟨hcm, dc0, hdc0, hcn⟩ := dn_find_some _ _ _ _ hf
    have hcd : c ≠ olddn := by
      intro h
      rw [h, hod] at hdc0
      injection hdc0 with hdc0
      rw [← hdc0, hname] at hcn
      exact hzx hcn.symm
    obtain ⟨dc, w, vw, hdc, _, hw, _, hvw, _⟩ := hall c hcm
    exact ⟨dc, dc, w, vw, vw, hdc, by rw [hagree c hcm hcd, hdc], hw, hw, hvw,
      by rw [ev, hvw]⟩

/-! ## Rename: the claims -/

theorem memfs_rename_dirs (s : fs_state) (olddir newdir odn ndn : Nat) (ov nv : mnode_t)
    (oldname newname : Name)
    (hov : s.vnodes olddir = some ov) (hod : ov.vn.dnode = some odn)
    (hnv : s.vnodes newdir = some nv) (hnd : nv.vn.dnode = some ndn) :
    memfs_rename s olddir newdir oldname newname =
      if is_dot oldname then some (s, ERR_BAD_STATE)
      else if is_dotdot oldname then some (s, ERR_BAD_STATE)
      else if is_dot newname then some (s, ERR_BAD_STATE)
      else if is_dotdot newname then some (s, ERR_BAD_STATE)
      else if odn ≠ ndn then some (s, ERR_NOT_SUPPORTED)
      else
        match dn_lookup s odn oldname with
        | none => none
        | some (r, out) =>
          if r.isErr then some (s, r)
          else
            match out with
            | none => none
            | some olddn =>
              match dn_lookup s ndn newname with
              | none => none
              | some (r, out) =>
                if r = NO_ERROR then
                  match out with
                  | none => none
                  | some newdn => rename_onto s ndn olddn newdn newname
                else if r ≠ ERR_NOT_FOUND then some (s, r)
                else rename_relocate s ndn olddn newname := by
  simp only [memfs_rename, hov, hod, hnv, hnd]

theorem memfs_rename_same_dir (s : fs_state) (dir dn olddn : Nat) (dv : mnode_t)
    (x y : Name) (hdv : s.vnodes dir = some dv) (hdd : dv.vn.dnode = some dn)
    (hx : ¬ reserved x) (hy : ¬ reserved y)
    (hlx : dn_lookup s dn x = some (NO_ERROR, some olddn)) :
    memfs_rename s dir dir x y =
      match dn_lookup s dn y with
      | none => none
      | some (r, out) =>
        if r = NO_ERROR then
          match out with
          | none => none
          | some newdn => rename_onto s dn olddn newdn y
        else if r ≠ ERR_NOT_FOUND then some (s, r)
        else rename_relocate s dn olddn y := by
  rw [memfs_rename_dirs s dir dir dn dn dv dv x y hdv hdd hdv hdd]
  have hx' := (not_reserved_iff x).mp hx
  have hy' := (not_reserved_iff y).mp hy
  simp only [hx'.1, hx'.2, hy'.1, hy'.2, hlx, mx_status_t.isErr]
  simp

/-- C11. Rename within a directory: in a well-formed directory, for names
`x` and `y` other than "." and "..", when `x` and `y` name distinct vnodes of
the same kind and the entry of `y` passes the can-unlink gate, `memfs_rename`
returns `NO_ERROR`; afterwards `y` resolves to the vnode that `x` named, that
vnode is unchanged, `x` resolves to `ERR_NOT_FOUND`, every other name
resolves as before and the directory has one child fewer. When no entry is
called `y`, the same holds with the number of children unchanged. -/
theorem rename_replaces (s : fs_state) (dir dn olddn vo : Nat) (pd od : dnode_t)
    (mo : mnode_t) (x y : Name)
    (hwf : dir_wf s dir dn) (hx : ¬ reserved x) (hy : ¬ reserved y)
    (hpd : s.dnodes dn = some pd)
    (hlx : dn_lookup s dn x = some (NO_ERROR, some olddn))
    (hod : s.dnodes olddn = some od) (hvo : od.vnode = some vo)
    (hmo : s.vnodes vo = some mo) :
    (∀ newdn nd vd md,
      dn_lookup s dn y = some (NO_ERROR, some newdn) →
      s.dnodes newdn = some nd → nd.vnode = some vd → vo ≠ vd →
      s.vnodes vd = some md → mo.vn.dnode.isNone = md.vn.dnode.isNone →
      mem_can_unlink s newdn = some NO_ERROR →
      ∃ s' pd', memfs_rename s dir dir x y = some (s', NO_ERROR) ∧
        resolve s' dir y = some (NO_ERROR, some vo) ∧ s'.vnodes vo = some mo ∧
        resolve s' dir x = some (ERR_NOT_FOUND, none) ∧
        (∀ z, z ≠ x → z ≠ y → resolve s' dir z = resolve s dir z) ∧
        s'.dnodes dn = some pd' ∧ pd'.children.length + 1 = pd.children.length) ∧
    (dn_lookup s dn y = some (ERR_NOT_FOUND, none) →
      ∃ s' pd', memfs_rename s dir dir x y = some (s', NO_ERROR) ∧
        resolve s' dir y = some (NO_ERROR, some vo) ∧ s'.vnodes vo = some mo ∧
        resolve s' dir x = some (ERR_NOT_FOUND, none) ∧
        (∀ z, z ≠ x → z ≠ y → resolve s' dir z = resolve s dir z) ∧
        s'.dnodes dn = some pd' ∧ pd'.children.length = pd.children.length) := by
  obtain ⟨pv, pd0, hpv, hdir, hpd0, hnodup, hnotin, hall⟩ := hwf
  rw [hpd] at hpd0
  injection hpd0 with hpd0
  subst hpd0
  obtain ⟨pdx, hpdx, hfx⟩ := dn_lookup_found s dn x olddn hlx
  rw [hpd] at hpdx
  injection hpdx with hpdx
  subst hpdx
  obtain ⟨hmemx, od1, hod1, hnamex⟩ := dn_find_some _ _ _ _ hfx
  rw [hod] at hod1
  injection hod1 with hod1
  subst hod1
  have hrx : resolve s dir x = some (NO_ERROR, some vo) := by
    rw [resolve_eq s dir dn pv pd x hpv hdir hpd]
    simp only [hfx, hod, hvo, hmo]
  constructor
  · intro newdn nd vd md hly hnd hvd hne hmd hkind hgate
    obtain ⟨pdy, hpdy, hfy⟩ := dn_lookup_found s dn y newdn hly
    rw [hpd] at hpdy
    injection hpdy with hpdy
    subst hpdy
    obtain ⟨hmemy, nd1, hnd1, hnamey⟩ := dn_find_some _ _ _ _ hfy
    rw [hnd] at hnd1
    injection hnd1 with hnd1
    subst hnd1
    have hxy : x ≠ y := by
      intro h
      rw [h, hfy] at hfx
      injection hfx with hfx
      injection hfx with hfx
      rw [hfx, hod] at hnd
      injection hnd with hnd
      rw [← hnd, hvo] at hvd
      injection hvd with hvd
      exact hne hvd
    obtain ⟨s1, hdel, hwf1, hpv1, hpd1, hag1, hvf1, hfz1, hnone1, hres1⟩ :=
      delete_child_spec s dir dn newdn pv pd nd hpv hdir hpd hnodup hnotin hall hmemy hnd
    obtain ⟨pv1, pd1, hpv1', hdir1, hpd1', hnodup1, hnotin1, hall1⟩ := hwf1
    rw [hpv1] at hpv1'
    injection hpv1' with hpv1'
    subst hpv1'
    rw [hpd1] at hpd1'
    injection hpd1' with hpd1'
    subst hpd1'
    have hfx1 : dn_find s1.dnodes x (pd.children.erase newdn) = some (some olddn) := by
      rw [hfz1 x (by rw [hnamey]; exact hxy), hfx]
    have hfy1 : dn_find s1.dnodes y (pd.children.erase newdn) = some none := by
      rw [← hnamey]; exact hnone1
    obtain ⟨s', hmv, ev, ep, ry, rx, rz⟩ :=
      move_child_lookup s1 dir dn olddn pv _ x y hpv1 hdir hpd1 hnodup1 hnotin1 hall1 hfx1 hfy1
    have hvo1 : s1.vnodes vo = some mo := by
      rw [hvf1 vo (by rw [hvd]; exact fun h => hne (Option.some.inj h)), hmo]
    refine ⟨s', _, ?_, ?_, by rw [ev, hvo1], rx, ?_, ep, ?_⟩
    · rw [memfs_rename_same_dir s dir dn olddn pv x y hpv hdir hx hy hlx, hly]
      simp only [↓reduceIte, rename_onto, hod, hnd, hvo, hvd, hmo, hmd, hgate,
        mx_status_t.isErr, hdel, rename_relocate, hmv]
      simp [hne, hkind]
    · rw [ry, hres1 x (by rw [hnamey]; exact hxy), hrx]
    · intro z hzx hzy
      rw [rz z hzx hzy, hres1 z (by rw [hnamey]; exact hzy)]
    · simp only [List.length_append, List.length_singleton]
      have h1 : olddn ∈ pd.children.erase newdn := (dn_find_some _ _ _ _ hfx1).1
      rw [List.length_erase_of_mem h1, List.length_erase_of_mem hmemy]
      have : 0 < pd.children.length := List.length_pos_of_mem hmemy
      have : 0 < (pd.children.erase newdn).length := List.length_pos_of_mem h1
      rw [List.length_erase_of_mem hmemy] at this
      omega
  · intro hly
    obtain ⟨pdy, hpdy, hfy⟩ := dn_lookup_not_found s dn y hly
    rw [hpd] at hpdy
    injection hpdy with hpdy
    subst hpdy
    obtain ⟨s', hmv, ev, ep, ry, rx, rz⟩ :=
      move_child_lookup s dir dn olddn pv pd x y hpv hdir hpd hnodup hnotin hall hfx hfy
    refine ⟨s', _, ?_, by rw [ry, hrx], by rw [ev, hmo], rx, rz, ep, ?_⟩
    · rw [memfs_rename_same_dir s dir dn olddn pv x y hpv hdir hx hy hlx, hly]
      simp only [rename_relocate, hmv]
      simp
    · simp only [List.length_append, List.length_singleton]
      rw [List.length_erase_of_mem hmemx]
      have : 0 < pd.children.length := List.length_pos_of_mem hmemx
      omega

/-- C11 on the tree: the directory "e" is renamed onto the empty directory
"d", and the file "a" is renamed to the free name "z". -/
theorem rename_replaces_witness :
    dir_wf tree_state 0 0 ∧
    (∃ s' pd', memfs_rename tree_state 0 0 ['e'] ['d'] = some (s', NO_ERROR) ∧
      resolve s' 0 ['d'] = some (NO_ERROR, some 3) ∧ s'.vnodes 3 = some (dir_mnode 1 3) ∧
      resolve s' 0 ['e'] = some (ERR_NOT_FOUND, none) ∧
      (∀ z, z ≠ ['e'] → z ≠ ['d'] → resolve s' 0 z = resolve tree_state 0 z) ∧
      s'.dnodes 0 = some pd' ∧ pd'.children.length + 1 = [1, 2, 3].length) ∧
    (∃ s' pd', memfs_rename tree_state 0 0 ['a'] ['z'] = some (s', NO_ERROR) ∧
      resolve s' 0 ['z'] = some (NO_ERROR, some 1) ∧ s'.vnodes 1 = some (file_mnode 2) ∧
      resolve s' 0 ['a'] = some (ERR_NOT_FOUND, none) ∧
      (∀ z, z ≠ ['a'] → z ≠ ['z'] → resolve s' 0 z = resolve tree_state 0 z) ∧
      s'.dnodes 0 = some pd' ∧ pd'.children.length = [1, 2, 3].length) :=
  ⟨tree_state_wf,
   (rename_replaces tree_state 0 0 3 3
      { name := ['t', 'm', 'p'], vnode := some 0, parent := none, children := [1, 2, 3] }
      { name := ['e'], vnode := some 3, parent := some 0, children := [4] } (dir_mnode 1 3)
      ['e'] ['d'] tree_state_wf (by simp [reserved]) (by simp [reserved]) rfl rfl rfl rfl rfl).1
      2 { name := ['d'], vnode := some 2, parent := some 0, children := [] } 2 (dir_mnode 1 2)
      rfl rfl rfl (by decide) rfl rfl rfl,
   (rename_replaces tree_state 0 0 1 1
      { name := ['t', 'm', 'p'], vnode := some 0, parent := none, children := [1, 2, 3] }
      { name := ['a'], vnode := some 1, parent := some 0, children := [] } (file_mnode 2)
      ['a'] ['z'] tree_state_wf (by simp [reserved]) (by simp [reserved]) rfl rfl rfl rfl rfl).2
      rfl⟩

theorem rename_onto_no_error (s : fs_state) (dir dn olddn newdn : Nat) (y : Name)
    (hwf : dir_wf s dir dn)
    (hmx : ∃ x, dn_lookup s dn x = some (NO_ERROR, some olddn))
    (hly : dn_lookup s dn y = some (NO_ERROR, some newdn))
    (hne : ∀ od nd, s.dnodes olddn = some od → s.dnodes newdn = some nd → od.vnode ≠ nd.vnode)
    (hkind : ∀ od nd vo vd mo md, s.dnodes olddn = some od → s.dnodes newdn = some nd →
      od.vnode = some vo → nd.vnode = some vd → s.vnodes vo = some mo → s.vnodes vd = some md →
      mo.vn.dnode.isNone = md.vn.dnode.isNone)
    (hgate : mem_can_unlink s newdn = some NO_ERROR) :
    ∃ s', rename_onto s dn olddn newdn y = some (s', NO_ERROR) := by
  obtain ⟨pv, pd, hpv, hdir, hpd, hnodup, hnotin, hall⟩ := hwf
  obtain ⟨x, hlx⟩ := hmx
  obtain ⟨pdx, hpdx, hfx⟩ := dn_lookup_found s dn x olddn hlx
  obtain ⟨pdy, hpdy, hfy⟩ := dn_lookup_found s dn y newdn hly
  rw [hpd] at hpdx hpdy
  injection hpdx with hpdx
  injection hpdy with hpdy
  subst hpdx hpdy
  obtain ⟨hmemx, _⟩ := dn_find_some _ _ _ _ hfx
  obtain ⟨hmemy, _⟩ := dn_find_some _ _ _ _ hfy
  obtain ⟨od, vo, mo, hod, hpo, hvo, _, hmo, _⟩ := hall olddn hmemx
  obtain ⟨nd, vd, md, hnd, _, hvd, _, hmd, _⟩ := hall newdn hmemy
  have hne' := hne od nd hod hnd
  have hk := hkind od nd vo vd mo md hod hnd hvo hvd hmo hmd
  have hon : olddn ≠ newdn := by
    intro h
    rw [h, hnd] at hod
    injection hod with hod
    exact hne' (by rw [hod])
  obtain ⟨s1, hdel, _, _, hpd1, hag1, _⟩ :=
    delete_child_spec s dir dn newdn pv pd nd hpv hdir hpd hnodup hnotin hall hmemy hnd
  have hod1 : s1.dnodes olddn = some od := by rw [hag1 olddn hmemx hon, hod]
  obtain ⟨s', hmv, _⟩ := dn_move_child_spec s1 dn olddn od _ y hod1 hpo hpd1
    (fun h => hnotin (h ▸ hmemx))
  refine ⟨s', ?_⟩
  simp only [rename_onto, hod, hnd, hvo, hvd, hmo, hmd, hgate, mx_status_t.isErr, hdel,
    rename_relocate, hmv]
  have hvv : vo ≠ vd := fun h => hne' (by rw [hvo, hvd, h])
  simp [hvv, hk]

theorem rename_relocate_no_error (s : fs_state) (dir dn olddn : Nat) (y : Name)
    (hwf : dir_wf s dir dn)
    (hmx : ∃ x, dn_lookup s dn x = some (NO_ERROR, some olddn)) :
    ∃ s', rename_relocate s dn olddn y = some (s', NO_ERROR) := by
  obtain ⟨pv, pd, hpv, hdir, hpd, hnodup, hnotin, hall⟩ := hwf
  obtain ⟨x, hlx⟩ := hmx
  obtain ⟨pdx, hpdx, hfx⟩ := dn_lookup_found s dn x olddn hlx
  rw [hpd] at hpdx
  injection hpdx with hpdx
  subst hpdx
  obtain ⟨hmemx, _⟩ := dn_find_some _ _ _ _ hfx
  obtain ⟨od, vo, mo, hod, hpo, _⟩ := hall olddn hmemx
  obtain ⟨s', hmv, _⟩ := dn_move_child_spec s dn olddn od pd y hod hpo hpd
    (fun h => hnotin (h ▸ hmemx))
  exact ⟨s', by simp only [rename_relocate, hmv]⟩

/-- C12. Status of rename: for directory vnodes `olddir` and `newdir` with
entries `odn` and `ndn`, `memfs_rename` returns `ERR_BAD_STATE` when either
name is "." or ".."; else `ERR_NOT_SUPPORTED` when the two entries differ;
else `ERR_NOT_FOUND` when no entry is called `oldname`; else, when an entry is
called `newname`, `ERR_INVALID_ARGS` when it targets the vnode of the source,
`ERR_INVALID_ARGS` when one target is a file and the other a directory, and
`ERR_BAD_STATE` when the can-unlink gate refuses the destination; in the
remaining cases it returns `NO_ERROR` (in a well-formed directory). The heap
is unchanged whenever an error is returned. -/
theorem rename_status_order (s : fs_state) (olddir newdir odn ndn : Nat) (ov nv : mnode_t)
    (oldname newname : Name)
    (hov : s.vnodes olddir = some ov) (hod : ov.vn.dnode = some odn)
    (hnv : s.vnodes newdir = some nv) (hnd : nv.vn.dnode = some ndn) :
    ((reserved oldname ∨ reserved newname) →
      memfs_rename s olddir newdir oldname newname = some (s, ERR_BAD_STATE)) ∧
    (¬ reserved oldname → ¬ reserved newname →
      (odn ≠ ndn →
        memfs_rename s olddir newdir oldname newname = some (s, ERR_NOT_SUPPORTED)) ∧
      (odn = ndn →
        (dn_lookup s odn oldname = some (ERR_NOT_FOUND, none) →
          memfs_rename s olddir newdir oldname newname = some (s, ERR_NOT_FOUND)) ∧
        (∀ olddn od, dn_lookup s odn oldname = some (NO_ERROR, some olddn) →
          s.dnodes olddn = some od →
          (∀ newdn nd, dn_lookup s ndn newname = some (NO_ERROR, some newdn) →
            s.dnodes newdn = some nd →
            (od.vnode = nd.vnode →
              memfs_rename s olddir newdir oldname newname = some (s, ERR_INVALID_ARGS)) ∧
            (∀ vo vd mo md, od.vnode = some vo → nd.vnode = some vd → vo ≠ vd →
              s.vnodes vo = some mo → s.vnodes vd = some md →
              (mo.vn.dnode.isNone ≠ md.vn.dnode.isNone →
                memfs_rename s olddir newdir oldname newname =
                  some (s, ERR_INVALID_ARGS)) ∧
              (mo.vn.dnode.isNone = md.vn.dnode.isNone →
                (mem_can_unlink s newdn = some ERR_BAD_STATE →
                  memfs_rename s olddir newdir oldname newname =
                    some (s, ERR_BAD_STATE)) ∧
                (mem_can_unlink s newdn = some NO_ERROR → dir_wf s newdir ndn →
                  ∃ s', memfs_rename s olddir newdir oldname newname =
                    some (s', NO_ERROR))))) ∧
          (dn_lookup s ndn newname = some (ERR_NOT_FOUND, none) → dir_wf s newdir ndn →
            ∃ s', memfs_rename s olddir newdir oldname newname = some (s', NO_ERROR))) ∧
        (oldname = newname → ∀ dn, dn_lookup s odn oldname = some (NO_ERROR, some dn) →
          memfs_rename s olddir newdir oldname newname = some (s, ERR_INVALID_ARGS)))) := by
  have hval := memfs_rename_dirs s olddir newdir odn ndn ov nv oldname newname hov hod hnv hnd
  constructor
  · intro hres
    rw [hval]
    by_cases h1 : is_dot oldname = true
    · rw [if_pos h1]
    · rw [if_neg h1]
      by_cases h2 : is_dotdot oldname = true
      · rw [if_pos h2]
      · rw [if_neg h2]
        by_cases h3 : is_dot newname = true
        · rw [if_pos h3]
        · rw [if_neg h3]
          by_cases h4 : is_dotdot newname = true
          · rw [if_pos h4]
          · exfalso
            rcases hres with (h | h) | (h | h)
            · exact h1 ((is_dot_iff _).mpr h)
            · exact h2 ((is_dotdot_iff _).mpr h)
            · exact h3 ((is_dot_iff _).mpr h)
            · exact h4 ((is_dotdot_iff _).mpr h)
  · intro hro hrn
    have ho := (not_reserved_iff oldname).mp hro
    have hn := (not_reserved_iff newname).mp hrn
    simp only [ho.1, ho.2, hn.1, hn.2, Bool.false_eq_true, ↓reduceIte] at hval
    constructor
    · intro hne
      rw [hval, if_pos hne]
    · intro heq
      rw [if_neg (fun h => h heq)] at hval
      have hfound : ∀ olddn od, dn_lookup s odn oldname = some (NO_ERROR, some olddn) →
          s.dnodes olddn = some od →
          ∀ newdn nd, dn_lookup s ndn newname = some (NO_ERROR, some newdn) →
            s.dnodes newdn = some nd → od.vnode = nd.vnode →
            memfs_rename s olddir newdir oldname newname = some (s, ERR_INVALID_ARGS) := by
        intro olddn od hlo hdo newdn nd hln hdn hsame
        rw [hval, hlo]
        simp only [mx_status_t.isErr, hln, rename_onto, hdo, hdn, hsame]
        simp
      refine ⟨?_, ?_, ?_⟩
      · intro hlo
        rw [hval, hlo]
        rfl
      · intro olddn od hlo hdo
        constructor
        · intro newdn nd hln hdn
          constructor
          · exact hfound olddn od hlo hdo newdn nd hln hdn
          · intro vo vd mo md hvo hvd hne hmo hmd
            have hne' : ¬ od.vnode = nd.vnode := by
              rw [hvo, hvd]
              exact fun h => hne (Option.some.inj h)
            constructor
            · intro hkind
              rw [hval, hlo]
              simp only [mx_status_t.isErr, hln, rename_onto, hdo, hdn, hvo, hvd, hmo, hmd]
              simp [hne, hkind]
            · intro hkind
              constructor
              · intro hgate
                rw [hval, hlo]
                simp only [mx_status_t.isErr, hln, rename_onto, hdo, hdn, hvo, hvd, hmo, hmd,
                  hgate]
                simp [hne, hkind]
              · intro hgate hwf
                obtain ⟨s', hs'⟩ := rename_onto_no_error s newdir ndn olddn newdn newname hwf
                  ⟨oldname, heq ▸ hlo⟩ hln
                  (by
                    intro od' nd' h1 h2
                    rw [hdo] at h1
                    rw [hdn] at h2
                    injection h1 with h1
                    injection h2 with h2
                    rw [← h1, ← h2]
                    exact hne')
                  (by
                    intro od' nd' vo' vd' mo' md' h1 h2 h3 h4 h5 h6
                    rw [hdo] at h1
                    rw [hdn] at h2
                    injection h1 with h1
                    injection h2 with h2
                    subst h1 h2
                    rw [hvo] at h3
                    rw [hvd] at h4
                    injection h3 with h3
                    injection h4 with h4
                    subst h3 h4
                    rw [hmo] at h5
                    rw [hmd] at h6
                    injection h5 with h5
                    injection h6 with h6
                    subst h5 h6
                    exact hkind)
                  hgate
                refine ⟨s', ?_⟩
                rw [hval, hlo]
                simp only [mx_status_t.isErr, hln]
                simpa using hs'
        · intro hln hwf
          obtain ⟨s', hs'⟩ := rename_relocate_no_error s newdir ndn olddn newname hwf
            ⟨oldname, heq ▸ hlo⟩
          refine ⟨s', ?_⟩
          rw [hval, hlo]
          simp only [mx_status_t.isErr, hln]
          simpa using hs'
      · intro hsame dn hlo
        obtain ⟨pd, _, hf⟩ := dn_lookup_found s odn oldname dn hlo
        obtain ⟨_, d, hd, _⟩ := dn_find_some _ _ _ _ hf
        exact hfound dn d hlo hd dn d (by rw [← heq, ← hsame]; exact hlo) hd rfl

/-- C12 on the tree, with the root (vnode 0) and the directory "d" (vnode 2):
a reserved name across two directories, a cross-directory rename, a rename of
a name onto itself (present and absent), a rename of a file onto a directory
and a rename onto a directory that has a child. -/
theorem rename_status_order_witness :
    memfs_rename tree_state 0 2 ['.'] ['a'] = some (tree_state, ERR_BAD_STATE) ∧
    memfs_rename tree_state 0 2 ['a'] ['b'] = some (tree_state, ERR_NOT_SUPPORTED) ∧
    memfs_rename tree_state 0 0 ['a'] ['a'] = some (tree_state, ERR_INVALID_ARGS) ∧
    memfs_rename tree_state 0 0 ['q'] ['q'] = some (tree_state, ERR_NOT_FOUND) ∧
    memfs_rename tree_state 0 0 ['a'] ['d'] = some (tree_state, ERR_INVALID_ARGS) ∧
    memfs_rename tree_state 0 0 ['d'] ['e'] = some (tree_state, ERR_BAD_STATE) :=
  ⟨(rename_status_order tree_state 0 2 0 2 root_mnode (dir_mnode 1 2) ['.'] ['a']
      rfl rfl rfl rfl).1 (Or.inl (Or.inl rfl)),
   ((rename_status_order tree_state 0 2 0 2 root_mnode (dir_mnode 1 2) ['a'] ['b']
      rfl rfl rfl rfl).2 (by simp [reserved]) (by simp [reserved])).1 (by decide),
   (((rename_status_order tree_state 0 0 0 0 root_mnode root_mnode ['a'] ['a']
      rfl rfl rfl rfl).2 (by simp [reserved]) (by simp [reserved])).2 rfl).2.2 rfl 1 rfl,
   (((rename_status_order tree_state 0 0 0 0 root_mnode root_mnode ['q'] ['q']
      rfl rfl rfl rfl).2 (by simp [reserved]) (by simp [reserved])).2 rfl).1 rfl,
   ((((((rename_status_order tree_state 0 0 0 0 root_mnode root_mnode ['a'] ['d']
      rfl rfl rfl rfl).2 (by simp [reserved]) (by simp [reserved])).2 rfl).2.1 1
      { name := ['a'], vnode := some 1, parent := some 0, children := [] } rfl rfl).1 2
      { name := ['d'], vnode := some 2, parent := some 0, children := [] } rfl rfl).2
      1 2 (file_mnode 2) (dir_mnode 1 2) rfl rfl (by decide) rfl rfl).1 (by decide),
   (((((((rename_status_order tree_state 0 0 0 0 root_mnode root_mnode ['d'] ['e']
      rfl rfl rfl rfl).2 (by simp [reserved]) (by simp [reserved])).2 rfl).2.1 2
      { name := ['d'], vnode := some 2, parent := some 0, children := [] } rfl rfl).1 3
      { name := ['e'], vnode := some 3, parent := some 0, children := [4] } rfl rfl).2
      2 3 (dir_mnode 1 2) (dir_mnode 1 3) rfl rfl (by decide) rfl rfl).2 rfl).1 rfl⟩

/-! ## Sibling names stay unique -/

theorem dir_inv_transfer (D D' : Nat → Option dnode_t) (p : Nat) (x : dnode_t)
    (h : dir_inv D p x)
    (hag : ∀ c ∈ x.children, ∀ dc, D c = some dc →
      ∃ dc', D' c = some dc' ∧ dc'.name = dc.name ∧ dc'.parent = dc.parent) :
    dir_inv D' p x := by
  obtain ⟨h1, h2, h3, h4⟩ := h
  refine ⟨h1, h2, ?_, ?_⟩
  · intro c hc
    obtain ⟨dc, hdc, hp⟩ := h3 c hc
    obtain ⟨dc', hdc', _, hp'⟩ := hag c hc dc hdc
    exact ⟨dc', hdc', by rw [hp', hp]⟩
  · intro c1 hc1 c2 hc2 hne d1 d2 hd1 hd2
    obtain ⟨e1, he1, _⟩ := h3 c1 hc1
    obtain ⟨e2, he2, _⟩ := h3 c2 hc2
    obtain ⟨e1', he1', hn1, _⟩ := hag c1 hc1 e1 he1
    obtain ⟨e2', he2', hn2, _⟩ := hag c2 hc2 e2 he2
    rw [hd1] at he1'
    rw [hd2] at he2'
    injection he1' with he1'
    injection he2' with he2'
    rw [he1', he2', hn1, hn2]
    exact h4 c1 hc1 c2 hc2 hne e1 e2 he1 he2

theorem vn_acquire_dnodes (s s' : fs_state) (v : Nat) (h : vn_acquire s v = some s') :
    s'.dnodes = s.dnodes := by
  unfold vn_acquire at h
  split at h
  · exact absurd h (by simp)
  · injection h with h
    rw [← h]
    rfl

theorem vn_release_dnodes (s s' : fs_state) (v : Nat) (h : vn_release s v = some s') :
    s'.dnodes = s.dnodes := by
  simp only [vn_release, mem_release] at h
  repeat' split at h
  all_goals first
    | (injection h with h; rw [← h]; rfl)
    | cases h

theorem dn_delete_dnodes (s s' : fs_state) (dn : Nat) (h : dn_delete s dn = some s') :
    ∃ d, s.dnodes dn = some d ∧
      ((d.parent = none ∧ s'.dnodes = Function.update s.dnodes dn none) ∨
       (∃ p pd, d.parent = some p ∧ s.dnodes p = some pd ∧
          s'.dnodes = Function.update
            (Function.update s.dnodes p (some { pd with children := pd.children.erase dn }))
            dn none)) := by
  unfold dn_delete at h
  cases hd : s.dnodes dn with
  | none => rw [hd] at h; exact absurd h (by simp)
  | some d =>
    rw [hd] at h
    refine ⟨d, rfl, ?_⟩
    cases hp : d.parent with
    | none =>
      left
      refine ⟨rfl, ?_⟩
      simp only [hp] at h
      cases hv : d.vnode with
      | none =>
        simp only [hv] at h
        injection h with h
        rw [← h]; rfl
      | some v =>
        simp only [hv] at h
        cases hr : vn_release s v with
        | none => rw [hr] at h; exact absurd h (by simp)
        | some s2 =>
          rw [hr] at h
          injection h with h
          rw [← h]
          simp only [set_dnode, vn_release_dnodes s s2 v hr]
    | some p =>
      right
      simp only [hp] at h
      cases hpd : s.dnodes p with
      | none => rw [hpd] at h; exact absurd h (by simp)
      | some pd =>
        rw [hpd] at h
        refine ⟨p, pd, rfl, hpd, ?_⟩
        cases hv : d.vnode with
        | none =>
          simp only [hv] at h
          injection h with h
          rw [← h]; rfl
        | some v =>
          simp only [hv] at h
          cases hr : vn_release (set_dnode s p
              (some { pd with children := pd.children.erase dn })) v with
          | none => rw [hr] at h; exact absurd h (by simp)
          | some s2 =>
            rw [hr] at h
            injection h with h
            rw [← h]
            simp only [set_dnode, vn_release_dnodes _ s2 v hr]

theorem tree_inv_congr (s s' : fs_state) (h : s'.dnodes = s.dnodes) (hinv : tree_inv s) :
    tree_inv s' := by
  intro p x hx
  rw [h] at hx ⊢
  exact hinv p x hx

theorem dir_inv_erase (D : Nat → Option dnode_t) (p dn : Nat) (x : dnode_t)
    (h : dir_inv D p x) :
    dir_inv D p { x with children := x.children.erase dn } := by
  obtain ⟨h1, h2, h3, h4⟩ := h
  refine ⟨h1.erase dn, fun h => h2 (List.mem_of_mem_erase h), ?_, ?_⟩
  · intro c hc
    exact h3 c (List.mem_of_mem_erase hc)
  · intro c1 hc1 c2 hc2
    exact h4 c1 (List.mem_of_mem_erase hc1) c2 (List.mem_of_mem_erase hc2)

theorem tree_inv_not_child (s : fs_state) (hinv : tree_inv s) (q dn : Nat) (x d : dnode_t)
    (hx : s.dnodes q = some x) (hd : s.dnodes dn = some d) (hmem : dn ∈ x.children) :
    d.parent = some q := by
  obtain ⟨dc, hdc, hp⟩ := (hinv q x hx).2.2.1 dn hmem
  rw [hd] at hdc
  injection hdc with hdc
  rw [hdc]
  exact hp

theorem tree_inv_delete (s s' : fs_state) (dn : Nat) (hinv : tree_inv s)
    (h : dn_delete s dn = some s') : tree_inv s' := by
  obtain ⟨d, hd, hcase⟩ := dn_delete_dnodes s s' dn h
  rcases hcase with ⟨hpar, hD⟩ | ⟨p, pd, hpar, hpd, hD⟩
  · intro q x hx
    rw [hD] at hx ⊢
    have hq : q ≠ dn := by
      intro e; rw [e] at hx; simp at hx
    rw [Function.update_noteq hq] at hx
    have hnot : dn ∉ x.children := by
      intro hm
      have := tree_inv_not_child s hinv q dn x d hx hd hm
      rw [hpar] at this
      exact absurd this (by simp)
    apply dir_inv_transfer s.dnodes _ q x (hinv q x hx)
    intro c hc dc hdc
    have hcd : c ≠ dn := fun e => hnot (e ▸ hc)
    exact ⟨dc, by rw [Function.update_noteq hcd, hdc], rfl, rfl⟩
  · intro q x hx
    rw [hD] at hx ⊢
    have hq : q ≠ dn := by
      intro e; rw [e] at hx; simp at hx
    rw [Function.update_noteq hq] at hx
    have hag : ∀ (y : dnode_t), dn ∉ y.children → ∀ c ∈ y.children, ∀ dc,
        s.dnodes c = some dc →
        ∃ dc', Function.update (Function.update s.dnodes p
          (some { pd with children := pd.children.erase dn })) dn none c = some dc' ∧
          dc'.name = dc.name ∧ dc'.parent = dc.parent := by
      intro y hnot c hc dc hdc
      have hcd : c ≠ dn := fun e => hnot (e ▸ hc)
      rw [Function.update_noteq hcd]
      by_cases hcp : c = p
      · subst hcp
        rw [hpd] at hdc
        injection hdc with hdc
        subst hdc
        exact ⟨_, Function.update_same _ _ _, rfl, rfl⟩
      · exact ⟨dc, by rw [Function.update_noteq hcp, hdc], rfl, rfl⟩
    by_cases hqp : q = p
    · subst hqp
      rw [Function.update_same] at hx
      injection hx with hx
      subst hx
      have hpinv := hinv q pd hpd
      have hnot : dn ∉ pd.children.erase dn := fun hm =>
        ((List.Nodup.mem_erase_iff hpinv.1).mp hm).1 rfl
      exact dir_inv_transfer s.dnodes _ q _ (dir_inv_erase s.dnodes q dn pd hpinv)
        (hag { pd with children := pd.children.erase dn } hnot)
    · rw [Function.update_noteq hqp] at hx
      have hnot : dn ∉ x.children := by
        intro hm
        have := tree_inv_not_child s hinv q dn x d hx hd hm
        rw [hpar] at this
        injection this with this
        exact hqp this.symm
      exact dir_inv_transfer s.dnodes _ q x (hinv q x hx) (hag x hnot)

theorem tree_inv_move (s s' : fs_state) (pdn child : Nat) (pd c : dnode_t) (y : Name)
    (hinv : tree_inv s) (hpd : s.dnodes pdn = some pd) (hmem : child ∈ pd.children)
    (hc : s.dnodes child = some c)
    (hnames : ∀ c' ∈ pd.children, c' ≠ child → ∀ dc, s.dnodes c' = some dc → dc.name ≠ y)
    (ec : s'.dnodes child = some { c with name := y, parent := some pdn })
    (ep : s'.dnodes pdn = some { pd with children := pd.children.erase child ++ [child] })
    (eq : ∀ q, q ≠ child → q ≠ pdn → s'.dnodes q = s.dnodes q) : tree_inv s' := by
  obtain ⟨hnd, hnotin, hlive, huniq⟩ := hinv pdn pd hpd
  have hne : child ≠ pdn := fun e => hnotin (e ▸ hmem)
  have hcpar : c.parent = some pdn := tree_inv_not_child s hinv pdn child pd c hpd hc hmem
  have hag : ∀ (x : dnode_t), child ∉ x.children → ∀ c3 ∈ x.children, ∀ dc,
      s.dnodes c3 = some dc →
      ∃ dc', s'.dnodes c3 = some dc' ∧ dc'.name = dc.name ∧ dc'.parent = dc.parent := by
    intro x hnot c3 hc3 dc hdc
    have h3 : c3 ≠ child := fun e => hnot (e ▸ hc3)
    by_cases h4 : c3 = pdn
    · subst h4
      rw [hpd] at hdc
      injection hdc with hdc
      subst hdc
      exact ⟨_, ep, rfl, rfl⟩
    · exact ⟨dc, by rw [eq c3 h3 h4, hdc], rfl, rfl⟩
  intro q x hx
  by_cases hqp : q = pdn
  · subst hqp
    rw [ep] at hx
    injection hx with hx
    subst hx
    have hnotc : child ∉ pd.children.erase child := fun hm =>
      ((List.Nodup.mem_erase_iff hnd).mp hm).1 rfl
    have hsame : ∀ c' ∈ pd.children.erase child, s'.dnodes c' = s.dnodes c' := by
      intro c' hc'
      have h1 := (List.Nodup.mem_erase_iff hnd).mp hc'
      exact eq c' h1.1 (fun e => hnotin (e ▸ h1.2))
    refine ⟨?_, ?_, ?_, ?_⟩
    · exact List.Nodup.append (hnd.erase child) (List.nodup_singleton child)
        (by
          intro a ha hb
          rw [List.mem_singleton] at hb
          exact hnotc (hb ▸ ha))
    · intro hm
      rcases List.mem_append.mp hm with hm | hm
      · exact hnotin (List.mem_of_mem_erase hm)
      · rw [List.mem_singleton] at hm
        exact hne hm.symm
    · intro c' hc'
      rcases List.mem_append.mp hc' with hm | hm
      · obtain ⟨dc, hdc, hp⟩ := hlive c' (List.mem_of_mem_erase hm)
        exact ⟨dc, by rw [hsame c' hm, hdc], hp⟩
      · rw [List.mem_singleton] at hm
        subst hm
        exact ⟨_, ec, rfl⟩
    · intro c1 hc1 c2 hc2 hne12 d1 d2 hd1 hd2
      rcases List.mem_append.mp hc1 with hm1 | hm1
      · rcases List.mem_append.mp hc2 with hm2 | hm2
        · rw [hsame c1 hm1] at hd1
          rw [hsame c2 hm2] at hd2
          exact huniq c1 (List.mem_of_mem_erase hm1) c2 (List.mem_of_mem_erase hm2) hne12
            d1 d2 hd1 hd2
        · rw [List.mem_singleton] at hm2
          subst hm2
          rw [hsame c1 hm1] at hd1
          rw [ec] at hd2
          injection hd2 with hd2
          rw [← hd2]
          exact hnames c1 (List.mem_of_mem_erase hm1) hne12 d1 hd1
      · rw [List.mem_singleton] at hm1
        subst hm1
        rcases List.mem_append.mp hc2 with hm2 | hm2
        · rw [hsame c2 hm2] at hd2
          rw [ec] at hd1
          injection hd1 with hd1
          rw [← hd1]
          exact fun e => hnames c2 (List.mem_of_mem_erase hm2) (Ne.symm hne12) d2 hd2 e.symm
        · rw [List.mem_singleton] at hm2
          exact absurd hm2.symm hne12
  · by_cases hqc : q = child
    · subst hqc
      rw [ec] at hx
      injection hx with hx
      subst hx
      have hcinv := hinv q c hc
      exact dir_inv_transfer s.dnodes _ q c hcinv (hag c hcinv.2.1)
    · rw [eq q hqc hqp] at hx
      have hnot : child ∉ x.children := by
        intro hm
        have := tree_inv_not_child s hinv q child x c hx hc hm
        rw [hcpar] at this
        injection this with this
        exact hqp this.symm
      exact dir_inv_transfer s.dnodes _ q x (hinv q x hx) (hag x hnot)

theorem tree_inv_create (s s1 : fs_state) (pdn d p : Nat) (pd : dnode_t) (name : Name)
    (hinv : tree_inv s) (hpd : s.dnodes pdn = some pd)
    (hfind : dn_find s.dnodes name pd.children = some none) (hd : s.dnodes d = none)
    (h1 : s1.dnodes d =
      some { name := name, vnode := some p, parent := some pdn, children := [] })
    (h2 : s1.dnodes pdn = some { pd with children := pd.children ++ [d] })
    (h3 : ∀ q, q ≠ d → q ≠ pdn → s1.dnodes q = s.dnodes q) : tree_inv s1 := by
  obtain ⟨hnd, hnotin, hlive, huniq⟩ := hinv pdn pd hpd
  have hne : pdn ≠ d := by
    intro e; rw [e, hd] at hpd; simp at hpd
  have hdead : ∀ (x : dnode_t) (q : Nat), s.dnodes q = some x → d ∉ x.children := by
    intro x q hx hm
    obtain ⟨dc, hdc, _⟩ := (hinv q x hx).2.2.1 d hm
    rw [hd] at hdc
    simp at hdc
  have hag : ∀ (x : dnode_t), d ∉ x.children → ∀ c3 ∈ x.children, ∀ dc,
      s.dnodes c3 = some dc →
      ∃ dc', s1.dnodes c3 = some dc' ∧ dc'.name = dc.name ∧ dc'.parent = dc.parent := by
    intro x hnot c3 hc3 dc hdc
    have h4 : c3 ≠ d := fun e => hnot (e ▸ hc3)
    by_cases h5 : c3 = pdn
    · subst h5
      rw [hpd] at hdc
      injection hdc with hdc
      subst hdc
      exact ⟨_, h2, rfl, rfl⟩
    · exact ⟨dc, by rw [h3 c3 h4 h5, hdc], rfl, rfl⟩
  have hnames := (dn_find_none_iff s.dnodes name pd.children).mp hfind
  have hdL : d ∉ pd.children := hdead pd pdn hpd
  have hsame : ∀ c' ∈ pd.children, s1.dnodes c' = s.dnodes c' := by
    intro c' hc'
    exact h3 c' (fun e => hdL (e ▸ hc')) (fun e => hnotin (e ▸ hc'))
  intro q x hx
  by_cases hqp : q = pdn
  · subst hqp
    rw [h2] at hx
    injection hx with hx
    subst hx
    refine ⟨?_, ?_, ?_, ?_⟩
    · exact List.Nodup.append hnd (List.nodup_singleton d)
        (by
          intro a ha hb
          rw [List.mem_singleton] at hb
          exact hdL (hb ▸ ha))
    · intro hm
      rcases List.mem_append.mp hm with hm | hm
      · exact hnotin hm
      · rw [List.mem_singleton] at hm
        exact hne hm
    · intro c' hc'
      rcases List.mem_append.mp hc' with hm | hm
      · obtain ⟨dc, hdc, hp⟩ := hlive c' hm
        exact ⟨dc, by rw [hsame c' hm, hdc], hp⟩
      · rw [List.mem_singleton] at hm
        subst hm
        exact ⟨_, h1, rfl⟩
    · intro c1 hc1 c2 hc2 hne12 d1 d2 hd1 hd2
      rcases List.mem_append.mp hc1 with hm1 | hm1
      · rcases List.mem_append.mp hc2 with hm2 | hm2
        · rw [hsame c1 hm1] at hd1
          rw [hsame c2 hm2] at hd2
          exact huniq c1 hm1 c2 hm2 hne12 d1 d2 hd1 hd2
        · rw [List.mem_singleton] at hm2
          subst hm2
          rw [hsame c1 hm1] at hd1
          rw [h1] at hd2
          injection hd2 with hd2
          rw [← hd2]
          obtain ⟨e1, he1, hn1⟩ := hnames c1 hm1
          rw [hd1] at he1
          injection he1 with he1
          rw [he1]
          exact hn1
      · rw [List.mem_singleton] at hm1
        subst hm1
        rcases List.mem_append.mp hc2 with hm2 | hm2
        · rw [hsame c2 hm2] at hd2
          rw [h1] at hd1
          injection hd1 with hd1
          rw [← hd1]
          obtain ⟨e2, he2, hn2⟩ := hnames c2 hm2
          rw [hd2] at he2
          injection he2 with he2
          rw [he2]
          exact fun e => hn2 e.symm
        · rw [List.mem_singleton] at hm2
          exact absurd hm2.symm hne12
  · by_cases hqd : q = d
    · subst hqd
      rw [h1] at hx
      injection hx with hx
      subst hx
      exact ⟨List.nodup_nil, by simp, by simp, by simp⟩
    · rw [h3 q hqd hqp] at hx
      exact dir_inv_transfer s.dnodes _ q x (hinv q x hx) (hag x (hdead x q hx))

theorem dn_lookup_shape (s : fs_state) (pdn : Nat) (name : Name) (r : mx_status_t)
    (out : Option Nat) (h : dn_lookup s pdn name = some (r, out)) :
    (r = ERR_NOT_FOUND ∧ out = none) ∨ (r = NO_ERROR ∧ ∃ dn, out = some dn) := by
  unfold dn_lookup at h
  repeat' split at h
  all_goals first
    | (injection h with h; injection h with h1 h2; left; exact ⟨h1.symm, h2.symm⟩)
    | (injection h with h; injection h with h1 h2; right; exact ⟨h1.symm, _, h2.symm⟩)
    | cases h

theorem mem_create_inner_cases (s s1 : fs_state) (parent : Option Nat) (name : Name)
    (isdir : Bool) (ma da : Option Nat) (r : mx_status_t) (out : Option Nat)
    (h : _mem_create s parent name isdir ma da = some (s1, r, out)) :
    s1.dnodes = s.dnodes ∨
    ∃ par pv pdn pd p d, parent = some par ∧ s.vnodes par = some pv ∧
      pv.vn.dnode = some pdn ∧ s.dnodes pdn = some pd ∧
      dn_find s.dnodes name pd.children = some none ∧ ma = some p ∧ da = some d := by
  unfold _mem_create at h
  cases parent with
  | none =>
    left
    simp only [] at h
    injection h with h
    injection h with h _
    rw [← h]
  | some par =>
    simp only [] at h
    cases hpv : s.vnodes par with
    | none => rw [hpv] at h; cases h
    | some pv =>
      rw [hpv] at h
      simp only [] at h
      cases hdir : pv.vn.dnode with
      | none =>
        left
        rw [hdir] at h
        injection h with h
        injection h with h _
        rw [← h]
      | some pdn =>
        rw [hdir] at h
        simp only [] at h
        cases ma with
        | none =>
          left
          injection h with h
          injection h with h _
          rw [← h]
        | some p =>
          simp only [dn_lookup_set_vnode] at h
          cases hl : dn_lookup s pdn name with
          | none => rw [hl] at h; cases h
          | some ro =>
            obtain ⟨r0, o0⟩ := ro
            rw [hl] at h
            simp only [] at h
            rcases dn_lookup_shape s pdn name r0 o0 hl with ⟨hr, ho⟩ | ⟨hr, _⟩
            · subst hr ho
              rw [if_neg (by decide)] at h
              obtain ⟨pd, hpd, hfind⟩ := dn_lookup_not_found s pdn name hl
              cases da with
              | none =>
                left
                simp only [dn_create, mx_status_t.isErr, ↓reduceIte] at h
                injection h with h
                injection h with h _
                rw [← h]
                rfl
              | some d =>
                right
                exact ⟨par, pv, pdn, pd, p, d, rfl, hpv, hdir, hpd, hfind, rfl, rfl⟩
            · left
              subst hr
              rw [if_pos rfl] at h
              injection h with h
              injection h with h _
              rw [← h]
              rfl

theorem mem_create_dnodes (s s' : fs_state) (parent : Option Nat) (name : Name) (mode : Nat)
    (ma da : Option Nat) (r : mx_status_t) (out : Option Nat)
    (h : mem_create s parent name mode ma da = some (s', r, out)) :
    ∃ s1 r1 m1, _mem_create s parent name (S_ISDIR mode) ma da = some (s1, r1, m1) ∧
      s'.dnodes = s1.dnodes := by
  unfold mem_create at h
  cases hc : _mem_create s parent name (S_ISDIR mode) ma da with
  | none => rw [hc] at h; cases h
  | some x =>
    obtain ⟨s1, r1, m1⟩ := x
    rw [hc] at h
    refine ⟨s1, r1, m1, rfl, ?_⟩
    simp only [] at h
    split at h
    · split at h
      · cases h
      · rename_i mem
        cases ha : vn_acquire s1 mem with
        | none => rw [ha] at h; cases h
        | some s2 =>
          rw [ha] at h
          injection h with h
          injection h with h _
          rw [← h]
          exact vn_acquire_dnodes s1 s2 mem ha
    · injection h with h
      injection h with h _
      rw [← h]

theorem tree_inv_mem_create (s s' : fs_state) (parent : Option Nat) (name : Name) (mode : Nat)
    (ma da : Option Nat) (r : mx_status_t) (out : Option Nat) (hinv : tree_inv s)
    (hfresh : fresh_alloc s ma da = true)
    (h : mem_create s parent name mode ma da = some (s', r, out)) : tree_inv s' := by
  obtain ⟨s1, r1, m1, hc, hD⟩ := mem_create_dnodes s s' parent name mode ma da r out h
  apply tree_inv_congr s1 s' hD
  rcases mem_create_inner_cases s s1 parent name _ ma da r1 m1 hc with hsame |
    ⟨par, pv, pdn, pd, p, d, hpar, hpv, hdir, hpd, hfind, hma, hda⟩
  · exact tree_inv_congr s s1 hsame hinv
  · subst hpar hma hda
    have hd : s.dnodes d = none := by
      simp only [fresh_alloc, Bool.and_eq_true, Option.isNone_iff_eq_none] at hfresh
      exact hfresh.2
    obtain ⟨s2, hc2, _, _, e1, e2, e3⟩ :=
      mem_create_inner_spec s par pdn p d pv pd name (S_ISDIR mode) hpv hdir hpd hfind hd
    rw [hc2] at hc
    injection hc with hc
    injection hc with hc _
    subst hc
    exact tree_inv_create s s2 pdn d p pd name hinv hpd hfind hd e1 e2 e3

theorem memfs_unlink_cases (s s' : fs_state) (vn : Nat) (name : Name) (r : mx_status_t)
    (h : memfs_unlink s vn name = some (s', r)) :
    s' = s ∨ ∃ dn, dn_delete s dn = some s' := by
  simp only [memfs_unlink] at h
  repeat' split at h
  all_goals first
    | (left; exact result_state_eq h)
    | (right; rename_i hdel; injection h with h; injection h with h _; subst h;
       exact ⟨_, hdel⟩)
    | cases h

theorem tree_inv_unlink (s s' : fs_state) (vn : Nat) (name : Name) (r : mx_status_t)
    (hinv : tree_inv s) (h : memfs_unlink s vn name = some (s', r)) : tree_inv s' := by
  rcases memfs_unlink_cases s s' vn name r h with hs | ⟨dn, hdel⟩
  · rw [hs]; exact hinv
  · exact tree_inv_delete s s' dn hinv hdel

theorem result_err_eq {s s' : fs_state} {r r' : mx_status_t}
    (h : some (s, r) = some (s', r')) (hr : r ≠ NO_ERROR) : s' = s ∧ r' ≠ NO_ERROR := by
  injection h with h
  injection h with h1 h2
  exact ⟨h1.symm, h2 ▸ hr⟩

theorem rename_relocate_cases (s s' : fs_state) (ndn olddn : Nat) (newname : Name)
    (r : mx_status_t) (h : rename_relocate s ndn olddn newname = some (s', r)) :
    dn_move_child s ndn olddn newname = some s' := by
  unfold rename_relocate at h
  split at h
  · cases h
  · rename_i s1 hmv
    injection h with h
    injection h with h _
    rw [← h]
    exact hmv

theorem rename_onto_cases (s s' : fs_state) (ndn olddn newdn : Nat) (newname : Name)
    (r : mx_status_t) (h : rename_onto s ndn olddn newdn newname = some (s', r)) :
    (s' = s ∧ r ≠ NO_ERROR) ∨ (olddn ≠ newdn ∧ ∃ s1, dn_delete s newdn = some s1 ∧
      dn_move_child s1 ndn olddn newname = some s') := by
  simp only [rename_onto] at h
  cases hod : s.dnodes olddn with
  | none => rw [hod] at h; cases h
  | some od =>
    cases hnd : s.dnodes newdn with
    | none => rw [hod, hnd] at h; cases h
    | some nd =>
      rw [hod, hnd] at h
      simp only [] at h
      by_cases hv : od.vnode = nd.vnode
      · left
        rw [if_pos hv] at h
        exact result_err_eq h (by decide)
      · rw [if_neg hv] at h
        have hne : olddn ≠ newdn := by
          intro e
          rw [e, hnd] at hod
          injection hod with hod
          exact hv (by rw [hod])
        repeat' split at h
        all_goals first
          | (left; exact result_err_eq h (by decide))
          | (left; rename_i hr; exact result_err_eq h
              (fun e => by subst e; simp [mx_status_t.isErr] at hr))
          | (right; rename_i hdel; exact ⟨hne, _, hdel, rename_relocate_cases _ _ _ _ _ _ h⟩)
          | cases h

theorem memfs_rename_cases (s s' : fs_state) (olddir newdir : Nat) (oldname newname : Name)
    (r : mx_status_t) (h : memfs_rename s olddir newdir oldname newname = some (s', r)) :
    (s' = s ∧ r ≠ NO_ERROR) ∨
    ∃ ov dn olddn, s.vnodes olddir = some ov ∧ ov.vn.dnode = some dn ∧
      dn_lookup s dn oldname = some (NO_ERROR, some olddn) ∧
      ((dn_lookup s dn newname = some (ERR_NOT_FOUND, none) ∧
          dn_move_child s dn olddn newname = some s') ∨
       (∃ newdn s1, dn_lookup s dn newname = some (NO_ERROR, some newdn) ∧
          olddn ≠ newdn ∧ dn_delete s newdn = some s1 ∧
          dn_move_child s1 dn olddn newname = some s')) := by
  cases hov : s.vnodes olddir with
  | none => simp [memfs_rename, hov] at h
  | some ov =>
    cases hod : ov.vn.dnode with
    | none =>
      left
      simp only [memfs_rename, hov, hod] at h
      exact result_err_eq h (by decide)
    | some odn =>
      cases hnv : s.vnodes newdir with
      | none => simp [memfs_rename, hov, hod, hnv] at h
      | some nv =>
        cases hnd : nv.vn.dnode with
        | none =>
          left
          simp only [memfs_rename, hov, hod, hnv, hnd] at h
          exact result_err_eq h (by decide)
        | some ndn =>
          rw [memfs_rename_dirs s olddir newdir odn ndn ov nv oldname newname hov hod hnv hnd]
            at h
          by_cases h1 : is_dot oldname = true
          · left; rw [if_pos h1] at h; exact result_err_eq h (by decide)
          rw [if_neg h1] at h
          by_cases h2 : is_dotdot oldname = true
          · left; rw [if_pos h2] at h; exact result_err_eq h (by decide)
          rw [if_neg h2] at h
          by_cases h3 : is_dot newname = true
          · left; rw [if_pos h3] at h; exact result_err_eq h (by decide)
          rw [if_neg h3] at h
          by_cases h4 : is_dotdot newname = true
          · left; rw [if_pos h4] at h; exact result_err_eq h (by decide)
          rw [if_neg h4] at h
          by_cases h5 : odn ≠ ndn
          · left; rw [if_pos h5] at h; exact result_err_eq h (by decide)
          rw [if_neg h5] at h
          have h5' : odn = ndn := not_not.mp h5
          subst h5'
          cases hlo : dn_lookup s odn oldname with
          | none => rw [hlo] at h; cases h
          | some ro =>
            obtain ⟨r0, o0⟩ := ro
            rw [hlo] at h
            simp only [] at h
            rcases dn_lookup_shape s odn oldname r0 o0 hlo with ⟨hr, ho⟩ | ⟨hr, olddn, ho⟩
            · left
              subst hr ho
              simp only [mx_status_t.isErr, ↓reduceIte] at h
              exact result_err_eq h (by decide)
            · subst hr ho
              simp only [mx_status_t.isErr, Bool.false_eq_true, ↓reduceIte] at h
              cases hln : dn_lookup s odn newname with
              | none => rw [hln] at h; cases h
              | some rn =>
                obtain ⟨r1, o1⟩ := rn
                rw [hln] at h
                simp only [] at h
                rcases dn_lookup_shape s odn newname r1 o1 hln with ⟨hr, ho⟩ | ⟨hr, newdn, ho⟩
                · subst hr ho
                  rw [if_neg (by decide), if_neg (by decide)] at h
                  right
                  exact ⟨ov, odn, olddn, rfl, hod, hlo, Or.inl
                    ⟨hln, rename_relocate_cases _ _ _ _ _ _ h⟩⟩
                · subst hr ho
                  rw [if_pos rfl] at h
                  simp only [] at h
                  rcases rename_onto_cases s s' odn olddn newdn newname r h with hs |
                    ⟨hne, s1, hdel, hmv⟩
                  · left; exact hs
                  · right
                    exact ⟨ov, odn, olddn, rfl, hod, hlo, Or.inr
                      ⟨newdn, s1, hln, hne, hdel, hmv⟩⟩

theorem tree_inv_move_step (s s' : fs_state) (dn olddn : Nat) (pd : dnode_t) (y : Name)
    (hinv : tree_inv s) (hpd : s.dnodes dn = some pd) (hmem : olddn ∈ pd.children)
    (hnames : ∀ c' ∈ pd.children, c' ≠ olddn → ∀ dc, s.dnodes c' = some dc → dc.name ≠ y)
    (hmv : dn_move_child s dn olddn y = some s') :
    tree_inv s' ∧ ∃ pd' c', s'.dnodes dn = some pd' ∧ olddn ∈ pd'.children ∧
      s'.dnodes olddn = some c' ∧ c'.name = y := by
  obtain ⟨_, hnotin, hlive, _⟩ := hinv dn pd hpd
  obtain ⟨c, hc, hpar⟩ := hlive olddn hmem
  have hne : olddn ≠ dn := fun e => hnotin (e ▸ hmem)
  obtain ⟨s2, hmv2, _, ec, ep, eq⟩ := dn_move_child_spec s dn olddn c pd y hc hpar hpd hne
  rw [hmv] at hmv2
  injection hmv2 with hmv2
  subst hmv2
  refine ⟨tree_inv_move s s' dn olddn pd c y hinv hpd hmem hc hnames ec ep eq, _, _, ep, ?_,
    ec, rfl⟩
  exact List.mem_append.mpr (Or.inr (List.mem_singleton.mpr rfl))

theorem tree_inv_rename (s s' : fs_state) (olddir newdir : Nat) (oldname newname : Name)
    (r : mx_status_t) (hinv : tree_inv s)
    (h : memfs_rename s olddir newdir oldname newname = some (s', r)) :
    tree_inv s' ∧
    ((s' = s ∧ r ≠ NO_ERROR) ∨ ∃ ov dn olddn pd' c', s.vnodes olddir = some ov ∧ ov.vn.dnode = some dn ∧
      s'.dnodes dn = some pd' ∧ olddn ∈ pd'.children ∧
      s'.dnodes olddn = some c' ∧ c'.name = newname) := by
  rcases memfs_rename_cases s s' olddir newdir oldname newname r h with hs |
    ⟨ov, dn, olddn, hov, hod, hlo, hcase⟩
  · rw [hs.1]; exact ⟨hinv, Or.inl ⟨rfl, hs.2⟩⟩
  · obtain ⟨pd, hpd, hfo⟩ := dn_lookup_found s dn oldname olddn hlo
    obtain ⟨hmemo, _⟩ := dn_find_some _ _ _ _ hfo
    rcases hcase with ⟨hln, hmv⟩ | ⟨newdn, s1, hln, hne, hdel, hmv⟩
    · obtain ⟨pd2, hpd2, hfn⟩ := dn_lookup_not_found s dn newname hln
      rw [hpd] at hpd2
      injection hpd2 with hpd2
      subst hpd2
      have hnames : ∀ c' ∈ pd.children, c' ≠ olddn → ∀ dc, s.dnodes c' = some dc →
          dc.name ≠ newname := by
        intro c' hc' _ dc hdc
        obtain ⟨e, he, hn⟩ := (dn_find_none_iff s.dnodes newname pd.children).mp hfn c' hc'
        rw [hdc] at he
        injection he with he
        rw [he]; exact hn
      obtain ⟨hi, pd', c', h1, h2, h3, h4⟩ :=
        tree_inv_move_step s s' dn olddn pd newname hinv hpd hmemo hnames hmv
      exact ⟨hi, Or.inr ⟨ov, dn, olddn, pd', c', hov, hod, h1, h2, h3, h4⟩⟩
    · obtain ⟨pd2, hpd2, hfn⟩ := dn_lookup_found s dn newname newdn hln
      rw [hpd] at hpd2
      injection hpd2 with hpd2
      subst hpd2
      obtain ⟨hmemn, nd, hnd, hnname⟩ := dn_find_some _ _ _ _ hfn
      obtain ⟨hnodup, hnotin, hlive, huniq⟩ := hinv dn pd hpd
      have hnpar : nd.parent = some dn :=
        tree_inv_not_child s hinv dn newdn pd nd hpd hnd hmemn
      have hinv1 := tree_inv_delete s s1 newdn hinv hdel
      obtain ⟨d0, hd0, hD⟩ := dn_delete_dnodes s s1 newdn hdel
      rw [hnd] at hd0
      injection hd0 with hd0
      subst hd0
      have hD1 : s1.dnodes = Function.update (Function.update s.dnodes dn
          (some { pd with children := pd.children.erase newdn })) newdn none := by
        rcases hD with ⟨hp, _⟩ | ⟨p, pd3, hp, hpd3, hD⟩
        · rw [hnpar] at hp; cases hp
        · rw [hnpar] at hp
          injection hp with hp
          subst hp
          rw [hpd] at hpd3
          injection hpd3 with hpd3
          subst hpd3
          exact hD
      have hdn_ne : dn ≠ newdn := fun e => hnotin (e ▸ hmemn)
      have hpd1 : s1.dnodes dn = some { pd with children := pd.children.erase newdn } := by
        rw [hD1, Function.update_noteq hdn_ne, Function.update_same]
      have hmem1 : olddn ∈ pd.children.erase newdn :=
        (List.Nodup.mem_erase_iff hnodup).mpr ⟨hne, hmemo⟩
      have hnames : ∀ c' ∈ pd.children.erase newdn, c' ≠ olddn →
          ∀ dc, s1.dnodes c' = some dc → dc.name ≠ newname := by
        intro c' hc' _ dc hdc
        have hc2 := (List.Nodup.mem_erase_iff hnodup).mp hc'
        have hcdn : c' ≠ dn := fun e => hnotin (e ▸ hc2.2)
        rw [hD1, Function.update_noteq hc2.1, Function.update_noteq hcdn] at hdc
        rw [← hnname]
        exact huniq c' hc2.2 newdn hmemn hc2.1 dc nd hdc hnd
      obtain ⟨hi, pd', c', h1, h2, h3, h4⟩ :=
        tree_inv_move_step s1 s' dn olddn _ newname hinv1 hpd1 hmem1 hnames hmv
      exact ⟨hi, Or.inr ⟨ov, dn, olddn, pd', c', hov, hod, h1, h2, h3, h4⟩⟩

theorem tree_inv_apply_op (s s' : fs_state) (op : fs_op) (hinv : tree_inv s)
    (h : apply_op s op = some s') : tree_inv s' := by
  cases op with
  | create parent name mode ma da =>
    simp only [apply_op] at h
    split at h
    · rename_i hfresh
      cases hc : mem_create s parent name mode ma da with
      | none => rw [hc] at h; cases h
      | some x =>
        obtain ⟨s1, r, out⟩ := x
        rw [hc] at h
        injection h with h
        subst h
        exact tree_inv_mem_create s s1 parent name mode ma da r out hinv hfresh hc
    · cases h
  | unlink vn name =>
    simp only [apply_op] at h
    cases hc : memfs_unlink s vn name with
    | none => rw [hc] at h; cases h
    | some x =>
      obtain ⟨s1, r⟩ := x
      rw [hc] at h
      injection h with h
      subst h
      exact tree_inv_unlink s s1 vn name r hinv hc
  | rename olddir newdir oldname newname =>
    simp only [apply_op] at h
    cases hc : memfs_rename s olddir newdir oldname newname with
    | none => rw [hc] at h; cases h
    | some x =>
      obtain ⟨s1, r⟩ := x
      rw [hc] at h
      injection h with h
      subst h
      exact (tree_inv_rename s s1 olddir newdir oldname newname r hinv hc).1

theorem tree_inv_run_ops : ∀ (ops : List fs_op) (s s' : fs_state), tree_inv s →
    run_ops s ops = some s' → tree_inv s' := by
  intro ops
  induction ops with
  | nil =>
    intro s s' hinv h
    simp only [run_ops] at h
    injection h with h
    rw [← h]; exact hinv
  | cons op ops ih =>
    intro s s' hinv h
    simp only [run_ops] at h
    cases ha : apply_op s op with
    | none => rw [ha] at h; cases h
    | some s1 =>
      rw [ha] at h
      exact ih s1 s' (tree_inv_apply_op s s1 op hinv ha) h

/-- C17. Sibling-name uniqueness: from a heap that satisfies the tree
invariant (children distinct, allocated and linked to their parent, names
unique among siblings), every heap reached by a sequence of create, unlink
and rename calls, whatever they return, satisfies it again, so no directory
has two children with the same name; and after a rename that returns
`NO_ERROR` the directory has exactly one child called `newname`. -/
theorem sibling_names_unique (s s' : fs_state) (ops : List fs_op) (hinv : tree_inv s)
    (h : run_ops s ops = some s') :
    tree_inv s' ∧ names_unique s' ∧
    (∀ dir dv dn x y t, s'.vnodes dir = some dv → dv.vn.dnode = some dn →
      memfs_rename s' dir dir x y = some (t, NO_ERROR) →
      ∃ pd' c, t.dnodes dn = some pd' ∧ c ∈ pd'.children ∧
        (∃ dc, t.dnodes c = some dc ∧ dc.name = y) ∧
        ∀ c' ∈ pd'.children, ∀ dc', t.dnodes c' = some dc' → dc'.name = y → c' = c) := by
  have hinv' := tree_inv_run_ops ops s s' hinv h
  refine ⟨hinv', fun p x hx => (hinv' p x hx).2.2.2, ?_⟩
  intro dir dv dn x y t hdv hdd hren
  obtain ⟨hit, hcase⟩ := tree_inv_rename s' t dir dir x y NO_ERROR hinv' hren
  rcases hcase with ⟨_, hr⟩ | ⟨ov, dn2, olddn, pd', c', hov, hod, h1, h2, h3, h4⟩
  · exact absurd rfl hr
  · rw [hdv] at hov
    injection hov with hov
    subst hov
    rw [hdd] at hod
    injection hod with hod
    subst hod
    refine ⟨pd', olddn, h1, h2, ⟨c', h3, h4⟩, ?_⟩
    intro c2 hc2 dc2 hdc2 hn2
    by_contra hne
    exact (hit dn pd' h1).2.2.2 c2 hc2 olddn h2 hne dc2 c' hdc2 h3 (by rw [hn2, h4])

theorem tree_state_inv : tree_inv tree_state := by
  have hlive : ∀ p x, tree_state.dnodes p = some x →
      p = 0 ∨ p = 1 ∨ p = 2 ∨ p = 3 ∨ p = 4 := by
    intro p x hx
    by_contra hn
    simp only [not_or] at hn
    simp [tree_state, hn.1, hn.2.1, hn.2.2.1, hn.2.2.2.1, hn.2.2.2.2] at hx
  intro p x hx
  rcases hlive p x hx with h | h | h | h | h
  all_goals
    subst h
    injection hx with hx
    subst hx
    refine ⟨by decide, by decide, ?_, ?_⟩
  · intro c hc
    simp only [List.mem_cons, List.mem_singleton, List.not_mem_nil, or_false] at hc
    rcases hc with h | h | h <;> subst h <;> exact ⟨_, rfl, rfl⟩
  · intro c1 hc1 c2 hc2 hne d1 d2 hd1 hd2
    simp only [List.mem_cons, List.mem_singleton, List.not_mem_nil, or_false] at hc1 hc2
    rcases hc1 with h | h | h <;> subst h <;> rcases hc2 with h | h | h <;> subst h <;>
      first
      | exact absurd rfl hne
      | (injection hd1 with hd1; injection hd2 with hd2; subst hd1 hd2; decide)
  · intro c hc; simp at hc
  · intro c1 hc1; simp at hc1
  · intro c hc; simp at hc
  · intro c1 hc1; simp at hc1
  · intro c hc
    simp only [List.mem_singleton] at hc
    subst hc
    exact ⟨_, rfl, rfl⟩
  · intro c1 hc1 c2 hc2 hne
    simp only [List.mem_singleton] at hc1 hc2
    exact absurd (hc1.trans hc2.symm) hne
  · intro c hc; simp at hc
  · intro c1 hc1; simp at hc1

/-- C17 on the tree, for the calls of `example_ops`. -/
theorem sibling_names_unique_witness :
    tree_inv tree_state ∧
    ∃ s', run_ops tree_state example_ops = some s' ∧ tree_inv s' ∧ names_unique s' := by
  refine ⟨tree_state_inv, _, rfl, ?_⟩
  have h := sibling_names_unique tree_state _ example_ops tree_state_inv rfl
  exact ⟨h.1, h.2.1⟩

/-! ## Operation tables and mount points -/

/-- C13 fails on the code for a created directory: `mem_create` with a
directory mode in the local root yields a vnode that is a directory (its
`dnode` is set) and whose operation table is `vn_mem_ops`, the table of
files; the `.write` entry of that table commits the ten bytes (length 10,
block 0 allocated) and its `.read` entry returns them. The two static
directories use `vn_mem_ops_dir`, whose entries return `ERR_NOT_SUPPORTED`
and change nothing. -/
theorem created_directory_uses_file_table :
    (∃ s1 m m',
      mem_create root_state (some 0) ['x'] 0o040000 (some 1) (some 1) =
        some (s1, NO_ERROR, some 1) ∧
      s1.vnodes 1 = some m ∧ m.vn.dnode.isSome = true ∧
      m.vn.ops = some vnode_ops_t.vn_mem_ops ∧
      ops_write vnode_ops_t.vn_mem_ops calloc_always m digits 10 0 =
        Run.done (m', ssize_t.count 10) ∧
      m'.datalen = 10 ∧ (m'.block 0).isSome = true ∧
      ops_read vnode_ops_t.vn_mem_ops m' 10 0 =
        Run.done ([48, 49, 50, 51, 52, 53, 54, 55, 56, 57], ssize_t.count 10)) ∧
    root_mnode.vn.ops = some vnode_ops_t.vn_mem_ops_dir ∧
    vfs_root_mnode.vn.ops = some vnode_ops_t.vn_mem_ops_dir ∧
    (∀ mem len off, ops_read vnode_ops_t.vn_mem_ops_dir mem len off =
      Run.done ([], ssize_t.status ERR_NOT_SUPPORTED)) ∧
    (∀ calloc_ok mem data len off, ops_write vnode_ops_t.vn_mem_ops_dir calloc_ok mem data
      len off = Run.done (mem, ssize_t.status ERR_NOT_SUPPORTED)) :=
  ⟨⟨_, _, _, rfl, rfl, rfl, rfl, rfl, rfl, rfl, rfl⟩, rfl, rfl, fun _ _ _ => rfl,
    fun _ _ _ _ _ => rfl⟩

/-- C14 as stated fails: on the file "a" of the tree, lookup, create, unlink
and rename return `ERR_NOT_FOUND`, `ERR_INVALID_ARGS`, `ERR_NOT_DIR` and
`ERR_BAD_STATE`, none of them `ERR_NOT_SUPPORTED`. -/
theorem file_directory_ops_counterexample :
    ¬ (memfs_lookup tree_state 1 ['b'] = some (tree_state, ERR_NOT_SUPPORTED, none)) ∧
    ¬ (mem_create tree_state (some 1) ['b'] 0 (some 7) (some 7) =
        some (tree_state, ERR_NOT_SUPPORTED, none)) ∧
    ¬ (memfs_unlink tree_state 1 ['b'] = some (tree_state, ERR_NOT_SUPPORTED)) ∧
    ¬ (memfs_rename tree_state 1 1 ['b'] ['c'] = some (tree_state, ERR_NOT_SUPPORTED)) := by
  have h1 : memfs_lookup tree_state 1 ['b'] = some (tree_state, ERR_NOT_FOUND, none) := rfl
  have h2 : mem_create tree_state (some 1) ['b'] 0 (some 7) (some 7) =
      some (tree_state, ERR_INVALID_ARGS, none) := rfl
  have h3 : memfs_unlink tree_state 1 ['b'] = some (tree_state, ERR_NOT_DIR) := rfl
  have h4 : memfs_rename tree_state 1 1 ['b'] ['c'] = some (tree_state, ERR_BAD_STATE) := rfl
  refine ⟨?_, ?_, ?_, ?_⟩
  · intro h
    rw [h1] at h
    injection h with h
    injection h with _ h
    injection h with h _
    cases h
  · intro h
    rw [h2] at h
    injection h with h
    injection h with _ h
    injection h with h _
    cases h
  · intro h
    rw [h3] at h
    injection h with h
    injection h with _ h
    cases h
  · intro h
    rw [h4] at h
    injection h with h
    injection h with _ h
    cases h

/-- C14, amended: on a file vnode (no entry attached) `memfs_lookup` and
`memfs_readdir` return `ERR_NOT_FOUND`, `mem_create` returns
`ERR_INVALID_ARGS`, `memfs_unlink` returns `ERR_NOT_DIR` and `memfs_rename`
with the file as old or new directory returns an error status; every one of
these calls leaves the heap, reference counts included, as it was and stores
no vnode at `out`. -/
theorem file_directory_ops (s : fs_state) (f : Nat) (m : mnode_t)
    (hf : s.vnodes f = some m) (hfile : m.vn.dnode = none) :
    (∀ name, memfs_lookup s f name = some (s, ERR_NOT_FOUND, none)) ∧
    (∀ dn_readdir, memfs_readdir dn_readdir s f = some (s, ssize_t.status ERR_NOT_FOUND)) ∧
    (∀ name mode ma da,
      mem_create s (some f) name mode ma da = some (s, ERR_INVALID_ARGS, none)) ∧
    (∀ name, memfs_unlink s f name = some (s, ERR_NOT_DIR)) ∧
    (∀ other oldname newname,
      ∃ r, memfs_rename s f other oldname newname = some (s, r) ∧ r ≠ NO_ERROR) ∧
    (∀ other ov oldname newname, s.vnodes other = some ov →
      ∃ r, memfs_rename s other f oldname newname = some (s, r) ∧ r ≠ NO_ERROR) := by
  refine ⟨?_, ?_, ?_, ?_, ?_, ?_⟩
  · intro name
    simp only [memfs_lookup, hf, hfile]
  · intro dn_readdir
    simp only [memfs_readdir, hf, hfile]
  · intro name mode ma da
    simp only [mem_create, _mem_create, hf, hfile, mx_status_t.isErr]
    rfl
  · intro name
    simp only [memfs_unlink, hf, hfile]
  · intro other oldname newname
    refine ⟨ERR_BAD_STATE, ?_, by decide⟩
    simp only [memfs_rename, hf, hfile]
  · intro other ov oldname newname hov
    cases hod : ov.vn.dnode with
    | none =>
      refine ⟨ERR_BAD_STATE, ?_, by decide⟩
      simp only [memfs_rename, hov, hod]
    | some odn =>
      refine ⟨ERR_BAD_STATE, ?_, by decide⟩
      simp only [memfs_rename, hov, hod, hf, hfile]

/-- C14, amended, on the file "a" of the tree. -/
theorem file_directory_ops_witness :
    memfs_lookup tree_state 1 ['b'] = some (tree_state, ERR_NOT_FOUND, none) ∧
    mem_create tree_state (some 1) ['b'] 0 (some 7) (some 7) =
      some (tree_state, ERR_INVALID_ARGS, none) ∧
    memfs_unlink tree_state 1 ['b'] = some (tree_state, ERR_NOT_DIR) ∧
    (∃ r, memfs_rename tree_state 0 1 ['d'] ['c'] = some (tree_state, r) ∧ r ≠ NO_ERROR) :=
  ⟨(file_directory_ops tree_state 1 (file_mnode 2) rfl rfl).1 ['b'],
   (file_directory_ops tree_state 1 (file_mnode 2) rfl rfl).2.2.1 ['b'] 0 (some 7) (some 7),
   (file_directory_ops tree_state 1 (file_mnode 2) rfl rfl).2.2.2.1 ['b'],
   (file_directory_ops tree_state 1 (file_mnode 2) rfl rfl).2.2.2.2.2 0 root_mnode ['d'] ['c']
     rfl⟩

/-- C15 fails on the code for the mount point "socket": after the global root
is wired (`vn_data` at 4, `vn_socket` at 5), handle 11 is installed on "data"
and handle 22 on "socket"; installing handle 33 on "socket" then closes
handle 11, the handle of "data", and not handle 22. Replacing the handle of
"data" does close the handle it replaces, and a vnode that is neither mount
point is refused with the state unchanged. -/
theorem install_remote_closes_data_handle :
    ∃ w w1 w2 w3 w4 m4 m5,
      vfs_create_global_root boot_state 2 3 (some 4) (some 4) (some 5) (some 5) =
        some (w, VFS_ROOT) ∧
      w.vn_data = some 4 ∧ w.vn_socket = some 5 ∧
      vfs_install_remote w 4 11 = some (w1, NO_ERROR) ∧
      vfs_install_remote w1 5 22 = some (w2, NO_ERROR) ∧
      vfs_install_remote w2 5 33 = some (w3, NO_ERROR) ∧
      w2.closed = [] ∧ w3.closed = [11] ∧
      w3.fs.vnodes 4 = some m4 ∧ m4.vn.remote = 11 ∧
      w3.fs.vnodes 5 = some m5 ∧ m5.vn.remote = 33 ∧
      vfs_install_remote w1 4 44 = some (w4, NO_ERROR) ∧ w4.closed = [11] ∧
      vfs_install_remote w2 0 55 = some (w2, ERR_ACCESS_DENIED) :=
  ⟨_, _, _, _, _, _, _, rfl, rfl, rfl, rfl, rfl, rfl, rfl, rfl, rfl, rfl, rfl, rfl, rfl, rfl,
    rfl⟩

end Memfs
